import Mathlib

set_option maxRecDepth 40000

/-!
Verification development for the OOXML tracked-change editing core.

Two tree models are used, matching the two XML libraries the code uses:

* `XNode` models `defusedxml.minidom` trees (text nodes are children,
  tag names keep their namespace prefix such as "w:del", elements carry an
  optional parse-time line number).  This is the model for the tree editor
  (`XMLEditor`), the attribute injector and the tracked-change transforms
  (`DocxXMLEditor`), and the `Document` comment orchestration.
* `ENode` models `xml.etree.ElementTree` / `lxml.etree` trees (elements
  only, with `text` and `tail` string fields, tag and attribute names in
  Clark notation "\x7bnamespace\x7dlocal").  This is the model for the
  redlining validator and the schema validation engine.

String-valued randomness (hex ids), timestamps and the session rsid are
passed in explicitly through a configuration record; the auto-incremented
change id is threaded as explicit state, initialised by the caller from the
document maximum exactly as `_get_next_change_id` computes it.
-/

/-- Tree model of `defusedxml.minidom` nodes: text nodes are ordinary
children; elements carry tag (with namespace prefix), an ordered attribute
list, the optional parse-time line number (`parse_position`), and children. -/
inductive XNode where
  | text (s : String)
  | elem (tag : String) (attrs : List (String × String)) (line : Option Nat) (children : List XNode)
deriving Repr

mutual

def XNode.beq : XNode → XNode → Bool
  | .text s, .text t => s == t
  | .elem tg a ln cs, .elem tg' a' ln' cs' =>
      tg == tg' && a == a' && ln == ln' && XNode.beqL cs cs'
  | _, _ => false

def XNode.beqL : List XNode → List XNode → Bool
  | [], [] => true
  | c :: cs, d :: ds => XNode.beq c d && XNode.beqL cs ds
  | _, _ => false

end

/-- Tree model of `xml.etree.ElementTree` elements: children are elements
only; character data lives in the `text` field (text before the first child)
and in each child's `tail` field (text after that child). -/
inductive ENode where
  | mk (tag : String) (attrs : List (String × String)) (text : String)
       (children : List ENode) (tail : String)
deriving Repr

mutual

def ENode.beq : ENode → ENode → Bool
  | .mk tg a tx cs tl, .mk tg' a' tx' cs' tl' =>
      tg == tg' && a == a' && tx == tx' && tl == tl' && ENode.beqL cs cs'

def ENode.beqL : List ENode → List ENode → Bool
  | [], [] => true
  | c :: cs, d :: ds => ENode.beq c d && ENode.beqL cs ds
  | _, _ => false

end

def ENode.tag : ENode → String
  | .mk tg _ _ _ _ => tg

def ENode.attrs : ENode → List (String × String)
  | .mk _ a _ _ _ => a

def ENode.text : ENode → String
  | .mk _ _ tx _ _ => tx

def ENode.children : ENode → List ENode
  | .mk _ _ _ cs _ => cs

/-- `Element.get(name)` of ElementTree: `none` when the attribute is absent. -/
def ENode.get (n : ENode) (name : String) : Option String :=
  n.attrs.lookup name

/- ==================== Redlining validator (redlining.py) ==================== -/

namespace Redlining

def wNS : String := "http://schemas.openxmlformats.org/wordprocessingml/2006/main"

/-- Clark-notation tag in the main WordprocessingML namespace. -/
def clarkW (name : String) : String := "\x7b" ++ wNS ++ "\x7d" ++ name

def insTag : String := clarkW "ins"
def delTag : String := clarkW "del"
def delTextTag : String := clarkW "delText"
def tTag : String := clarkW "t"
def pTag : String := clarkW "p"
def authorAttr : String := clarkW "author"

/-- Is this element a `w:ins`/`w:del` with the given author attribute value? -/
def isAuthorRegion (regionTag author : String) (n : ENode) : Bool :=
  n.tag == regionTag && n.get authorAttr == some author

mutual

/-- First reconstruction pass of `_remove_claude_tracked_changes`: at every
element, drop the direct children that are `w:ins` regions authored by the
given author (whole subtrees), then recurse into the remaining children. -/
def removeAuthorIns (author : String) : ENode → ENode
  | .mk tg a tx cs tl => .mk tg a tx (removeAuthorInsL author cs) tl

def removeAuthorInsL (author : String) : List ENode → List ENode
  | [] => []
  | c :: cs =>
      if isAuthorRegion insTag author c then removeAuthorInsL author cs
      else removeAuthorIns author c :: removeAuthorInsL author cs

end

mutual

/-- Second reconstruction pass of `_remove_claude_tracked_changes`, for one
child in a children list: a `w:del` region authored by the given author is
replaced by its (processed) children; any other element is kept, with the
conversion of `w:delText` tags back to `w:t` (done on the region subtree
before the move in the source) carried by the `conv` flag, which also stays
on for the rest of a spliced subtree as the traversal continues inside it. -/
def unwrapAuthorDelsOne (author : String) (conv : Bool) : ENode → List ENode
  | .mk tg a tx ccs tl =>
      if isAuthorRegion delTag author (.mk tg a tx ccs tl) then
        unwrapAuthorDelsEach author ccs
      else
        [.mk (if conv && tg == delTextTag then tTag else tg) a tx
            (unwrapAuthorDelsL author conv ccs) tl]

/-- Process the elements moved out of an unwrapped deletion region: their
subtrees are converted (conversion flag on) and their own direct deletion
regions are spliced, but the moved elements themselves are not spliced
again at the parent level, matching the snapshot the source takes before
mutating. -/
def unwrapAuthorDelsEach (author : String) : List ENode → List ENode
  | [] => []
  | c :: cs => unwrapAuthorDelsConv author c :: unwrapAuthorDelsEach author cs

/-- One element moved out of an unwrapped deletion region: converted (its
whole subtree was inside the region) and recursively processed, but kept as
an element even if it is itself a deletion region by the same author. -/
def unwrapAuthorDelsConv (author : String) : ENode → ENode
  | .mk tg a tx ccs tl =>
      .mk (if tg == delTextTag then tTag else tg) a tx
        (unwrapAuthorDelsL author true ccs) tl

def unwrapAuthorDelsL (author : String) (conv : Bool) : List ENode → List ENode
  | [] => []
  | c :: cs => unwrapAuthorDelsOne author conv c ++ unwrapAuthorDelsL author conv cs

end

/-- Second reconstruction pass at the root: the root element itself is never
a deletion region to splice (`root.iter()` only rewrites children), so it is
processed as an ordinary element. -/
def unwrapAuthorDels (author : String) (conv : Bool) : ENode → ENode
  | .mk tg a tx cs tl =>
      .mk (if conv && tg == delTextTag then tTag else tg) a tx
        (unwrapAuthorDelsL author conv cs) tl

/-- The full `_remove_claude_tracked_changes` reconstruction for one tree,
generalised over the author string (the source fixes it to "Claude"). -/
def removeAuthorTrackedChanges (author : String) (root : ENode) : ENode :=
  unwrapAuthorDels author false (removeAuthorIns author root)

mutual

/-- Strict descendants of an element in document order (`findall(".//tag")`
keeps the elements whose tag matches). -/
def descendants : ENode → List ENode
  | .mk _ _ _ cs _ => descendantsL cs

def descendantsL : List ENode → List ENode
  | [] => []
  | c :: cs => c :: descendants c ++ descendantsL cs

end

def findall (tag : String) (root : ENode) : List ENode :=
  (descendants root).filter (fun n => n.tag == tag)

/-- Text of one paragraph in `_extract_text_content`: the concatenated
`text` fields of the paragraph's `w:t` descendants (empty texts are skipped
by the truthiness test, which does not change the concatenation). -/
def paragraphText (p : ENode) : String :=
  String.join ((findall tTag p).map (fun t => t.text))

/-- `_extract_text_content`: per-paragraph concatenated text joined by
newlines, skipping paragraphs whose concatenated text is empty. -/
def extractTextContent (root : ENode) : String :=
  String.intercalate "\n"
    (((findall pTag root).map paragraphText).filter (fun s => !(s == "")))

/-- Does the tree contain a `w:ins` or `w:del` strict descendant whose
author attribute is exactly the given string? -/
def containsAuthorRegion (author : String) (root : ENode) : Bool :=
  !((findall delTag root).filter (fun n => n.get authorAttr == some author)).isEmpty
  || !((findall insTag root).filter (fun n => n.get authorAttr == some author)).isEmpty

/-- `RedliningValidator.validate` on the two parsed document trees: pass
trivially when the working copy has no "Claude" tracked change, otherwise
reconstruct both trees and compare the extracted text content. -/
def validate (modifiedRoot originalRoot : ENode) : Bool :=
  if !containsAuthorRegion "Claude" modifiedRoot then true
  else
    extractTextContent (removeAuthorTrackedChanges "Claude" modifiedRoot)
      == extractTextContent (removeAuthorTrackedChanges "Claude" originalRoot)

end Redlining


/- ============ Baseline-diffed XSD validation (validation/base.py) ============ -/

namespace SchemaXsd

/-- Result of `_validate_single_file_xsd`: `none` when no schema is mapped
for the part (skip), otherwise the set of schema error messages produced by
the XSD engine for that part (empty meaning the part validates).  The XSD
engine itself is an assumed library (`lxml.etree.XMLSchema`), so its
per-part outcome is the input of the embedding. -/
abbrev XsdResult := Option (Finset String)

/-- `_get_original_file_errors`: errors of the baseline's corresponding
part; a missing, skipped or clean baseline part contributes the empty set
(`errors if errors else set()`). -/
def getOriginalFileErrors (originalResult : XsdResult) : Finset String :=
  originalResult.getD ∅

/-- `validate_file_against_xsd` given the engine outcome for the working
copy part and for the baseline's corresponding part: skip without a mapped
schema, pass immediately when the current part is clean, and otherwise
report exactly the current errors minus the baseline errors, failing iff
that difference is nonempty. -/
def validateFileAgainstXsd (currentResult originalResult : XsdResult) :
    Option (Bool × Finset String) :=
  match currentResult with
  | none => none
  | some currentErrors =>
    if currentErrors = ∅ then some (true, ∅)
    else
      let originalErrors := getOriginalFileErrors originalResult
      let newErrors := currentErrors \ originalErrors
      if newErrors ≠ ∅ then some (false, newErrors) else some (true, ∅)

end SchemaXsd

/- ============ Tree editor: query primitives (utilities.py XMLEditor) ============ -/

/-- Substring test (Python `needle in hay`). -/
def strIncludes (hay sub : String) : Bool := decide (sub.toList <:+: hay.toList)

namespace Editor

/-- `nodeName` of minidom: the tag for an element, "#text" for a text node. -/
def nodeName : XNode → String
  | .text _ => "#text"
  | .elem tg _ _ _ => tg

def lineOf : XNode → Option Nat
  | .text _ => none
  | .elem _ _ ln _ => ln

def childrenOf : XNode → List XNode
  | .text _ => []
  | .elem _ _ _ cs => cs

def attrsOf : XNode → List (String × String)
  | .text _ => []
  | .elem _ a _ _ => a

/-- `getAttribute` of minidom: the empty string when the attribute is absent. -/
def getAttribute (n : XNode) (name : String) : String :=
  match n with
  | .text _ => ""
  | .elem _ a _ _ => (a.lookup name).getD ""

def hasAttribute (n : XNode) (name : String) : Bool :=
  match n with
  | .text _ => false
  | .elem _ a _ _ => (a.lookup name).isSome

/-- `setAttribute` on an attribute list: overwrite in place when the name is
present, append otherwise. -/
def attrSet : List (String × String) → String → String → List (String × String)
  | [], k, v => [(k, v)]
  | (k', v') :: rest, k, v =>
      if k' == k then (k, v) :: rest else (k', v') :: attrSet rest k v

def setAttribute (n : XNode) (name value : String) : XNode :=
  match n with
  | .text s => .text s
  | .elem tg a ln cs => .elem tg (attrSet a name value) ln cs

def removeAttribute (n : XNode) (name : String) : XNode :=
  match n with
  | .text s => .text s
  | .elem tg a ln cs => .elem tg (a.filter (fun kv => !(kv.1 == name))) ln cs

mutual

/-- Elements matching a tag among a node and its descendants, in document
order (the node itself first). -/
def elementsByTagOne (tag : String) : XNode → List XNode
  | .text _ => []
  | .elem tg a ln cs =>
      (if tg == tag then [XNode.elem tg a ln cs] else []) ++ elementsByTagL tag cs

def elementsByTagL (tag : String) : List XNode → List XNode
  | [] => []
  | c :: cs => elementsByTagOne tag c ++ elementsByTagL tag cs

end

/-- `Element.getElementsByTagName` of minidom: matching strict descendants
in document order. -/
def getElementsByTagName (n : XNode) (tag : String) : List XNode :=
  elementsByTagL tag (childrenOf n)

/-- `Document.getElementsByTagName`: all matching elements of the document,
root element included. -/
def docElementsByTag (root : XNode) (tag : String) : List XNode :=
  elementsByTagOne tag root

mutual

/-- `_get_element_text`: recursively concatenated text of an element,
skipping whitespace-only text nodes (XML pretty-printing). -/
def getElementText : XNode → String
  | .text _ => ""
  | .elem _ _ _ cs => getElementTextL cs

def getElementTextL : List XNode → String
  | [] => ""
  | .text s :: cs => (if s.trim == "" then "" else s) ++ getElementTextL cs
  | .elem tg a ln ccs :: cs =>
      getElementText (.elem tg a ln ccs) ++ getElementTextL cs

end

/-- The `line_number` argument of `get_node`: a single 1-based line or a
Python `range(start, stop)`. -/
inductive LineFilter where
  | int (n : Nat)
  | range (start stop : Nat)
deriving Repr

/-- Membership test of the element's parse line against the filter; an
element without parse position (`None` line) never matches. -/
def LineFilter.matchesLine : LineFilter → Option Nat → Bool
  | .int n, some l => l == n
  | .int _, none => false
  | .range s t, some l => s ≤ l && l < t
  | .range _ _, none => false

/-- Python truthiness of the `line_number` argument (`0` and an empty range
are falsy). -/
def LineFilter.truthy : LineFilter → Bool
  | .int n => !(n == 0)
  | .range s t => decide (s < t)

/-- Rendering used in the not-found error message. -/
def LineFilter.desc : LineFilter → String
  | .int n => "line " ++ toString n
  | .range s t => "lines " ++ toString s ++ "-" ++ toString (t - 1)

/-- Python `repr` of a string made of ordinary characters. -/
def pyStrRepr (s : String) : String := "\x27" ++ s ++ "\x27"

/-- Python `repr` of a dict built in insertion order. -/
def pyDictRepr (l : List (String × String)) : String :=
  "\x7b" ++ String.intercalate ", " (l.map (fun kv => pyStrRepr kv.1 ++ ": " ++ pyStrRepr kv.2)) ++ "\x7d"

/-- The elements of the document matching the tag and every given filter
(`get_node`'s candidate loop). `unesc` is the library `html.unescape`. -/
def getNodeMatches (unesc : String → String) (doc : XNode) (tag : String)
    (attrs_ : Option (List (String × String))) (line_ : Option LineFilter)
    (contains_ : Option String) : List XNode :=
  (docElementsByTag doc tag).filter (fun e =>
    (match line_ with
     | none => true
     | some lf => lf.matchesLine (lineOf e)) &&
    (match attrs_ with
     | none => true
     | some al => al.all (fun kv => getAttribute e kv.1 == kv.2)) &&
    (match contains_ with
     | none => true
     | some c => strIncludes (getElementText e) (unesc c)))

/-- Python `" ".join`. -/
def joinSpace : List String → String
  | [] => ""
  | [d] => d
  | d :: rest => d ++ " " ++ joinSpace rest

/-- The filter descriptions enumerated in the not-found error, in source
order: line filter, attribute filter, contains filter. -/
def filterDescs (attrs_ : Option (List (String × String))) (line_ : Option LineFilter)
    (contains_ : Option String) : List String :=
  (match line_ with
   | some lf => ["at " ++ lf.desc]
   | none => []) ++
  (match attrs_ with
   | some al => ["with attributes " ++ pyDictRepr al]
   | none => []) ++
  (match contains_ with
   | some c => ["containing \x27" ++ c ++ "\x27"]
   | none => [])

def hintContains : String := "テキストが複数要素に分割されているか、表現が異なる可能性があります。"
def hintLine : String := "ドキュメントが変更されている場合、行番号が変わっている可能性があります。"
def hintAttrs : String := "属性値が正しいか確認してください。"
def hintGeneric : String := "フィルタ（attrs/line_number/contains）を追加してみてください。"

/-- Hint chosen by the truthiness cascade of the source. -/
def notFoundHint (attrs_ : Option (List (String × String))) (line_ : Option LineFilter)
    (contains_ : Option String) : String :=
  if (match contains_ with | some c => !(c == "") | none => false) then hintContains
  else if (match line_ with | some lf => lf.truthy | none => false) then hintLine
  else if (match attrs_ with | some al => !al.isEmpty | none => false) then hintAttrs
  else hintGeneric

/-- The zero-match error message: tag, the enumerated applied filters, and
a hint (the `.strip()` of the source only matters when no filter is given). -/
def notFoundMessage (tag : String) (attrs_ : Option (List (String × String)))
    (line_ : Option LineFilter) (contains_ : Option String) : String :=
  (if (filterDescs attrs_ line_ contains_).isEmpty then
    "Node not found: <" ++ tag ++ ">"
  else
    "Node not found: <" ++ tag ++ "> " ++ joinSpace (filterDescs attrs_ line_ contains_))
  ++ ". " ++ notFoundHint attrs_ line_ contains_

/-- The multiple-match error message: it names only the tag and a generic
hint to add filters. -/
def multipleMessage (tag : String) : String :=
  "Multiple nodes found: <" ++ tag ++ ">. " ++
    "絞り込みのためにフィルタ（attrs/line_number/contains）を追加してください。"

/-- `XMLEditor.get_node`: unique match returned, zero or several matches
raise `ValueError` (modelled as `Except.error` carrying the message). -/
def getNode (unesc : String → String) (doc : XNode) (tag : String)
    (attrs_ : Option (List (String × String))) (line_ : Option LineFilter)
    (contains_ : Option String) : Except String XNode :=
  match getNodeMatches unesc doc tag attrs_ line_ contains_ with
  | [] => .error (notFoundMessage tag attrs_ line_ contains_)
  | [e] => .ok e
  | _ => .error (multipleMessage tag)

end Editor

/- ========= Attribute injector (document.py DocxXMLEditor._inject_attributes_to_nodes) ========= -/

namespace Docx

/-- Session-level inputs of the injector: the rsid, author and initials the
editor was constructed with, the timestamp taken at the start of one
injection call, and the stream of `_generate_hex_id` results. -/
structure Cfg where
  rsid : String
  author : String
  initials : String
  timestamp : String
  hexIds : Nat → String

/-- Threaded injector state: the namespace declarations on the document
root (targets of the `_ensure_*_namespace` helpers), the index of the next
unconsumed hex id, and the next change id.  `nextChangeId` models
`_get_next_change_id` (one plus the running maximum of `w:id` over all
`w:ins`/`w:del` of the part): the caller initialises it from the document
and every allocation returns the counter and bumps it, which agrees with
the rescans because each allocated id exceeds everything present. -/
structure InjSt where
  rootAttrs : List (String × String)
  hexIdx : Nat
  nextChangeId : Nat
deriving Repr

def hasAttrL (a : List (String × String)) (k : String) : Bool := (a.lookup k).isSome

def getAttrL (a : List (String × String)) (k : String) : String := (a.lookup k).getD ""

/-- Set an attribute only when absent (`if not elem.hasAttribute(k)`). -/
def fillAttr (a : List (String × String)) (k v : String) : List (String × String) :=
  if hasAttrL a k then a else Editor.attrSet a k v

def w14Ns : String := "http://schemas.microsoft.com/office/word/2010/wordml"
def w16duNs : String := "http://schemas.microsoft.com/office/word/2023/wordml/word16du"
def w16cexNs : String := "http://schemas.microsoft.com/office/word/2018/wordml/cex"

/-- `_ensure_*_namespace`: declare the namespace on the document root if
missing. -/
def ensureNs (st : InjSt) (nsAttr nsVal : String) : InjSt :=
  if hasAttrL st.rootAttrs nsAttr then st
  else { st with rootAttrs := Editor.attrSet st.rootAttrs nsAttr nsVal }

/-- `add_rsid_to_p`: rsid triple plus `w14:paraId`/`w14:textId` from the
hex id stream (namespace ensured when an id is added). -/
def addRsidToP (cfg : Cfg) (st : InjSt) (a : List (String × String)) :
    List (String × String) × InjSt :=
  let a := fillAttr a "w:rsidR" cfg.rsid
  let a := fillAttr a "w:rsidRDefault" cfg.rsid
  let a := fillAttr a "w:rsidP" cfg.rsid
  let p :=
    if hasAttrL a "w14:paraId" then (a, st)
    else
      let st := ensureNs st "xmlns:w14" w14Ns
      (Editor.attrSet a "w14:paraId" (cfg.hexIds st.hexIdx),
        { st with hexIdx := st.hexIdx + 1 })
  let a := p.1
  let st := p.2
  if hasAttrL a "w14:textId" then (a, st)
  else
    let st := ensureNs st "xmlns:w14" w14Ns
    (Editor.attrSet a "w14:textId" (cfg.hexIds st.hexIdx),
      { st with hexIdx := st.hexIdx + 1 })

/-- `add_rsid_to_r`: `w:rsidDel` for runs inside a deletion region,
`w:rsidR` otherwise. -/
def addRsidToR (cfg : Cfg) (st : InjSt) (insideDel : Bool)
    (a : List (String × String)) : List (String × String) × InjSt :=
  if insideDel then (fillAttr a "w:rsidDel" cfg.rsid, st)
  else (fillAttr a "w:rsidR" cfg.rsid, st)

/-- `add_tracked_change_attrs`: change id (allocated only when absent),
author, date, and the `w16du:dateUtc` extension for `w:ins`/`w:del`. -/
def addTrackedChangeAttrs (cfg : Cfg) (st : InjSt) (tg : String)
    (a : List (String × String)) : List (String × String) × InjSt :=
  let p :=
    if hasAttrL a "w:id" then (a, st)
    else (Editor.attrSet a "w:id" (toString st.nextChangeId),
      { st with nextChangeId := st.nextChangeId + 1 })
  let a := p.1
  let st := p.2
  let a := fillAttr a "w:author" cfg.author
  let a := fillAttr a "w:date" cfg.timestamp
  if (tg == "w:ins" || tg == "w:del") && !(hasAttrL a "w16du:dateUtc") then
    (Editor.attrSet a "w16du:dateUtc" cfg.timestamp, ensureNs st "xmlns:w16du" w16duNs)
  else (a, st)

/-- `add_comment_attrs`: author, date, initials, only when missing. -/
def addCommentAttrs (cfg : Cfg) (st : InjSt) (a : List (String × String)) :
    List (String × String) × InjSt :=
  let a := fillAttr a "w:author" cfg.author
  let a := fillAttr a "w:date" cfg.timestamp
  (fillAttr a "w:initials" cfg.initials, st)

/-- `add_comment_extensible_date`. -/
def addCommentExtensibleDate (cfg : Cfg) (st : InjSt)
    (a : List (String × String)) : List (String × String) × InjSt :=
  if hasAttrL a "w16cex:dateUtc" then (a, st)
  else (Editor.attrSet a "w16cex:dateUtc" cfg.timestamp,
    ensureNs st "xmlns:w16cex" w16cexNs)

/-- `add_xml_space_to_t`: mark `xml:space="preserve"` when the first child
is a nonempty text node with leading or trailing whitespace. -/
def addXmlSpaceToT (st : InjSt) (a : List (String × String))
    (cs : List XNode) : List (String × String) × InjSt :=
  match cs with
  | .text s :: _ =>
      if !(s == "") && (s.front.isWhitespace || s.back.isWhitespace) then
        (fillAttr a "xml:space" "preserve", st)
      else (a, st)
  | _ => (a, st)

/-- The per-tag categories of the injector, in the order the source runs
its descendant passes. -/
inductive InjCat where
  | cP | cR | cT | cIns | cDel | cComment | cCex
deriving Repr

/-- Apply one category's attribute fills to one element (identity when the
tag does not belong to the category). -/
def applyCat (cfg : Cfg) (cat : InjCat) (insideDel : Bool) (tg : String)
    (a : List (String × String)) (cs : List XNode) (st : InjSt) :
    List (String × String) × InjSt :=
  match cat with
  | .cP => if tg == "w:p" then addRsidToP cfg st a else (a, st)
  | .cR => if tg == "w:r" then addRsidToR cfg st insideDel a else (a, st)
  | .cT => if tg == "w:t" then addXmlSpaceToT st a cs else (a, st)
  | .cIns => if tg == "w:ins" then addTrackedChangeAttrs cfg st tg a else (a, st)
  | .cDel => if tg == "w:del" then addTrackedChangeAttrs cfg st tg a else (a, st)
  | .cComment => if tg == "w:comment" then addCommentAttrs cfg st a else (a, st)
  | .cCex =>
      if tg == "w16cex:commentExtensible" then addCommentExtensibleDate cfg st a
      else (a, st)

mutual

/-- One category's pass over an element and its descendants in document
order.  `anc` says whether some strict ancestor of the element is a
`w:del` (the `is_inside_deletion` walk, whose part above the injected
node is supplied by the caller). -/
def passNode (cfg : Cfg) (cat : InjCat) (anc : Bool) : XNode → InjSt → XNode × InjSt
  | .text s, st => (.text s, st)
  | .elem tg a ln cs, st =>
      let p := applyCat cfg cat anc tg a cs st
      let q := passList cfg cat (anc || tg == "w:del") cs p.2
      (.elem tg p.1 ln q.1, q.2)

def passList (cfg : Cfg) (cat : InjCat) (anc : Bool) : List XNode → InjSt → List XNode × InjSt
  | [], st => ([], st)
  | c :: cs, st =>
      let p := passNode cfg cat anc c st
      let q := passList cfg cat anc cs p.2
      (p.1 :: q.1, q.2)

end

/-- The `if/elif` dispatch on the node itself: the categories are mutually
exclusive on the tag, so running all of them in order applies exactly the
matching one. -/
def applySelf (cfg : Cfg) (anc : Bool) (tg : String) (a : List (String × String))
    (cs : List XNode) (st : InjSt) : List (String × String) × InjSt :=
  let p := applyCat cfg .cP anc tg a cs st
  let p := applyCat cfg .cR anc tg p.1 cs p.2
  let p := applyCat cfg .cT anc tg p.1 cs p.2
  let p := applyCat cfg .cIns anc tg p.1 cs p.2
  let p := applyCat cfg .cDel anc tg p.1 cs p.2
  let p := applyCat cfg .cComment anc tg p.1 cs p.2
  applyCat cfg .cCex anc tg p.1 cs p.2

/-- `_inject_attributes_to_nodes` for one node of the list: dispatch on the
node itself, then the seven descendant passes in source order (`w:p`,
`w:r`, `w:t`, `w:ins`, `w:del`, `w:comment`, `w16cex:commentExtensible`). -/
def injectNode (cfg : Cfg) (anc : Bool) (n : XNode) (st : InjSt) : XNode × InjSt :=
  match n with
  | .text s => (.text s, st)
  | .elem tg a ln cs =>
      let s0 := applySelf cfg anc tg a cs st
      let anc2 := anc || tg == "w:del"
      let q1 := passList cfg .cP anc2 cs s0.2
      let q2 := passList cfg .cR anc2 q1.1 q1.2
      let q3 := passList cfg .cT anc2 q2.1 q2.2
      let q4 := passList cfg .cIns anc2 q3.1 q3.2
      let q5 := passList cfg .cDel anc2 q4.1 q4.2
      let q6 := passList cfg .cComment anc2 q5.1 q5.2
      let q7 := passList cfg .cCex anc2 q6.1 q6.2
      (.elem tg s0.1 ln q7.1, q7.2)

/-- `_inject_attributes_to_nodes` over the node list. -/
def injectNodes (cfg : Cfg) (anc : Bool) : List XNode → InjSt → List XNode × InjSt
  | [], st => ([], st)
  | n :: ns, st =>
      let p := injectNode cfg anc n st
      let q := injectNodes cfg anc ns p.2
      (p.1 :: q.1, q.2)

end Docx

mutual

/-- Shape-preserving attribute extension: same tags, same parse lines, same
text nodes, every attribute list of the left tree a prefix of the matching
attribute list of the right tree. -/
def XNode.attrExt : XNode → XNode → Bool
  | .text s, .text t => s == t
  | .elem tg a ln cs, .elem tg2 a2 ln2 cs2 =>
      tg == tg2 && a.isPrefixOf a2 && ln == ln2 && XNode.attrExtL cs cs2
  | _, _ => false

def XNode.attrExtL : List XNode → List XNode → Bool
  | [], [] => true
  | c :: cs, d :: ds => XNode.attrExt c d && XNode.attrExtL cs ds
  | _, _ => false

end

namespace Docx

/-- All attributes one category's fill would add are already present (or
the category's guard condition does not fire); such an element is left
untouched, with no state consumed, by that category. -/
def catFilled (cat : InjCat) (insideDel : Bool) (tg : String)
    (a : List (String × String)) (cs : List XNode) : Bool :=
  match cat with
  | .cP => !(tg == "w:p") ||
      (hasAttrL a "w:rsidR" && hasAttrL a "w:rsidRDefault" && hasAttrL a "w:rsidP" &&
       hasAttrL a "w14:paraId" && hasAttrL a "w14:textId")
  | .cR => !(tg == "w:r") ||
      (if insideDel then hasAttrL a "w:rsidDel" else hasAttrL a "w:rsidR")
  | .cT => !(tg == "w:t") ||
      (match cs with
       | .text s :: _ =>
           !(!(s == "") && (s.front.isWhitespace || s.back.isWhitespace)) ||
             hasAttrL a "xml:space"
       | _ => true)
  | .cIns => !(tg == "w:ins") ||
      (hasAttrL a "w:id" && hasAttrL a "w:author" && hasAttrL a "w:date" &&
       hasAttrL a "w16du:dateUtc")
  | .cDel => !(tg == "w:del") ||
      (hasAttrL a "w:id" && hasAttrL a "w:author" && hasAttrL a "w:date" &&
       hasAttrL a "w16du:dateUtc")
  | .cComment => !(tg == "w:comment") ||
      (hasAttrL a "w:author" && hasAttrL a "w:date" && hasAttrL a "w:initials")
  | .cCex => !(tg == "w16cex:commentExtensible") || hasAttrL a "w16cex:dateUtc"

mutual

/-- One category is fully filled on an element and all its descendants. -/
def catFilledNode (cat : InjCat) (anc : Bool) : XNode → Bool
  | .text _ => true
  | .elem tg a _ cs =>
      catFilled cat anc tg a cs && catFilledL cat (anc || tg == "w:del") cs

def catFilledL (cat : InjCat) (anc : Bool) : List XNode → Bool
  | [] => true
  | c :: cs => catFilledNode cat anc c && catFilledL cat anc cs

end

/-- Every category is fully filled on the node and its descendants: the
state a node is in right after injection. -/
def injectedNode (anc : Bool) (n : XNode) : Bool :=
  catFilledNode .cP anc n && catFilledNode .cR anc n && catFilledNode .cT anc n &&
  catFilledNode .cIns anc n && catFilledNode .cDel anc n &&
  catFilledNode .cComment anc n && catFilledNode .cCex anc n

end Docx

namespace Docx

/-- Concrete injection configuration for the C7 witness. -/
def cfgW : Cfg :=
  { rsid := "00AB12CD", author := "Claude", initials := "C",
    timestamp := "2024-01-01T00:00:00Z", hexIds := fun _ => "1A2B3C4D" }

/-- A second, different configuration for the idempotence half of C7. -/
def cfgW2 : Cfg :=
  { rsid := "FFFF0000", author := "Other", initials := "O",
    timestamp := "2025-02-02T00:00:00Z", hexIds := fun _ => "DEADBEEF" }

/-- Concrete injection state for the C7 witness. -/
def stW : InjSt := { rootAttrs := [], hexIdx := 0, nextChangeId := 1 }

/-- A second injection state for the idempotence half of C7. -/
def stW2 : InjSt := { rootAttrs := [("xmlns:w", "x")], hexIdx := 5, nextChangeId := 9 }

/-- A freshly inserted `w:ins` node with a pre-existing `w:id` attribute,
containing a run with leading-whitespace text. -/
def nodeW : XNode :=
  .elem "w:ins" [("w:id", "7")] none
    [.elem "w:r" [] none [.elem "w:t" [] none [.text " hi"]]]

/-- The C7 witness node list. -/
def nodesW : List XNode := [nodeW]

/-- Result of one injection pass over the witness nodes. -/
def resW : List XNode := (injectNodes cfgW false nodesW stW).1

/-- Head of the injection result. -/
def resW1 : XNode := resW.headD (.text "")

/-- Attribute copy via a `setAttribute` loop onto a fresh element
(`for i in range(attributes.length): setAttribute(item(i))`). -/
def copyAttrs (a : List (String × String)) : List (String × String) :=
  a.foldl (fun acc kv => Editor.attrSet acc kv.1 kv.2) []

/-- `removeAttribute` on an attribute list. -/
def attrRemoveL (a : List (String × String)) (k : String) : List (String × String) :=
  a.filter (fun kv => !(kv.1 == k))

mutual

/-- Net effect on a subtree of the `w:t` → `w:delText` conversion loop of
`suggest_deletion`: every `w:t` element (the snapshot contains them all,
nested ones included, and `replaceChild` converts each in place) is
replaced by a freshly created `w:delText` carrying its copied attributes
and its children. -/
def convTNode : XNode → XNode
  | .text s => .text s
  | .elem tg a ln cs =>
      if tg == "w:t" then .elem "w:delText" (copyAttrs a) none (convTL cs)
      else .elem tg a ln (convTL cs)

def convTL : List XNode → List XNode
  | [] => []
  | c :: cs => convTNode c :: convTL cs

end

mutual

/-- Net effect of the `w:delText` → `w:t` conversion loop of
`revert_deletion` on a cloned run. -/
def convDNode : XNode → XNode
  | .text s => .text s
  | .elem tg a ln cs =>
      if tg == "w:delText" then .elem "w:t" (copyAttrs a) none (convDL cs)
      else .elem tg a ln (convDL cs)

def convDL : List XNode → List XNode
  | [] => []
  | c :: cs => convDNode c :: convDL cs

end

/-- Run-attribute update of `suggest_deletion`: `w:rsidR` → `w:rsidDel`
(set then remove), else default `w:rsidDel` to the session rsid when
absent. -/
def juggleDelAttrs (rsid : String) (a : List (String × String)) :
    List (String × String) :=
  if hasAttrL a "w:rsidR" then
    attrRemoveL (Editor.attrSet a "w:rsidDel" ((a.lookup "w:rsidR").getD "")) "w:rsidR"
  else if hasAttrL a "w:rsidDel" then a
  else Editor.attrSet a "w:rsidDel" rsid

/-- Run-attribute update of `revert_deletion` on a cloned run:
`w:rsidDel` → `w:rsidR`, else default `w:rsidR` when absent. -/
def juggleInsAttrs (rsid : String) (a : List (String × String)) :
    List (String × String) :=
  if hasAttrL a "w:rsidDel" then
    attrRemoveL (Editor.attrSet a "w:rsidR" ((a.lookup "w:rsidDel").getD "")) "w:rsidDel"
  else if hasAttrL a "w:rsidR" then a
  else Editor.attrSet a "w:rsidR" rsid

mutual

/-- The `for run in elem.getElementsByTagName("w:r")` rsid-update loop of
the paragraph branch of `suggest_deletion`, as a recursive map over every
`w:r` element of a subtree. -/
def juggleRunsN (rsid : String) : XNode → XNode
  | .text s => .text s
  | .elem tg a ln cs =>
      if tg == "w:r" then .elem tg (juggleDelAttrs rsid a) ln (juggleRunsL rsid cs)
      else .elem tg a ln (juggleRunsL rsid cs)

def juggleRunsL (rsid : String) : List XNode → List XNode
  | [] => []
  | c :: cs => juggleRunsN rsid c :: juggleRunsL rsid cs

end

/-- `insertBefore(m, firstChild)` with an append fallback when there is no
first child: in both cases `m` becomes the first child. -/
def addFrontChild (m : XNode) : XNode → XNode
  | .text s => .text s
  | .elem tg a ln cs => .elem tg a ln (m :: cs)

mutual

/-- Apply `f` to the first descendant-or-self element with the given tag
(pre-order); the flag reports whether a match was found. -/
def mapFirstTagN (tgt : String) (f : XNode → XNode) : XNode → XNode × Bool
  | .text s => (.text s, false)
  | .elem tg a ln cs =>
      if tg == tgt then (f (.elem tg a ln cs), true)
      else
        let p := mapFirstTagL tgt f cs
        (.elem tg a ln p.1, p.2)

def mapFirstTagL (tgt : String) (f : XNode → XNode) : List XNode → List XNode × Bool
  | [] => ([], false)
  | c :: cs =>
      let p := mapFirstTagN tgt f c
      if p.2 then (p.1 :: cs, true)
      else
        let q := mapFirstTagL tgt f cs
        (c :: q.1, q.2)

end

/-- The empty `<w:del/>` marker created for numbered-list paragraphs. -/
def delMarker : XNode := .elem "w:del" [] none []

/-- Numbered-list handling of `suggest_deletion`: ensure a `w:rPr` exists
inside the first `w:pPr` (created and appended when absent) and put the
`<w:del/>` marker at its front. -/
def addDelMarkerToPPr (ppr : XNode) : XNode :=
  match ppr with
  | .text s => .text s
  | .elem tg a ln cs =>
      if (Editor.elementsByTagL "w:rPr" cs).isEmpty then
        .elem tg a ln (cs ++ [XNode.elem "w:rPr" [] none [delMarker]])
      else
        .elem tg a ln (mapFirstTagL "w:rPr" (addFrontChild delMarker) cs).1

/-- `DocxXMLEditor.suggest_deletion`. The returned node stands where the
argument element stood: in the `w:r` branch the element is wrapped, so the
result is the injected `w:del` wrapper that replaces it under its parent;
in the `w:p` branch the paragraph itself is returned, its non-`w:pPr`
children moved into an injected `w:del` wrapper appended last. On error
the element, and the injection state, are returned unchanged — the source
raises before any mutation. -/
def suggestDeletion (cfg : Cfg) (anc : Bool) (elem : XNode) (st : InjSt) :
    Option String × XNode × InjSt :=
  match elem with
  | .text s =>
      (some ("要素は w:r または w:p である必要があります: " ++ "#text"), .text s, st)
  | .elem tg a ln cs =>
      if tg == "w:r" then
        if !(Editor.elementsByTagL "w:delText" cs).isEmpty then
          (some "w:r 要素に既に w:delText が含まれています", .elem tg a ln cs, st)
        else
          let e2 := XNode.elem tg (juggleDelAttrs cfg.rsid a) ln (convTL cs)
          let p := injectNode cfg anc (.elem "w:del" [] none [e2]) st
          (none, p.1, p.2)
      else if tg == "w:p" then
        if !(Editor.elementsByTagL "w:ins" cs).isEmpty ||
            !(Editor.elementsByTagL "w:del" cs).isEmpty then
          (some "w:p 要素に既に追跡変更（tracked changes）が含まれています",
            .elem tg a ln cs, st)
        else
          let isNumbered :=
            match (Editor.elementsByTagL "w:pPr" cs).head? with
            | none => false
            | some ppr => !(Editor.getElementsByTagName ppr "w:numPr").isEmpty
          let cs1 := if isNumbered then (mapFirstTagL "w:pPr" addDelMarkerToPPr cs).1 else cs
          let cs2 := juggleRunsL cfg.rsid (convTL cs1)
          let kept := cs2.filter (fun c => Editor.nodeName c == "w:pPr")
          let moved := cs2.filter (fun c => !(Editor.nodeName c == "w:pPr"))
          let p := injectNode cfg anc (.elem "w:del" [] none moved) st
          (none, .elem tg a ln (kept ++ [p.1]), p.2)
      else
        (some ("要素は w:r または w:p である必要があります: " ++ tg), .elem tg a ln cs, st)

/-- One cloned run of `revert_deletion`: deep clone, `w:delText` → `w:t`
on the clone's descendants, rsid update on the clone itself. -/
def revertRun (rsid : String) : XNode → XNode
  | .text s => .text s
  | .elem tg a ln cs => .elem tg (juggleInsAttrs rsid a) ln (convDL cs)

/-- The `w:ins` element `revert_deletion` builds for one `w:del`: clones
of all its `w:r` descendants, converted back. -/
def insOfDel (rsid : String) (d : XNode) : XNode :=
  .elem "w:ins" [] none ((Editor.getElementsByTagName d "w:r").map (revertRun rsid))

/-- List insertion at an index (`insert_after` into the parent's child
list: before the next sibling, appended when there is none). -/
def insertAt (x : XNode) : Nat → List XNode → List XNode
  | 0, cs => x :: cs
  | _ + 1, [] => [x]
  | m + 1, c :: cs => c :: insertAt x m cs

/-- `revert_deletion` invoked directly on a single `w:del` element, which
sits at index `idx` of its parent's child list: when the deletion has run
descendants, the built insertion is serialized, re-parsed, inserted right
after the deletion and injected (`DocxXMLEditor.insert_after`), and
`[elem, created_insertion]` is returned; without runs nothing changes and
`[elem]` is returned. Serialization followed by fragment parsing is
modeled as the identity on the tree. -/
def revertDeletionSingle (cfg : Cfg) (anc : Bool) (cs : List XNode) (idx : Nat)
    (st : InjSt) : List XNode × List XNode × InjSt :=
  let d := cs.getD idx (.text "")
  let runs := Editor.getElementsByTagName d "w:r"
  if runs.isEmpty then (cs, [d], st)
  else
    let p := injectNode cfg anc (insOfDel cfg.rsid d) st
    (insertAt p.1 (idx + 1) cs, [d, p.1], p.2)

mutual

/-- Container mode of `revert_deletion`, node side: rebuild the node with
its child list processed (the deletion snapshot is taken before any
mutation and visited in document order, so each `w:del` gets an insertion
built from its original content before its own subtree is processed). -/
def revCN (cfg : Cfg) (anc : Bool) : XNode → InjSt → XNode × InjSt
  | .text s, st => (.text s, st)
  | .elem tg a ln cs, st =>
      let p := revCL cfg (anc || tg == "w:del") cs st
      (.elem tg a ln p.1, p.2)

/-- Container mode of `revert_deletion`, child-list side: after each
`w:del` child with run descendants, insert its injected insertion; then
process the deletion's own subtree (nested deletions from the snapshot
are handled there) and the remaining siblings. -/
def revCL (cfg : Cfg) (anc : Bool) : List XNode → InjSt → List XNode × InjSt
  | [], st => ([], st)
  | c :: cs, st =>
      if Editor.nodeName c == "w:del" &&
          !(Editor.getElementsByTagName c "w:r").isEmpty then
        let p := injectNode cfg anc (insOfDel cfg.rsid c) st
        let q := revCN cfg anc c p.2
        let r := revCL cfg anc cs q.2
        (q.1 :: p.1 :: r.1, r.2)
      else
        let q := revCN cfg anc c st
        let r := revCL cfg anc cs q.2
        (c :: r.1, r.2)

end

mutual

/-- All text-leaf content of a subtree, concatenated in document order. -/
def textAllN : XNode → String
  | .text s => s
  | .elem _ _ _ cs => textAllL cs

def textAllL : List XNode → String
  | [] => ""
  | c :: cs => textAllN c ++ textAllL cs

end

/-- Concatenated subtree texts of a list of elements. -/
def concatTexts : List XNode → String
  | [] => ""
  | c :: cs => textAllN c ++ concatTexts cs

/-- Visible text of an element: the concatenated content of its `w:t`
descendants (or of itself, were it a `w:t`), in document order. -/
def visText (n : XNode) : String :=
  concatTexts (Editor.elementsByTagOne "w:t" n)

mutual

/-- Skeleton equivalence: same tags, same tree shape, same text leaves;
attribute lists and parse lines are unconstrained. -/
def skel : XNode → XNode → Bool
  | .text s, .text t => s == t
  | .elem tg _ _ cs, .elem tg2 _ _ cs2 => tg == tg2 && skelL cs cs2
  | _, _ => false

def skelL : List XNode → List XNode → Bool
  | [], [] => true
  | c :: cs, d :: ds => skel c d && skelL cs ds
  | _, _ => false

end

mutual

/-- Well-formedness for the C5 round trip: every `w:t` lies inside some
`w:r`, and runs are not nested. -/
def okN : XNode → Bool
  | .text _ => true
  | .elem tg _ _ cs =>
      if tg == "w:r" then (Editor.elementsByTagL "w:r" cs).isEmpty
      else if tg == "w:t" then false
      else okL cs

def okL : List XNode → Bool
  | [] => true
  | c :: cs => okN c && okL cs

end

end Docx

namespace Docx

/-- C4 counterexample input: a run that contains a `w:del` region but no
`w:delText` leaf. -/
def runCX : XNode :=
  .elem "w:r" [("w:rsidR", "00AA0000")] none
    [.elem "w:del" [] none [], .elem "w:t" [] none [.text "x"]]

/-- A run that already contains a `w:delText` leaf. -/
def runDX : XNode := .elem "w:r" [] none [.elem "w:delText" [] none [.text "a"]]

/-- A paragraph that already contains a `w:ins` region. -/
def paraDX : XNode := .elem "w:p" [] none [.elem "w:ins" [] none []]

/-- An element that is neither a run nor a paragraph. -/
def otherX : XNode := .elem "w:sectPr" [] none []

end Docx

namespace Docx

/-- A deletion element with no `w:r` descendant (skipped by
`revert_deletion`). -/
def runless (d : XNode) : Bool := (Editor.getElementsByTagName d "w:r").isEmpty

/-- No `w:del` strictly inside `n` has runs. -/
def noRFDn (n : XNode) : Bool := (Editor.getElementsByTagName n "w:del").all runless

/-- No `w:del` among the nodes of `cs` or their descendants has runs. -/
def noRFDl (cs : List XNode) : Bool := (Editor.elementsByTagL "w:del" cs).all runless

end Docx

namespace Docx

/-- C5 witness run content: one text element. -/
def r0cs : List XNode := [.elem "w:t" [] none [.text "hi"]]

/-- Deletion wrapper produced by `suggest_deletion` on the witness run. -/
def wW : XNode :=
  (suggestDeletion cfgW false (XNode.elem "w:r" [("w:rsidR", "00AA1111")] none r0cs)
    stW).2.1

/-- C5 witness paragraph content: a `w:pPr` and one run. -/
def p0cs : List XNode :=
  [.elem "w:pPr" [] none [],
   .elem "w:r" [] none [.elem "w:t" [] none [.text "ab"]]]

/-- Deletion wrapper produced by `suggest_deletion` on the witness
paragraph (its last child). -/
def pLastW : XNode :=
  (Editor.childrenOf (suggestDeletion cfgW false (XNode.elem "w:p" [] none p0cs)
    stW).2.1).getLastD (.text "")

end Docx

/- ==================== Unique-ID validation (base.py) ==================== -/

namespace UniqueIds

/-- Characters after the last closing brace (the whole string when none),
accumulator-reversed. -/
def lastSeg : List Char → List Char → List Char
  | cur, [] => cur.reverse
  | cur, c :: rest => if c = '\x7d' then lastSeg [] rest else lastSeg (c :: cur) rest

/-- Namespace-stripped, lowercased element or attribute name:
`tag.split("\x7d")[-1].lower() if "\x7d" in tag else tag.lower()`
(both branches lowercase, and splitting on a missing separator keeps the
whole string, so the two branches coincide). -/
def localName (s : String) : String :=
  String.mk ((lastSeg [] s.data).map Char.toLower)

/-- Clark-notation tag of `mc:AlternateContent`. -/
def mcAlternateContent : String :=
  "\x7bhttp://schemas.openxmlformats.org/markup-compatibility/2006\x7dAlternateContent"

/-- `UNIQUE_ID_REQUIREMENTS`: element local name → (attribute, scope). -/
def uniqueIdRequirements : List (String × String × String) :=
  [("comment", "id", "file"),
   ("commentrangestart", "id", "file"),
   ("commentrangeend", "id", "file"),
   ("bookmarkstart", "id", "file"),
   ("bookmarkend", "id", "file"),
   ("sldid", "id", "file"),
   ("sldmasterid", "id", "global"),
   ("sldlayoutid", "id", "global"),
   ("cm", "authorid", "file"),
   ("sheet", "sheetid", "file"),
   ("definedname", "id", "file"),
   ("cxnsp", "id", "file"),
   ("sp", "id", "file"),
   ("pic", "id", "file"),
   ("grpsp", "id", "file")]

mutual

/-- Removal of every `.//mc:AlternateContent` subtree (strict descendants;
an `AlternateContent` nested in a removed one disappears with it). -/
def stripACN : ENode → ENode
  | .mk tg a tx cs tl => .mk tg a tx (stripACL cs) tl

def stripACL : List ENode → List ENode
  | [] => []
  | c :: cs =>
      if c.tag == mcAlternateContent then stripACL cs
      else stripACN c :: stripACL cs

end

/-- The attribute-search loop: first attribute whose namespace-stripped
lowercased name equals the required name. -/
def findAttrVal : List (String × String) → String → Option String
  | [], _ => none
  | (k, v) :: rest, attrName =>
      if localName k == attrName then some v else findAttrVal rest attrName

/-- The per-element head of the checking loop: local tag, requirement
lookup, attribute search. -/
def resolveElem (e : ENode) : Option (String × String × String × String) :=
  match uniqueIdRequirements.lookup (localName e.tag) with
  | none => none
  | some (a, scope) =>
      match findAttrVal e.attrs a with
      | none => none
      | some v => some (localName e.tag, a, v, scope)

/-- Validator state: error entries `(file, tag, value)` (message
formatting and source lines abstracted away), `global_ids` entries
`(value, file, tag)` keyed by value alone, and the per-file `file_ids`
entries `(tag, attribute, value)`. -/
structure UidState where
  errors : List (String × String × String)
  gIds : List (String × String × String)
  fIds : List (String × String × String)

/-- `id_value in file_ids[(tag, attr)]`. -/
def seenF : List (String × String × String) → String → String → String → Bool
  | [], _, _, _ => false
  | (t2, a2, v2) :: rest, t, a, v =>
      (t2 == t && a2 == a && v2 == v) || seenF rest t a v

/-- `id_value in global_ids`. -/
def seenG : List (String × String × String) → String → Bool
  | [], _ => false
  | (v2, _, _) :: rest, v => (v2 == v) || seenG rest v

/-- One element of the checking loop. -/
def uidStep (file : String) (st : UidState) (e : ENode) : UidState :=
  match resolveElem e with
  | none => st
  | some (t, a, v, scope) =>
      if scope == "global" then
        if seenG st.gIds v then
          { st with errors := st.errors ++ [(file, t, v)] }
        else
          { st with gIds := (v, file, t) :: st.gIds }
      else
        if seenF st.fIds t a v then
          { st with errors := st.errors ++ [(file, t, v)] }
        else
          { st with fIds := (t, a, v) :: st.fIds }

/-- The checking loop over a list of elements. -/
def uidFold (file : String) : UidState → List ENode → UidState
  | st, [] => st
  | st, e :: es => uidFold file (uidStep file st e) es

mutual

/-- `root.iter()`: the element itself, then its subtree, document order. -/
def preorderN : ENode → List ENode
  | .mk tg a tx cs tl => .mk tg a tx cs tl :: preorderL cs

def preorderL : List ENode → List ENode
  | [] => []
  | c :: cs => preorderN c ++ preorderL cs

end

mutual

/-- The checking loop as a direct tree walk (element first, then its
children in order). -/
def uidWalkN (file : String) : ENode → UidState → UidState
  | .mk tg a tx cs tl, st => uidWalkL file cs (uidStep file st (.mk tg a tx cs tl))

def uidWalkL (file : String) : List ENode → UidState → UidState
  | [], st => st
  | c :: cs, st => uidWalkL file cs (uidWalkN file c st)

end

/-- One file of `validate_unique_ids`: reset `file_ids`, strip
`mc:AlternateContent`, walk the cleaned tree. -/
def uidFile (st : UidState) (fe : String × ENode) : UidState :=
  uidWalkN fe.1 (stripACN fe.2) { st with fIds := [] }

/-- `validate_unique_ids` over the package files: the collected error
entries (the function returns `True` exactly when this list is empty). -/
def validateUniqueIds (files : List (String × ENode)) : List (String × String × String) :=
  (files.foldl uidFile { errors := [], gIds := [], fIds := [] }).errors

/-- A generic single-attribute element for the theorems. -/
def leafE (tg k v : String) : ENode := .mk tg [(k, v)] "" [] ""

/-- A neutral wrapper element (its local name has no uniqueness rule). -/
def wrapE (cs : List ENode) : ENode := .mk "root" [] "" cs ""

/-- An `mc:AlternateContent` wrapper. -/
def acE (cs : List ENode) : ENode := .mk mcAlternateContent [] "" cs ""

/-- C8 witness: a comment element with id "0". -/
def commentLeaf : ENode := leafE "comment" "id" "0"

/-- C8 witness: a slide-master id element with id "9". -/
def masterLeaf : ENode := leafE "sldmasterid" "id" "9"

end UniqueIds

/- ========== Comment threads (document.py Document.add_comment / reply_to_comment) ========== -/

namespace Comments

/-- The `w:comment` fragment appended to `comments.xml` (the session
attributes `w:author`, `w:date`, `w:initials` and the run/paragraph rsids
are filled in by the editor's attribute injection; `&`, `<`, `>` escaping
followed by fragment parsing is the identity on the text leaf). -/
def commentNodeXml (id : Nat) (paraId : String) (text : String) : XNode :=
  .elem "w:comment" [("w:id", toString id)] none
    [.elem "w:p" [("w14:paraId", paraId), ("w14:textId", "77777777")] none
      [.elem "w:r" [] none
        [.elem "w:rPr" [] none
          [.elem "w:rStyle" [("w:val", "CommentReference")] none []],
         .elem "w:annotationRef" [] none []],
       .elem "w:r" [] none
        [.elem "w:rPr" [] none
          [.elem "w:color" [("w:val", "000000")] none [],
           .elem "w:sz" [("w:val", "20")] none [],
           .elem "w:szCs" [("w:val", "20")] none []],
         .elem "w:t" [] none [.text text]]]]

/-- The `w15:commentEx` fragment: `w15:paraIdParent` is present exactly
when a non-empty parent paragraph id is given (`if parent_para_id:`). -/
def commentExXml (paraId : String) (parentParaId : Option String) : XNode :=
  match parentParaId with
  | some p =>
      if p == "" then
        .elem "w15:commentEx" [("w15:paraId", paraId), ("w15:done", "0")] none []
      else
        .elem "w15:commentEx"
          [("w15:paraId", paraId), ("w15:paraIdParent", p), ("w15:done", "0")] none []
  | none => .elem "w15:commentEx" [("w15:paraId", paraId), ("w15:done", "0")] none []

/-- The `w16cid:commentId` fragment appended to `commentsIds.xml`. -/
def commentIdXml (paraId durableId : String) : XNode :=
  .elem "w16cid:commentId"
    [("w16cid:paraId", paraId), ("w16cid:durableId", durableId)] none []

/-- The `w16cex:commentExtensible` fragment appended to
`commentsExtensible.xml`. -/
def commentExtensibleXml (durableId : String) : XNode :=
  .elem "w16cex:commentExtensible" [("w16cex:durableId", durableId)] none []

/-- Comment-related `Document` state: the session configuration, the
random-hex-id stream with its cursor, `next_comment_id`,
`existing_comments` (id → para id, most recent first), the child lists of
the four comment-part roots, and each part editor's injection state. The
`document.xml` range anchoring that `add_comment`/`reply_to_comment` also
perform (range start/end and reference runs inserted around the anchors,
between the parent lookup and the appends below) mutates only the
document part and is not represented here. -/
structure DocSt where
  cfg : Docx.Cfg
  hexIdx : Nat
  nextCommentId : Nat
  existingComments : List (Nat × String)
  comments : List XNode
  commentsEx : List XNode
  commentsIds : List XNode
  commentsExt : List XNode
  stC : Docx.InjSt
  stEx : Docx.InjSt
  stIds : Docx.InjSt
  stExt : Docx.InjSt

/-- Shared tail of `add_comment` and `reply_to_comment`: allocate the
comment id and the two hex ids, append the injected fragments to
`comments.xml`, `commentsExtended.xml`, `commentsIds.xml` and
`commentsExtensible.xml` (each `append_to` runs the editor's attribute
injection), record the id in `existing_comments`, bump the counter. -/
def addCommentParts (d : DocSt) (text : String) (parentParaId : Option String) :
    DocSt × Nat :=
  let commentId := d.nextCommentId
  let paraId := d.cfg.hexIds d.hexIdx
  let durableId := d.cfg.hexIds (d.hexIdx + 1)
  let pc := Docx.injectNode d.cfg false (commentNodeXml commentId paraId text) d.stC
  let pe := Docx.injectNode d.cfg false (commentExXml paraId parentParaId) d.stEx
  let pi := Docx.injectNode d.cfg false (commentIdXml paraId durableId) d.stIds
  let px := Docx.injectNode d.cfg false (commentExtensibleXml durableId) d.stExt
  ({ d with
      hexIdx := d.hexIdx + 2,
      nextCommentId := commentId + 1,
      existingComments := (commentId, paraId) :: d.existingComments,
      comments := d.comments ++ [pc.1],
      commentsEx := d.commentsEx ++ [pe.1],
      commentsIds := d.commentsIds ++ [pi.1],
      commentsExt := d.commentsExt ++ [px.1],
      stC := pc.2, stEx := pe.2, stIds := pi.2, stExt := px.2 }, commentId)

/-- `Document.add_comment` (entries side): no parent paragraph id. -/
def addComment (d : DocSt) (text : String) : DocSt × Nat :=
  addCommentParts d text none

/-- `Document.reply_to_comment`: the parent check comes first and raises
before any mutation; on success the parent's paragraph id is threaded
into the extended-comments entry. -/
def replyToComment (d : DocSt) (parentId : Nat) (text : String) :
    Except String (DocSt × Nat) :=
  match d.existingComments.lookup parentId with
  | none => .error ("親コメントが見つかりません: id=" ++ toString parentId)
  | some parentPara => .ok (addCommentParts d text (some parentPara))

/-- The id-filtered `w:comment` census of a comments child list. -/
def byId (cs : List XNode) (s : String) : List XNode :=
  (Editor.elementsByTagL "w:comment" cs).filter
    (fun e => Editor.getAttribute e "w:id" == s)

/-- C9 witness state: a fresh document session with empty comment parts. -/
def dW : DocSt :=
  { cfg := Docx.cfgW, hexIdx := 0, nextCommentId := 0, existingComments := [],
    comments := [], commentsEx := [], commentsIds := [], commentsExt := [],
    stC := Docx.stW, stEx := Docx.stW, stIds := Docx.stW, stExt := Docx.stW }

end Comments

/- ==================== Theorems: redlining (C1, C10) ==================== -/

theorem bool_and_flip_false {p q : Bool} (h : ¬ (p && q) = true) : (q && p) = false := by
  cases p <;> cases q <;> simp_all

theorem bool_and_flip_false' {p q : Bool} (h : (q && p) = false) : ¬ (p && q) = true := by
  cases p <;> cases q <;> simp_all

namespace Redlining

theorem descendantsL_cons (c : ENode) (cs : List ENode) :
    descendantsL (c :: cs) = c :: (descendants c ++ descendantsL cs) := by
  rfl

theorem mem_head_descendantsL (c : ENode) (cs : List ENode) :
    c ∈ descendantsL (c :: cs) := by
  rw [descendantsL_cons]; exact List.mem_cons_self _ _

theorem mem_left_descendantsL {m : ENode} (c : ENode) (cs : List ENode)
    (hm : m ∈ descendants c) : m ∈ descendantsL (c :: cs) := by
  rw [descendantsL_cons]; exact List.mem_cons_of_mem _ (List.mem_append_left _ hm)

theorem mem_right_descendantsL {m : ENode} (c : ENode) (cs : List ENode)
    (hm : m ∈ descendantsL cs) : m ∈ descendantsL (c :: cs) := by
  rw [descendantsL_cons]; exact List.mem_cons_of_mem _ (List.mem_append_right _ hm)

mutual

theorem removeAuthorIns_id (a : String) : ∀ (n : ENode),
    (∀ m ∈ descendants n, isAuthorRegion insTag a m = false) →
    removeAuthorIns a n = n
  | .mk tg at_ tx cs tl, h => by
      rw [removeAuthorIns, removeAuthorInsL_id a cs h]

theorem removeAuthorInsL_id (a : String) : ∀ (cs : List ENode),
    (∀ m ∈ descendantsL cs, isAuthorRegion insTag a m = false) →
    removeAuthorInsL a cs = cs
  | [], _ => rfl
  | c :: cs, h => by
      have hc : isAuthorRegion insTag a c = false := h c (mem_head_descendantsL c cs)
      have hd : ∀ m ∈ descendants c, isAuthorRegion insTag a m = false :=
        fun m hm => h m (mem_left_descendantsL c cs hm)
      have ht : ∀ m ∈ descendantsL cs, isAuthorRegion insTag a m = false :=
        fun m hm => h m (mem_right_descendantsL c cs hm)
      rw [removeAuthorInsL, if_neg (by simp [hc]), removeAuthorIns_id a c hd,
        removeAuthorInsL_id a cs ht]

end

mutual

theorem unwrapAuthorDelsOne_id (a : String) : ∀ (c : ENode),
    isAuthorRegion delTag a c = false →
    (∀ m ∈ descendants c, isAuthorRegion delTag a m = false) →
    unwrapAuthorDelsOne a false c = [c]
  | .mk tg at_ tx ccs tl, hc, hd => by
      rw [unwrapAuthorDelsOne, if_neg (by simp [hc]),
        unwrapAuthorDelsL_id a ccs hd]
      simp

theorem unwrapAuthorDelsL_id (a : String) : ∀ (cs : List ENode),
    (∀ m ∈ descendantsL cs, isAuthorRegion delTag a m = false) →
    unwrapAuthorDelsL a false cs = cs
  | [], _ => rfl
  | c :: cs, h => by
      have hc : isAuthorRegion delTag a c = false := h c (mem_head_descendantsL c cs)
      have hd : ∀ m ∈ descendants c, isAuthorRegion delTag a m = false :=
        fun m hm => h m (mem_left_descendantsL c cs hm)
      have ht : ∀ m ∈ descendantsL cs, isAuthorRegion delTag a m = false :=
        fun m hm => h m (mem_right_descendantsL c cs hm)
      rw [unwrapAuthorDelsL, unwrapAuthorDelsOne_id a c hc hd,
        unwrapAuthorDelsL_id a cs ht]
      rfl

end

theorem unwrapAuthorDels_id (a : String) (n : ENode)
    (h : ∀ m ∈ descendants n, isAuthorRegion delTag a m = false) :
    unwrapAuthorDels a false n = n := by
  cases n with
  | mk tg at_ tx cs tl =>
      rw [unwrapAuthorDels]
      simp only [Bool.false_and, Bool.false_eq_true, if_false]
      rw [unwrapAuthorDelsL_id a cs h]

theorem containsAuthorRegion_false_iff (a : String) (root : ENode) :
    containsAuthorRegion a root = false ↔
      ∀ m ∈ descendants root,
        isAuthorRegion delTag a m = false ∧ isAuthorRegion insTag a m = false := by
  simp only [containsAuthorRegion, findall, isAuthorRegion, Bool.or_eq_false_iff,
    Bool.not_eq_false', List.isEmpty_iff, List.filter_filter, List.filter_eq_nil_iff]
  constructor
  · rintro ⟨h1, h2⟩ m hm
    exact ⟨bool_and_flip_false (h1 m hm), bool_and_flip_false (h2 m hm)⟩
  · intro h
    exact ⟨fun m hm => bool_and_flip_false' (h m hm).1,
           fun m hm => bool_and_flip_false' (h m hm).2⟩

theorem containsAuthorRegion_true_iff (a : String) (root : ENode) :
    containsAuthorRegion a root = true ↔
      ∃ m ∈ descendants root,
        (m.tag = delTag ∨ m.tag = insTag) ∧ m.get authorAttr = some a := by
  constructor
  · intro h
    by_contra hno
    push_neg at hno
    have hfalse : containsAuthorRegion a root = false := by
      rw [containsAuthorRegion_false_iff]
      intro m hm
      constructor
      · by_cases h1 : m.tag = delTag
        · have h2 := hno m hm (Or.inl h1)
          simp [isAuthorRegion, h2]
        · simp [isAuthorRegion, h1]
      · by_cases h1 : m.tag = insTag
        · have h2 := hno m hm (Or.inr h1)
          simp [isAuthorRegion, h2]
        · simp [isAuthorRegion, h1]
    rw [h] at hfalse
    exact absurd hfalse (by simp)
  · rintro ⟨m, hm, htag, hau⟩
    by_contra h
    have hf : containsAuthorRegion a root = false := by
      cases hcase : containsAuthorRegion a root
      · rfl
      · exact absurd hcase h
    rw [containsAuthorRegion_false_iff] at hf
    rcases htag with htag | htag
    · have := (hf m hm).1
      simp [isAuthorRegion, htag, hau] at this
    · have := (hf m hm).2
      simp [isAuthorRegion, htag, hau] at this

theorem removeAuthorTrackedChanges_id (a : String) (root : ENode)
    (h : containsAuthorRegion a root = false) :
    removeAuthorTrackedChanges a root = root := by
  rw [containsAuthorRegion_false_iff] at h
  rw [removeAuthorTrackedChanges,
    removeAuthorIns_id a root (fun m hm => (h m hm).2),
    unwrapAuthorDels_id a root (fun m hm => (h m hm).1)]

/-- C1: on an editing session whose working-copy and baseline document parts
both parse, redlining validation passes trivially when the working copy has
no tracked-change region authored by the validator's author "Claude";
otherwise it removes that author's insertion regions from both trees,
unwraps that author's deletion regions (converting deletion-text leaves
back to text leaves), and passes exactly when the per-paragraph extracted
text sequences of the two reconstructed trees agree. -/
theorem C1_redlining_validate_characterization (m o : ENode) :
    (¬ (∃ n ∈ descendants m,
          (n.tag = delTag ∨ n.tag = insTag) ∧ n.get authorAttr = some "Claude") →
        validate m o = true) ∧
    ((∃ n ∈ descendants m,
          (n.tag = delTag ∨ n.tag = insTag) ∧ n.get authorAttr = some "Claude") →
        (validate m o = true ↔
          extractTextContent (removeAuthorTrackedChanges "Claude" m)
            = extractTextContent (removeAuthorTrackedChanges "Claude" o))) := by
  constructor
  · intro h
    have hc : containsAuthorRegion "Claude" m = false := by
      cases hcase : containsAuthorRegion "Claude" m
      · rfl
      · exact absurd ((containsAuthorRegion_true_iff _ _).mp hcase) h
    simp [validate, hc]
  · intro h
    have hc : containsAuthorRegion "Claude" m = true :=
      (containsAuthorRegion_true_iff _ _).mpr h
    simp [validate, hc]

/-- C10: redlining validation succeeds for every working copy with no
insertion or deletion region whose author attribute is the literal string
"Claude" — whatever the baseline looks like (so regardless of any visible
text divergence, and regardless of the author configured on the session,
which the validator never receives) — and the reconstruction pass is the
identity on any tree that has no "Claude"-authored region, i.e. only
regions authored exactly "Claude" are ever removed or unwrapped. -/
theorem C10_redlining_hardcoded_author :
    (∀ m o : ENode, containsAuthorRegion "Claude" m = false → validate m o = true) ∧
    (∀ t : ENode, containsAuthorRegion "Claude" t = false →
        removeAuthorTrackedChanges "Claude" t = t) := by
  constructor
  · intro m o h
    simp [validate, h]
  · intro t h
    exact removeAuthorTrackedChanges_id "Claude" t h

end Redlining

namespace Redlining

/-- Witness for C1: a working copy with no tracked change at all passes
against any baseline, and a working copy whose only change is a
Claude-authored deletion region around "X" passes against a baseline whose
paragraph still shows "X". -/
theorem C1_redlining_validate_characterization_witness :
    validate (.mk "doc" [] "" [] "") (.mk "doc" [] "" [.mk pTag [] "" [] ""] "") = true ∧
    validate
      (.mk "doc" [] ""
        [.mk pTag [] ""
          [.mk delTag [(authorAttr, "Claude")] ""
            [.mk "r" [] "" [.mk delTextTag [] "X" [] ""] ""] ""] ""] "")
      (.mk "doc" [] ""
        [.mk pTag [] "" [.mk "r" [] "" [.mk tTag [] "X" [] ""] ""] ""] "") = true := by
  constructor
  · exact (C1_redlining_validate_characterization _ _).1 (by decide)
  · exact ((C1_redlining_validate_characterization _ _).2 (by decide)).mpr (by decide)

/-- Witness for C10: a working copy whose visible text diverges from the
baseline through an insertion authored "John" (no "Claude" region) still
passes, and the reconstruction pass leaves that working copy unchanged. -/
theorem C10_redlining_hardcoded_author_witness :
    validate
      (.mk "doc" [] ""
        [.mk pTag [] ""
          [.mk insTag [(authorAttr, "John")] ""
            [.mk "r" [] "" [.mk tTag [] "NEW" [] ""] ""] ""] ""] "")
      (.mk "doc" [] ""
        [.mk pTag [] "" [.mk "r" [] "" [.mk tTag [] "OLD" [] ""] ""] ""] "") = true ∧
    removeAuthorTrackedChanges "Claude"
      (.mk "doc" [] ""
        [.mk pTag [] ""
          [.mk insTag [(authorAttr, "John")] ""
            [.mk "r" [] "" [.mk tTag [] "NEW" [] ""] ""] ""] ""] "")
      = (.mk "doc" [] ""
        [.mk pTag [] ""
          [.mk insTag [(authorAttr, "John")] ""
            [.mk "r" [] "" [.mk tTag [] "NEW" [] ""] ""] ""] ""] "") := by
  constructor
  · exact C10_redlining_hardcoded_author.1 _ _ (by decide)
  · exact C10_redlining_hardcoded_author.2 _ (by decide)

end Redlining

namespace SchemaXsd

/-- C2: for every part with a mapped schema, baseline-diffed XSD validation
reports exactly the working-copy error set minus the baseline error set
(and passes iff that difference is empty); in particular a violation
present unchanged in both trees reports zero errors, and one new violation
on top of a surviving pre-existing one reports exactly the new violation. -/
theorem C2_xsd_baseline_diff :
    (∀ (c : Finset String) (o : XsdResult),
        validateFileAgainstXsd (some c) o =
          some (decide (c \ o.getD ∅ = ∅), c \ o.getD ∅)) ∧
    (∀ e : String, validateFileAgainstXsd (some {e}) (some {e}) = some (true, ∅)) ∧
    (∀ ePre eNew : String, eNew ≠ ePre →
        validateFileAgainstXsd (some {ePre, eNew}) (some {ePre}) =
          some (false, {eNew})) := by
  have base : ∀ (c : Finset String) (o : XsdResult),
      validateFileAgainstXsd (some c) o =
        some (decide (c \ o.getD ∅ = ∅), c \ o.getD ∅) := by
    intro c o
    rw [validateFileAgainstXsd]
    by_cases hc : c = ∅
    · subst hc
      simp
    · rw [if_neg hc]
      have hg : getOriginalFileErrors o = o.getD ∅ := rfl
      rw [hg]
      by_cases hn : c \ o.getD ∅ = ∅
      · rw [if_neg (by simpa using hn)]
        simp [hn]
      · rw [if_pos (by simpa using hn)]
        simp [hn]
  refine ⟨base, ?_, ?_⟩
  · intro e
    rw [base]
    simp
  · intro ePre eNew hne
    rw [base]
    have hdiff : ({ePre, eNew} : Finset String) \ {ePre} = {eNew} := by
      ext x
      simp only [Finset.mem_sdiff, Finset.mem_insert, Finset.mem_singleton]
      constructor
      · rintro ⟨hx | hx, hnot⟩
        · exact absurd hx hnot
        · exact hx
      · rintro rfl
        exact ⟨Or.inr rfl, fun h => hne h⟩
    simp only [Option.getD_some, hdiff]
    simp [Finset.singleton_ne_empty eNew]

/-- Witness for C2: a fully concrete instantiation with error messages "a"
(pre-existing) and "b" (new). -/
theorem C2_xsd_baseline_diff_witness :
    validateFileAgainstXsd (some {"a"}) (some {"a"}) = some (true, ∅) ∧
    validateFileAgainstXsd (some {"a", "b"}) (some {"a"}) = some (false, {"b"}) := by
  exact ⟨C2_xsd_baseline_diff.2.1 "a", C2_xsd_baseline_diff.2.2 "a" "b" (by decide)⟩

end SchemaXsd

/- ==================== Theorems: get_node (C3) ==================== -/

theorem strIncludes_middle (p d s : String) : strIncludes (p ++ d ++ s) d = true := by
  have h : d.toList <:+: (p ++ d ++ s).toList := by
    have he : (p ++ d ++ s).toList = p.toList ++ (d.toList ++ s.toList) := by
      simp [String.toList, String.data_append, List.append_assoc]
    rw [he]
    exact ⟨p.toList, s.toList, by simp⟩
  simp [strIncludes, h]

theorem strIncludes_of_eq {m p d s : String} (h : m = p ++ d ++ s) :
    strIncludes m d = true := h ▸ strIncludes_middle p d s

namespace Editor

theorem joinSpace_mem_split : ∀ (l : List String) (d : String), d ∈ l →
    ∃ x y, joinSpace l = x ++ d ++ y
  | [], d, h => absurd h (List.not_mem_nil d)
  | [d'], d, h => by
      have hd : d = d' := by simpa using h
      subst hd
      exact ⟨"", "", by simp [joinSpace]⟩
  | d' :: e :: rest, d, h => by
      rcases List.mem_cons.mp h with rfl | h'
      · exact ⟨"", " " ++ joinSpace (e :: rest), by
          simp [joinSpace, String.append_assoc]⟩
      · obtain ⟨x, y, hxy⟩ := joinSpace_mem_split (e :: rest) d h'
        exact ⟨d' ++ " " ++ x, y, by
          simp [joinSpace, hxy, String.append_assoc]⟩

theorem notFound_includes (tag : String) (attrs_ : Option (List (String × String)))
    (line_ : Option LineFilter) (contains_ : Option String) (d : String)
    (hd : d ∈ filterDescs attrs_ line_ contains_) :
    strIncludes (notFoundMessage tag attrs_ line_ contains_) d = true := by
  obtain ⟨x, y, hxy⟩ := joinSpace_mem_split _ d hd
  have hne : (filterDescs attrs_ line_ contains_).isEmpty = false := by
    cases hfd : filterDescs attrs_ line_ contains_ with
    | nil => rw [hfd] at hd; simp at hd
    | cons a l => simp [List.isEmpty]
  apply strIncludes_of_eq
    (p := "Node not found: <" ++ tag ++ "> " ++ x)
    (s := y ++ (". " ++ notFoundHint attrs_ line_ contains_))
  rw [notFoundMessage, hne]
  simp only [Bool.false_eq_true, if_false]
  rw [hxy]
  simp [String.append_assoc]

theorem notFound_includes_hint (tag : String) (attrs_ : Option (List (String × String)))
    (line_ : Option LineFilter) (contains_ : Option String) :
    ∃ h ∈ [hintContains, hintLine, hintAttrs, hintGeneric],
      strIncludes (notFoundMessage tag attrs_ line_ contains_) h = true := by
  have hhint : strIncludes (notFoundMessage tag attrs_ line_ contains_)
      (notFoundHint attrs_ line_ contains_) = true := by
    apply strIncludes_of_eq
      (p := (if (filterDescs attrs_ line_ contains_).isEmpty then
          "Node not found: <" ++ tag ++ ">"
        else
          "Node not found: <" ++ tag ++ "> " ++
            joinSpace (filterDescs attrs_ line_ contains_)) ++ ". ")
      (s := "")
    rw [notFoundMessage, String.append_empty, String.append_assoc]
  simp only [notFoundHint] at hhint
  split at hhint
  · exact ⟨hintContains, by simp, hhint⟩
  · split at hhint
    · exact ⟨hintLine, by simp, hhint⟩
    · split at hhint
      · exact ⟨hintAttrs, by simp, hhint⟩
      · exact ⟨hintGeneric, by simp, hhint⟩

theorem multipleMessage_includes_tag (tag : String) :
    strIncludes (multipleMessage tag) ("<" ++ tag ++ ">") = true := by
  apply strIncludes_of_eq
    (p := "Multiple nodes found: ")
    (s := ". " ++ "絞り込みのためにフィルタ（attrs/line_number/contains）を追加してください。")
  rw [multipleMessage]
  have e1 : "Multiple nodes found: <" = "Multiple nodes found: " ++ "<" := rfl
  have e2 : ">. " = ">" ++ ". " := rfl
  rw [e1, e2]
  simp only [String.append_assoc]

theorem multipleMessage_includes_hint (tag : String) :
    strIncludes (multipleMessage tag)
      "絞り込みのためにフィルタ（attrs/line_number/contains）を追加してください。" = true := by
  apply strIncludes_of_eq
    (p := "Multiple nodes found: <" ++ tag ++ ">. ")
    (s := "")
  rw [multipleMessage, String.append_empty]

/-- C3 (amended): `get_node` returns the unique element when exactly one
element satisfies all given filters, and raises an error on zero or several
matches; the zero-match error message enumerates every filter that was
applied together with a human-actionable hint, while the multiple-match
error message names only the tag together with a hint to add filters (it
does not enumerate the applied filters, see the counterexample). -/
theorem C3_get_node_amended (unesc : String → String) (doc : XNode) (tag : String)
    (attrs_ : Option (List (String × String))) (line_ : Option LineFilter)
    (contains_ : Option String) :
    (∀ e, getNodeMatches unesc doc tag attrs_ line_ contains_ = [e] →
        getNode unesc doc tag attrs_ line_ contains_ = .ok e) ∧
    (getNodeMatches unesc doc tag attrs_ line_ contains_ = [] →
        getNode unesc doc tag attrs_ line_ contains_
            = .error (notFoundMessage tag attrs_ line_ contains_) ∧
        (∀ al, attrs_ = some al →
            strIncludes (notFoundMessage tag attrs_ line_ contains_)
              ("with attributes " ++ pyDictRepr al) = true) ∧
        (∀ lf, line_ = some lf →
            strIncludes (notFoundMessage tag attrs_ line_ contains_)
              ("at " ++ lf.desc) = true) ∧
        (∀ c, contains_ = some c →
            strIncludes (notFoundMessage tag attrs_ line_ contains_)
              ("containing \x27" ++ c ++ "\x27") = true) ∧
        (∃ h ∈ [hintContains, hintLine, hintAttrs, hintGeneric],
            strIncludes (notFoundMessage tag attrs_ line_ contains_) h = true)) ∧
    (∀ e e' rest, getNodeMatches unesc doc tag attrs_ line_ contains_ = e :: e' :: rest →
        getNode unesc doc tag attrs_ line_ contains_ = .error (multipleMessage tag) ∧
        strIncludes (multipleMessage tag) ("<" ++ tag ++ ">") = true ∧
        strIncludes (multipleMessage tag)
          "絞り込みのためにフィルタ（attrs/line_number/contains）を追加してください。" = true) := by
  refine ⟨?_, ?_, ?_⟩
  · intro e h
    unfold getNode
    rw [h]
  · intro h
    refine ⟨by unfold getNode; rw [h], ?_, ?_, ?_, notFound_includes_hint _ _ _ _⟩
    · rintro al rfl
      apply notFound_includes
      cases line_ <;> cases contains_ <;> simp [filterDescs]
    · rintro lf rfl
      apply notFound_includes
      cases attrs_ <;> cases contains_ <;> simp [filterDescs]
    · rintro c rfl
      apply notFound_includes
      cases attrs_ <;> cases line_ <;> simp [filterDescs]
  · intro e e' rest h
    refine ⟨?_, multipleMessage_includes_tag tag, multipleMessage_includes_hint tag⟩
    unfold getNode
    rw [h]

/-- Counterexample to C3 as stated: with two runs both matching the
attribute filter, the multiple-match error message is the generic one and
does not enumerate the attribute filter that was applied. -/
theorem C3_get_node_counterexample :
    getNode (fun s => s)
      (.elem "root" [] none
        [.elem "w:r" [("w:id", "1")] none [], .elem "w:r" [("w:id", "1")] none []])
      "w:r" (some [("w:id", "1")]) none none
      = .error (multipleMessage "w:r") ∧
    strIncludes (multipleMessage "w:r")
      ("with attributes " ++ pyDictRepr [("w:id", "1")]) = false := by
  constructor
  · rfl
  · decide

/-- Witness for the amended C3: a unique match is returned; a zero-match
lookup with an attribute filter produces the enumerating message; a
two-match lookup produces the multiple-match message. -/
theorem C3_get_node_amended_witness :
    getNode (fun s => s) (.elem "root" [] none [.elem "w:r" [("w:id", "1")] none []])
      "w:r" (some [("w:id", "1")]) none none
      = .ok (.elem "w:r" [("w:id", "1")] none []) ∧
    (getNode (fun s => s) (.elem "root" [] none [])
        "w:r" (some [("w:id", "9")]) none none
        = .error (notFoundMessage "w:r" (some [("w:id", "9")]) none none) ∧
      strIncludes (notFoundMessage "w:r" (some [("w:id", "9")]) none none)
        ("with attributes " ++ pyDictRepr [("w:id", "9")]) = true) ∧
    getNode (fun s => s)
      (.elem "root" [] none
        [.elem "w:p" [] none [], .elem "w:p" [] none []])
      "w:p" none none none
      = .error (multipleMessage "w:p") := by
  refine ⟨?_, ⟨?_, ?_⟩, ?_⟩
  · exact (C3_get_node_amended (fun s => s) _ "w:r" (some [("w:id", "1")]) none none).1
      _ (by rfl)
  · exact ((C3_get_node_amended (fun s => s) _ "w:r" (some [("w:id", "9")]) none none).2.1
      (by rfl)).1
  · exact (((C3_get_node_amended (fun s => s) (.elem "root" [] none [])
      "w:r" (some [("w:id", "9")]) none none).2.1 (by rfl)).2.1 _ rfl)
  · exact ((C3_get_node_amended (fun s => s)
      (.elem "root" [] none [.elem "w:p" [] none [], .elem "w:p" [] none []])
      "w:p" none none none).2.2
      (.elem "w:p" [] none []) (.elem "w:p" [] none []) [] (by rfl)).1

end Editor

/- ==================== Theorems: attribute injector (C7) ==================== -/

namespace Docx

theorem lookup_some_of_prefix {a b : List (String × String)} {k v : String}
    (hp : a <+: b) (hl : a.lookup k = some v) : b.lookup k = some v := by
  obtain ⟨t, rfl⟩ := hp
  induction a with
  | nil => simp at hl
  | cons hd tl ih =>
      obtain ⟨k', v'⟩ := hd
      by_cases hk : k = k'
      · subst hk
        simpa [List.lookup_cons] using hl
      · simp only [List.cons_append, List.lookup_cons, beq_false_of_ne hk] at hl ⊢
        exact ih hl

theorem hasAttrL_mono {a b : List (String × String)} {k : String}
    (hp : a <+: b) (h : hasAttrL a k = true) : hasAttrL b k = true := by
  simp only [hasAttrL, Option.isSome_iff_exists] at h ⊢
  obtain ⟨v, hv⟩ := h
  exact ⟨v, lookup_some_of_prefix hp hv⟩

theorem lookup_eq_of_preext {a b : List (String × String)} {k : String}
    (hp : a <+: b) (h : hasAttrL a k = true) : b.lookup k = a.lookup k := by
  simp only [hasAttrL, Option.isSome_iff_exists] at h
  obtain ⟨v, hv⟩ := h
  rw [hv, lookup_some_of_prefix hp hv]

theorem attrSet_eq_append {a : List (String × String)} {k : String} (v : String)
    (h : hasAttrL a k = false) : Editor.attrSet a k v = a ++ [(k, v)] := by
  induction a with
  | nil => rfl
  | cons hd tl ih =>
      obtain ⟨k', v'⟩ := hd
      by_cases hk : k' = k
      · subst hk
        simp [hasAttrL, List.lookup_cons] at h
      · simp only [hasAttrL, List.lookup_cons,
          beq_false_of_ne (fun hh => hk hh.symm)] at h
        rw [Editor.attrSet, if_neg (by simpa using hk), ih h]
        simp

theorem prefix_attrSet {a : List (String × String)} {k : String} (v : String)
    (h : hasAttrL a k = false) : a <+: Editor.attrSet a k v := by
  rw [attrSet_eq_append v h]
  exact List.prefix_append _ _

theorem prefix_fillAttr (a : List (String × String)) (k v : String) :
    a <+: fillAttr a k v := by
  unfold fillAttr
  split
  · exact List.prefix_refl a
  · rename_i h
    exact prefix_attrSet v (by simpa using h)

theorem hasAttrL_attrSet_self (a : List (String × String)) (k v : String) :
    hasAttrL (Editor.attrSet a k v) k = true := by
  induction a with
  | nil => simp [Editor.attrSet, hasAttrL]
  | cons hd tl ih =>
      obtain ⟨k', v'⟩ := hd
      by_cases hk : k' = k
      · subst hk
        simp [Editor.attrSet, hasAttrL, List.lookup_cons]
      · rw [Editor.attrSet, if_neg (by simpa using hk)]
        simp only [hasAttrL, List.lookup_cons, beq_false_of_ne (fun hh => hk hh.symm)]
        exact ih

theorem hasAttrL_attrSet_mono {a : List (String × String)} {k : String}
    (k' v : String) (h : hasAttrL a k = true) :
    hasAttrL (Editor.attrSet a k' v) k = true := by
  by_cases hkk : k' = k
  · subst hkk
    exact hasAttrL_attrSet_self a k' v
  · induction a with
    | nil => simp [hasAttrL] at h
    | cons hd tl ih =>
        obtain ⟨k1, v1⟩ := hd
        by_cases h1 : k1 = k'
        · subst h1
          rw [Editor.attrSet, if_pos (by simp)]
          simpa [hasAttrL, List.lookup_cons,
            beq_false_of_ne (fun hh => hkk hh.symm)] using h
        · rw [Editor.attrSet, if_neg (by simpa using h1)]
          by_cases h2 : k = k1
          · subst h2
            simp [hasAttrL, List.lookup_cons]
          · simp only [hasAttrL, List.lookup_cons, beq_false_of_ne h2] at h ⊢
            exact ih h

theorem hasAttrL_fillAttr_self (a : List (String × String)) (k v : String) :
    hasAttrL (fillAttr a k v) k = true := by
  unfold fillAttr
  split
  · assumption
  · exact hasAttrL_attrSet_self a k v

theorem hasAttrL_fillAttr_mono {a : List (String × String)} {k : String}
    (k' v : String) (h : hasAttrL a k = true) :
    hasAttrL (fillAttr a k' v) k = true := by
  unfold fillAttr
  split
  · exact h
  · exact hasAttrL_attrSet_mono k' v h

end Docx

namespace Docx

theorem addRsidToP_preext (cfg : Cfg) (st : InjSt) (a : List (String × String)) :
    a <+: (addRsidToP cfg st a).1 := by
  have base : a <+: fillAttr (fillAttr (fillAttr a "w:rsidR" cfg.rsid)
      "w:rsidRDefault" cfg.rsid) "w:rsidP" cfg.rsid :=
    ((prefix_fillAttr a _ _).trans (prefix_fillAttr _ _ _)).trans (prefix_fillAttr _ _ _)
  simp only [addRsidToP]
  split
  · split
    · exact base
    · rename_i h
      exact base.trans (prefix_attrSet _ (by simpa using h))
  · rename_i h
    split
    · exact base.trans (prefix_attrSet _ (by simpa using h))
    · rename_i h2
      exact (base.trans (prefix_attrSet _ (by simpa using h))).trans
        (prefix_attrSet _ (by simpa using h2))

theorem addRsidToR_preext (cfg : Cfg) (st : InjSt) (insideDel : Bool)
    (a : List (String × String)) : a <+: (addRsidToR cfg st insideDel a).1 := by
  simp only [addRsidToR]
  split <;> exact prefix_fillAttr a _ _

theorem addTrackedChangeAttrs_preext (cfg : Cfg) (st : InjSt) (tg : String)
    (a : List (String × String)) : a <+: (addTrackedChangeAttrs cfg st tg a).1 := by
  simp only [addTrackedChangeAttrs]
  split
  next hid =>
    dsimp only
    split
    next hcond =>
      have hnot : hasAttrL (fillAttr (fillAttr a "w:author" cfg.author)
          "w:date" cfg.timestamp) "w16du:dateUtc" = false := by
        simp only [Bool.and_eq_true, Bool.not_eq_true'] at hcond
        exact hcond.2
      exact ((prefix_fillAttr a _ _).trans (prefix_fillAttr _ _ _)).trans
        (prefix_attrSet _ hnot)
    next =>
      exact (prefix_fillAttr a _ _).trans (prefix_fillAttr _ _ _)
  next hid =>
    have hidf : hasAttrL a "w:id" = false := by simpa using hid
    dsimp only
    split
    next hcond =>
      have hnot : hasAttrL (fillAttr (fillAttr
          (Editor.attrSet a "w:id" (toString st.nextChangeId))
          "w:author" cfg.author) "w:date" cfg.timestamp) "w16du:dateUtc" = false := by
        simp only [Bool.and_eq_true, Bool.not_eq_true'] at hcond
        exact hcond.2
      exact (((prefix_attrSet _ hidf).trans (prefix_fillAttr _ _ _)).trans
        (prefix_fillAttr _ _ _)).trans (prefix_attrSet _ hnot)
    next =>
      exact ((prefix_attrSet _ hidf).trans (prefix_fillAttr _ _ _)).trans
        (prefix_fillAttr _ _ _)

theorem addCommentAttrs_preext (cfg : Cfg) (st : InjSt)
    (a : List (String × String)) : a <+: (addCommentAttrs cfg st a).1 := by
  simp only [addCommentAttrs]
  exact ((prefix_fillAttr a _ _).trans (prefix_fillAttr _ _ _)).trans
    (prefix_fillAttr _ _ _)

theorem addCommentExtensibleDate_preext (cfg : Cfg) (st : InjSt)
    (a : List (String × String)) : a <+: (addCommentExtensibleDate cfg st a).1 := by
  simp only [addCommentExtensibleDate]
  split
  · exact List.prefix_refl a
  · rename_i h
    exact prefix_attrSet _ (by simpa using h)

theorem addXmlSpaceToT_preext (st : InjSt) (a : List (String × String))
    (cs : List XNode) : a <+: (addXmlSpaceToT st a cs).1 := by
  simp only [addXmlSpaceToT]
  split
  · split
    · exact prefix_fillAttr a _ _
    · exact List.prefix_refl a
  · exact List.prefix_refl a

theorem applyCat_preext (cfg : Cfg) (cat : InjCat) (insideDel : Bool) (tg : String)
    (a : List (String × String)) (cs : List XNode) (st : InjSt) :
    a <+: (applyCat cfg cat insideDel tg a cs st).1 := by
  cases cat <;> simp only [applyCat] <;> split
  · exact addRsidToP_preext cfg st a
  · exact List.prefix_refl a
  · exact addRsidToR_preext cfg st insideDel a
  · exact List.prefix_refl a
  · exact addXmlSpaceToT_preext st a cs
  · exact List.prefix_refl a
  · exact addTrackedChangeAttrs_preext cfg st tg a
  · exact List.prefix_refl a
  · exact addTrackedChangeAttrs_preext cfg st tg a
  · exact List.prefix_refl a
  · exact addCommentAttrs_preext cfg st a
  · exact List.prefix_refl a
  · exact addCommentExtensibleDate_preext cfg st a
  · exact List.prefix_refl a

theorem applySelf_preext (cfg : Cfg) (anc : Bool) (tg : String)
    (a : List (String × String)) (cs : List XNode) (st : InjSt) :
    a <+: (applySelf cfg anc tg a cs st).1 := by
  simp only [applySelf]
  refine List.IsPrefix.trans ?_ (applyCat_preext cfg .cCex anc tg _ cs _)
  refine List.IsPrefix.trans ?_ (applyCat_preext cfg .cComment anc tg _ cs _)
  refine List.IsPrefix.trans ?_ (applyCat_preext cfg .cDel anc tg _ cs _)
  refine List.IsPrefix.trans ?_ (applyCat_preext cfg .cIns anc tg _ cs _)
  refine List.IsPrefix.trans ?_ (applyCat_preext cfg .cT anc tg _ cs _)
  refine List.IsPrefix.trans ?_ (applyCat_preext cfg .cR anc tg _ cs _)
  exact applyCat_preext cfg .cP anc tg a cs st

end Docx

theorem XNode.attrExt_elem_iff {tg : String} {a : List (String × String)}
    {ln : Option Nat} {cs : List XNode} {tg2 : String} {a2 : List (String × String)}
    {ln2 : Option Nat} {cs2 : List XNode} :
    XNode.attrExt (.elem tg a ln cs) (.elem tg2 a2 ln2 cs2) = true ↔
      (tg = tg2 ∧ a <+: a2 ∧ ln = ln2 ∧ XNode.attrExtL cs cs2 = true) := by
  rw [XNode.attrExt]
  simp [Bool.and_eq_true, List.isPrefixOf_iff_prefix, and_assoc]

theorem XNode.attrExtL_cons_iff {c d : XNode} {cs ds : List XNode} :
    XNode.attrExtL (c :: cs) (d :: ds) = true ↔
      (XNode.attrExt c d = true ∧ XNode.attrExtL cs ds = true) := by
  rw [XNode.attrExtL]
  simp [Bool.and_eq_true]

mutual

theorem XNode.attrExt_refl : ∀ (n : XNode), XNode.attrExt n n = true
  | .text s => by rw [XNode.attrExt]; simp
  | .elem tg a ln cs => by
      rw [XNode.attrExt_elem_iff]
      exact ⟨rfl, List.prefix_refl a, rfl, XNode.attrExtL_refl cs⟩

theorem XNode.attrExtL_refl : ∀ (cs : List XNode), XNode.attrExtL cs cs = true
  | [] => by rw [XNode.attrExtL]
  | c :: cs => by
      rw [XNode.attrExtL_cons_iff]
      exact ⟨XNode.attrExt_refl c, XNode.attrExtL_refl cs⟩

end

theorem XNode.attrExt_text_elem {s tg : String} {a : List (String × String)}
    {ln : Option Nat} {cs : List XNode} :
    XNode.attrExt (.text s) (.elem tg a ln cs) = false := rfl

theorem XNode.attrExt_elem_text {s tg : String} {a : List (String × String)}
    {ln : Option Nat} {cs : List XNode} :
    XNode.attrExt (.elem tg a ln cs) (.text s) = false := rfl

theorem XNode.attrExt_text_text {s t : String} :
    XNode.attrExt (.text s) (.text t) = (s == t) := rfl

theorem XNode.attrExtL_nil_cons {d : XNode} {ds : List XNode} :
    XNode.attrExtL [] (d :: ds) = false := rfl

theorem XNode.attrExtL_cons_nil {c : XNode} {cs : List XNode} :
    XNode.attrExtL (c :: cs) [] = false := rfl

mutual

theorem XNode.attrExt_trans : ∀ {m n p : XNode},
    XNode.attrExt m n = true → XNode.attrExt n p = true → XNode.attrExt m p = true
  | .text s, .text t, .text u, h1, h2 => by
      rw [XNode.attrExt_text_text] at h1 h2 ⊢
      simp only [beq_iff_eq] at h1 h2 ⊢
      exact h1.trans h2
  | .text _, .text _, .elem _ _ _ _, _, h2 => by
      rw [XNode.attrExt_text_elem] at h2; exact absurd h2 (by simp)
  | .text _, .elem _ _ _ _, _, h1, _ => by
      rw [XNode.attrExt_text_elem] at h1; exact absurd h1 (by simp)
  | .elem _ _ _ _, .text _, _, h1, _ => by
      rw [XNode.attrExt_elem_text] at h1; exact absurd h1 (by simp)
  | .elem _ _ _ _, .elem _ _ _ _, .text _, _, h2 => by
      rw [XNode.attrExt_elem_text] at h2; exact absurd h2 (by simp)
  | .elem tg a ln cs, .elem tg1 a1 ln1 cs1, .elem tg2 a2 ln2 cs2, h1, h2 => by
      rw [XNode.attrExt_elem_iff] at h1 h2 ⊢
      exact ⟨h1.1.trans h2.1, h1.2.1.trans h2.2.1, h1.2.2.1.trans h2.2.2.1,
        XNode.attrExtL_trans h1.2.2.2 h2.2.2.2⟩

theorem XNode.attrExtL_trans : ∀ {ms ns ps : List XNode},
    XNode.attrExtL ms ns = true → XNode.attrExtL ns ps = true →
    XNode.attrExtL ms ps = true
  | [], [], [], _, _ => rfl
  | [], [], _ :: _, _, h2 => by
      rw [XNode.attrExtL_nil_cons] at h2; exact absurd h2 (by simp)
  | [], _ :: _, _, h1, _ => by
      rw [XNode.attrExtL_nil_cons] at h1; exact absurd h1 (by simp)
  | _ :: _, [], _, h1, _ => by
      rw [XNode.attrExtL_cons_nil] at h1; exact absurd h1 (by simp)
  | _ :: _, _ :: _, [], _, h2 => by
      rw [XNode.attrExtL_cons_nil] at h2; exact absurd h2 (by simp)
  | m :: ms, n :: ns, p :: ps, h1, h2 => by
      rw [XNode.attrExtL_cons_iff] at h1 h2 ⊢
      exact ⟨XNode.attrExt_trans h1.1 h2.1, XNode.attrExtL_trans h1.2 h2.2⟩

end

namespace Docx

mutual

theorem passNode_ext (cfg : Cfg) (cat : InjCat) : ∀ (anc : Bool) (n : XNode) (st : InjSt),
    XNode.attrExt n (passNode cfg cat anc n st).1 = true
  | anc, .text s, st => by
      rw [passNode]
      exact XNode.attrExt_refl (.text s)
  | anc, .elem tg a ln cs, st => by
      rw [passNode]
      dsimp only
      rw [XNode.attrExt_elem_iff]
      exact ⟨rfl, applyCat_preext cfg cat anc tg a cs st, rfl,
        passList_ext cfg cat (anc || tg == "w:del") cs _⟩

theorem passList_ext (cfg : Cfg) (cat : InjCat) : ∀ (anc : Bool) (cs : List XNode) (st : InjSt),
    XNode.attrExtL cs (passList cfg cat anc cs st).1 = true
  | anc, [], st => by rw [passList]; rfl
  | anc, c :: cs, st => by
      rw [passList]
      dsimp only
      rw [XNode.attrExtL_cons_iff]
      exact ⟨passNode_ext cfg cat anc c st, passList_ext cfg cat anc cs _⟩

end

theorem injectNode_ext (cfg : Cfg) (anc : Bool) (n : XNode) (st : InjSt) :
    XNode.attrExt n (injectNode cfg anc n st).1 = true := by
  cases n with
  | text s =>
      rw [injectNode]
      exact XNode.attrExt_refl (.text s)
  | elem tg a ln cs =>
      rw [injectNode]
      dsimp only
      rw [XNode.attrExt_elem_iff]
      refine ⟨rfl, applySelf_preext cfg anc tg a cs st, rfl, ?_⟩
      refine XNode.attrExtL_trans ?_ (passList_ext cfg .cCex _ _ _)
      refine XNode.attrExtL_trans ?_ (passList_ext cfg .cComment _ _ _)
      refine XNode.attrExtL_trans ?_ (passList_ext cfg .cDel _ _ _)
      refine XNode.attrExtL_trans ?_ (passList_ext cfg .cIns _ _ _)
      refine XNode.attrExtL_trans ?_ (passList_ext cfg .cT _ _ _)
      refine XNode.attrExtL_trans ?_ (passList_ext cfg .cR _ _ _)
      exact passList_ext cfg .cP _ cs _

theorem injectNodes_ext (cfg : Cfg) (anc : Bool) : ∀ (ns : List XNode) (st : InjSt),
    XNode.attrExtL ns (injectNodes cfg anc ns st).1 = true
  | [], st => by rw [injectNodes]; rfl
  | n :: ns, st => by
      rw [injectNodes]
      dsimp only
      rw [XNode.attrExtL_cons_iff]
      exact ⟨injectNode_ext cfg anc n st, injectNodes_ext cfg anc ns _⟩

theorem attrExt_preserves_attr {m m' : XNode} (h : XNode.attrExt m m' = true)
    (k : String) (hk : Editor.hasAttribute m k = true) :
    Editor.getAttribute m' k = Editor.getAttribute m k := by
  cases m with
  | text s => simp [Editor.hasAttribute] at hk
  | elem tg a ln cs =>
      cases m' with
      | text t =>
          rw [XNode.attrExt_elem_text] at h
          exact absurd h (by simp)
      | elem tg2 a2 ln2 cs2 =>
          rw [XNode.attrExt_elem_iff] at h
          simp only [Editor.getAttribute]
          rw [lookup_eq_of_preext h.2.1 hk]

end Docx

namespace Docx

theorem fillAttr_of_has {a : List (String × String)} {k : String} (v : String)
    (h : hasAttrL a k = true) : fillAttr a k v = a := by
  unfold fillAttr
  rw [if_pos h]

theorem addXmlSpaceToT_nil (st : InjSt) (a : List (String × String)) :
    addXmlSpaceToT st a [] = (a, st) := rfl

theorem addXmlSpaceToT_elem_head (st : InjSt) (a : List (String × String))
    (tg2 : String) (a2 : List (String × String)) (ln2 : Option Nat)
    (cs2 rest : List XNode) :
    addXmlSpaceToT st a (.elem tg2 a2 ln2 cs2 :: rest) = (a, st) := rfl

theorem addXmlSpaceToT_text_head (st : InjSt) (a : List (String × String))
    (s : String) (rest : List XNode) :
    addXmlSpaceToT st a (.text s :: rest) =
      if (!(s == "") && (s.front.isWhitespace || s.back.isWhitespace)) then
        (fillAttr a "xml:space" "preserve", st)
      else (a, st) := rfl

theorem applyCat_skip (cfg : Cfg) (cat : InjCat) (anc : Bool) (tg : String)
    (a : List (String × String)) (cs : List XNode) (st : InjSt)
    (h : catFilled cat anc tg a cs = true) :
    applyCat cfg cat anc tg a cs st = (a, st) := by
  cases cat with
  | cP =>
      rw [applyCat]
      by_cases htg : (tg == "w:p") = true
      · simp only [catFilled, htg, Bool.not_true, Bool.false_or,
          Bool.and_eq_true] at h
        rw [if_pos htg, addRsidToP]
        rw [fillAttr_of_has _ h.1.1.1.1, fillAttr_of_has _ h.1.1.1.2,
          fillAttr_of_has _ h.1.1.2, if_pos h.1.2]
        dsimp only
        rw [if_pos h.2]
      · rw [if_neg htg]
  | cR =>
      rw [applyCat]
      by_cases htg : (tg == "w:r") = true
      · simp only [catFilled, htg, Bool.not_true, Bool.false_or] at h
        rw [if_pos htg, addRsidToR]
        cases hdel : anc with
        | true =>
            rw [hdel] at h
            rw [if_pos (by simp), fillAttr_of_has _ (by simpa using h)]
        | false =>
            rw [hdel] at h
            rw [if_neg (by simp), fillAttr_of_has _ (by simpa using h)]
      · rw [if_neg htg]
  | cT =>
      rw [applyCat]
      by_cases htg : (tg == "w:t") = true
      · rw [if_pos htg]
        cases cs with
        | nil => rw [addXmlSpaceToT_nil]
        | cons c rest =>
            cases c with
            | text s =>
                simp only [catFilled, htg, Bool.not_true, Bool.false_or] at h
                rw [addXmlSpaceToT_text_head]
                by_cases hcond : (!(s == "") && (s.front.isWhitespace || s.back.isWhitespace)) = true
                · simp only [hcond, Bool.not_true, Bool.false_or] at h
                  rw [if_pos hcond, fillAttr_of_has _ h]
                · rw [if_neg hcond]
            | elem tg2 a2 ln2 cs2 => rw [addXmlSpaceToT_elem_head]
      · rw [if_neg htg]
  | cIns =>
      rw [applyCat]
      by_cases htg : (tg == "w:ins") = true
      · simp only [catFilled, htg, Bool.not_true, Bool.false_or,
          Bool.and_eq_true] at h
        rw [if_pos htg, addTrackedChangeAttrs, if_pos h.1.1.1]
        dsimp only
        rw [fillAttr_of_has _ h.1.1.2, fillAttr_of_has _ h.1.2]
        rw [if_neg (by simp [h.2])]
      · rw [if_neg htg]
  | cDel =>
      rw [applyCat]
      by_cases htg : (tg == "w:del") = true
      · simp only [catFilled, htg, Bool.not_true, Bool.false_or,
          Bool.and_eq_true] at h
        rw [if_pos htg, addTrackedChangeAttrs, if_pos h.1.1.1]
        dsimp only
        rw [fillAttr_of_has _ h.1.1.2, fillAttr_of_has _ h.1.2]
        rw [if_neg (by simp [h.2])]
      · rw [if_neg htg]
  | cComment =>
      rw [applyCat]
      by_cases htg : (tg == "w:comment") = true
      · simp only [catFilled, htg, Bool.not_true, Bool.false_or,
          Bool.and_eq_true] at h
        rw [if_pos htg, addCommentAttrs]
        rw [fillAttr_of_has _ h.1.1, fillAttr_of_has _ h.1.2,
          fillAttr_of_has _ h.2]
      · rw [if_neg htg]
  | cCex =>
      rw [applyCat]
      by_cases htg : (tg == "w16cex:commentExtensible") = true
      · simp only [catFilled, htg, Bool.not_true, Bool.false_or] at h
        rw [if_pos htg, addCommentExtensibleDate, if_pos h]
      · rw [if_neg htg]

end Docx

namespace Docx

theorem catFilledNode_text (cat : InjCat) (anc : Bool) (s : String) :
    catFilledNode cat anc (.text s) = true := rfl

theorem catFilledNode_elem (cat : InjCat) (anc : Bool) (tg : String)
    (a : List (String × String)) (ln : Option Nat) (cs : List XNode) :
    catFilledNode cat anc (.elem tg a ln cs) =
      (catFilled cat anc tg a cs && catFilledL cat (anc || tg == "w:del") cs) := rfl

theorem catFilledL_nil (cat : InjCat) (anc : Bool) :
    catFilledL cat anc [] = true := rfl

theorem catFilledL_cons (cat : InjCat) (anc : Bool) (c : XNode) (cs : List XNode) :
    catFilledL cat anc (c :: cs) =
      (catFilledNode cat anc c && catFilledL cat anc cs) := rfl

theorem band_true_elim {a b : Bool} (h : (a && b) = true) : a = true ∧ b = true := by
  cases a <;> cases b <;> simp_all

theorem applySelf_skip (cfg : Cfg) (anc : Bool) (tg : String)
    (a : List (String × String)) (cs : List XNode) (st : InjSt)
    (hP : catFilled .cP anc tg a cs = true)
    (hR : catFilled .cR anc tg a cs = true)
    (hT : catFilled .cT anc tg a cs = true)
    (hI : catFilled .cIns anc tg a cs = true)
    (hD : catFilled .cDel anc tg a cs = true)
    (hC : catFilled .cComment anc tg a cs = true)
    (hX : catFilled .cCex anc tg a cs = true) :
    applySelf cfg anc tg a cs st = (a, st) := by
  simp only [applySelf]
  rw [applyCat_skip cfg .cP anc tg a cs st hP]
  try dsimp only
  rw [applyCat_skip cfg .cR anc tg a cs st hR]
  try dsimp only
  rw [applyCat_skip cfg .cT anc tg a cs st hT]
  try dsimp only
  rw [applyCat_skip cfg .cIns anc tg a cs st hI]
  try dsimp only
  rw [applyCat_skip cfg .cDel anc tg a cs st hD]
  try dsimp only
  rw [applyCat_skip cfg .cComment anc tg a cs st hC]
  try dsimp only
  rw [applyCat_skip cfg .cCex anc tg a cs st hX]

mutual

theorem passNode_skip (cfg : Cfg) (cat : InjCat) : ∀ (anc : Bool) (n : XNode) (st : InjSt),
    catFilledNode cat anc n = true → passNode cfg cat anc n st = (n, st)
  | anc, .text s, st, _ => by rw [passNode]
  | anc, .elem tg a ln cs, st, h => by
      rw [catFilledNode_elem] at h
      obtain ⟨hh, ht⟩ := band_true_elim h
      rw [passNode]
      try dsimp only
      rw [applyCat_skip cfg cat anc tg a cs st hh]
      try dsimp only
      rw [passList_skip cfg cat (anc || tg == "w:del") cs st ht]

theorem passList_skip (cfg : Cfg) (cat : InjCat) : ∀ (anc : Bool) (cs : List XNode) (st : InjSt),
    catFilledL cat anc cs = true → passList cfg cat anc cs st = (cs, st)
  | anc, [], st, _ => by rw [passList]
  | anc, c :: cs, st, h => by
      rw [catFilledL_cons] at h
      obtain ⟨hh, ht⟩ := band_true_elim h
      rw [passList]
      try dsimp only
      rw [passNode_skip cfg cat anc c st hh]
      try dsimp only
      rw [passList_skip cfg cat anc cs st ht]

end

theorem injectNode_skip (cfg : Cfg) (anc : Bool) (n : XNode) (st : InjSt)
    (h : injectedNode anc n = true) : injectNode cfg anc n st = (n, st) := by
  cases n with
  | text s => rw [injectNode]
  | elem tg a ln cs =>
      rw [injectedNode] at h
      obtain ⟨h16, h7⟩ := band_true_elim h
      obtain ⟨h15, h6⟩ := band_true_elim h16
      obtain ⟨h14, h5⟩ := band_true_elim h15
      obtain ⟨h13, h4⟩ := band_true_elim h14
      obtain ⟨h12, h3⟩ := band_true_elim h13
      obtain ⟨h1, h2⟩ := band_true_elim h12
      rw [catFilledNode_elem] at h1 h2 h3 h4 h5 h6 h7
      obtain ⟨h1a, h1b⟩ := band_true_elim h1
      obtain ⟨h2a, h2b⟩ := band_true_elim h2
      obtain ⟨h3a, h3b⟩ := band_true_elim h3
      obtain ⟨h4a, h4b⟩ := band_true_elim h4
      obtain ⟨h5a, h5b⟩ := band_true_elim h5
      obtain ⟨h6a, h6b⟩ := band_true_elim h6
      obtain ⟨h7a, h7b⟩ := band_true_elim h7
      rw [injectNode]
      try dsimp only
      rw [applySelf_skip cfg anc tg a cs st h1a h2a h3a h4a h5a h6a h7a]
      try dsimp only
      rw [passList_skip cfg .cP _ cs st h1b]
      try dsimp only
      rw [passList_skip cfg .cR _ cs st h2b]
      try dsimp only
      rw [passList_skip cfg .cT _ cs st h3b]
      try dsimp only
      rw [passList_skip cfg .cIns _ cs st h4b]
      try dsimp only
      rw [passList_skip cfg .cDel _ cs st h5b]
      try dsimp only
      rw [passList_skip cfg .cComment _ cs st h6b]
      try dsimp only
      rw [passList_skip cfg .cCex _ cs st h7b]

theorem injectNodes_skip (cfg : Cfg) (anc : Bool) : ∀ (ns : List XNode) (st : InjSt),
    (∀ n ∈ ns, injectedNode anc n = true) → injectNodes cfg anc ns st = (ns, st)
  | [], st, _ => by rw [injectNodes]
  | n :: ns, st, h => by
      rw [injectNodes]
      try dsimp only
      rw [injectNode_skip cfg anc n st (h n (List.mem_cons_self _ _))]
      try dsimp only
      rw [injectNodes_skip cfg anc ns st (fun m hm => h m (List.mem_cons_of_mem _ hm))]

end Docx

namespace Docx

theorem catFilled_mono {cat : InjCat} {anc : Bool} {tg : String}
    {a a2 : List (String × String)} {cs cs2 : List XNode}
    (h : catFilled cat anc tg a cs = true) (hp : a <+: a2)
    (hc : XNode.attrExtL cs cs2 = true) :
    catFilled cat anc tg a2 cs2 = true := by
  cases cat with
  | cP =>
      simp only [catFilled, Bool.or_eq_true, Bool.and_eq_true] at h ⊢
      rcases h with h | h
      · exact Or.inl h
      · exact Or.inr ⟨⟨⟨⟨hasAttrL_mono hp h.1.1.1.1, hasAttrL_mono hp h.1.1.1.2⟩,
          hasAttrL_mono hp h.1.1.2⟩, hasAttrL_mono hp h.1.2⟩, hasAttrL_mono hp h.2⟩
  | cR =>
      simp only [catFilled, Bool.or_eq_true] at h ⊢
      rcases h with h | h
      · exact Or.inl h
      · right
        cases anc with
        | true => simpa using hasAttrL_mono hp (by simpa using h)
        | false => simpa using hasAttrL_mono hp (by simpa using h)
  | cT =>
      simp only [catFilled, Bool.or_eq_true] at h ⊢
      rcases h with h | h
      · exact Or.inl h
      · right
        cases cs with
        | nil =>
            cases cs2 with
            | nil => exact h
            | cons d ds => simp [XNode.attrExtL_nil_cons] at hc
        | cons c rest =>
            cases cs2 with
            | nil => simp [XNode.attrExtL_cons_nil] at hc
            | cons d ds =>
                rw [XNode.attrExtL_cons_iff] at hc
                cases c with
                | text s =>
                    cases d with
                    | text t =>
                        rw [XNode.attrExt_text_text] at hc
                        have hst : s = t := by simpa using hc.1
                        subst hst
                        simp only [Bool.or_eq_true] at h ⊢
                        rcases h with h | h
                        · exact Or.inl h
                        · exact Or.inr (hasAttrL_mono hp h)
                    | elem _ _ _ _ => simp [XNode.attrExt_text_elem] at hc
                | elem tg3 a3 ln3 cs3 =>
                    cases d with
                    | text t => simp [XNode.attrExt_elem_text] at hc
                    | elem _ _ _ _ => trivial
  | cIns =>
      simp only [catFilled, Bool.or_eq_true, Bool.and_eq_true] at h ⊢
      rcases h with h | h
      · exact Or.inl h
      · exact Or.inr ⟨⟨⟨hasAttrL_mono hp h.1.1.1, hasAttrL_mono hp h.1.1.2⟩,
          hasAttrL_mono hp h.1.2⟩, hasAttrL_mono hp h.2⟩
  | cDel =>
      simp only [catFilled, Bool.or_eq_true, Bool.and_eq_true] at h ⊢
      rcases h with h | h
      · exact Or.inl h
      · exact Or.inr ⟨⟨⟨hasAttrL_mono hp h.1.1.1, hasAttrL_mono hp h.1.1.2⟩,
          hasAttrL_mono hp h.1.2⟩, hasAttrL_mono hp h.2⟩
  | cComment =>
      simp only [catFilled, Bool.or_eq_true, Bool.and_eq_true] at h ⊢
      rcases h with h | h
      · exact Or.inl h
      · exact Or.inr ⟨⟨hasAttrL_mono hp h.1.1, hasAttrL_mono hp h.1.2⟩,
          hasAttrL_mono hp h.2⟩
  | cCex =>
      simp only [catFilled, Bool.or_eq_true] at h ⊢
      rcases h with h | h
      · exact Or.inl h
      · exact Or.inr (hasAttrL_mono hp h)

end Docx

namespace Docx

theorem applyCat_fills (cfg : Cfg) (cat : InjCat) (anc : Bool) (tg : String)
    (a : List (String × String)) (cs : List XNode) (st : InjSt) :
    catFilled cat anc tg (applyCat cfg cat anc tg a cs st).1 cs = true := by
  cases cat with
  | cP =>
      rw [applyCat]
      by_cases htg : (tg == "w:p") = true
      · rw [if_pos htg]
        simp only [catFilled, htg, Bool.not_true, Bool.false_or, Bool.and_eq_true]
        simp only [addRsidToP]
        split
        next hpara =>
          dsimp only
          split
          next htext =>
            exact ⟨⟨⟨⟨hasAttrL_fillAttr_mono _ _ (hasAttrL_fillAttr_mono _ _
                (hasAttrL_fillAttr_self a _ _)),
              hasAttrL_fillAttr_mono _ _ (hasAttrL_fillAttr_self _ _ _)⟩,
              hasAttrL_fillAttr_self _ _ _⟩, hpara⟩, htext⟩
          next htext =>
            exact ⟨⟨⟨⟨hasAttrL_attrSet_mono _ _ (hasAttrL_fillAttr_mono _ _
                (hasAttrL_fillAttr_mono _ _ (hasAttrL_fillAttr_self a _ _))),
              hasAttrL_attrSet_mono _ _ (hasAttrL_fillAttr_mono _ _
                (hasAttrL_fillAttr_self _ _ _))⟩,
              hasAttrL_attrSet_mono _ _ (hasAttrL_fillAttr_self _ _ _)⟩,
              hasAttrL_attrSet_mono _ _ hpara⟩,
              hasAttrL_attrSet_self _ _ _⟩
        next hpara =>
          dsimp only
          split
          next htext =>
            exact ⟨⟨⟨⟨hasAttrL_attrSet_mono _ _ (hasAttrL_fillAttr_mono _ _
                (hasAttrL_fillAttr_mono _ _ (hasAttrL_fillAttr_self a _ _))),
              hasAttrL_attrSet_mono _ _ (hasAttrL_fillAttr_mono _ _
                (hasAttrL_fillAttr_self _ _ _))⟩,
              hasAttrL_attrSet_mono _ _ (hasAttrL_fillAttr_self _ _ _)⟩,
              hasAttrL_attrSet_self _ _ _⟩, htext⟩
          next htext =>
            exact ⟨⟨⟨⟨hasAttrL_attrSet_mono _ _ (hasAttrL_attrSet_mono _ _
                (hasAttrL_fillAttr_mono _ _ (hasAttrL_fillAttr_mono _ _
                  (hasAttrL_fillAttr_self a _ _)))),
              hasAttrL_attrSet_mono _ _ (hasAttrL_attrSet_mono _ _
                (hasAttrL_fillAttr_mono _ _ (hasAttrL_fillAttr_self _ _ _)))⟩,
              hasAttrL_attrSet_mono _ _ (hasAttrL_attrSet_mono _ _
                (hasAttrL_fillAttr_self _ _ _))⟩,
              hasAttrL_attrSet_mono _ _ (hasAttrL_attrSet_self _ _ _)⟩,
              hasAttrL_attrSet_self _ _ _⟩
      · rw [if_neg htg]
        have hf : (tg == "w:p") = false := by simpa using htg
        simp [catFilled, hf]
  | cR =>
      rw [applyCat]
      by_cases htg : (tg == "w:r") = true
      · rw [if_pos htg]
        simp only [catFilled, htg, Bool.not_true, Bool.false_or]
        rw [addRsidToR]
        cases anc with
        | true =>
            rw [if_pos (by simp)]
            simp only [if_pos rfl]
            exact hasAttrL_fillAttr_self a _ _
        | false =>
            rw [if_neg (by simp)]
            simp only [if_neg (by simp : ¬ (false = true))]
            exact hasAttrL_fillAttr_self a _ _
      · rw [if_neg htg]
        have hf : (tg == "w:r") = false := by simpa using htg
        simp [catFilled, hf]
  | cT =>
      rw [applyCat]
      by_cases htg : (tg == "w:t") = true
      · rw [if_pos htg]
        cases cs with
        | nil => simp [addXmlSpaceToT_nil, catFilled, htg]
        | cons c rest =>
            cases c with
            | text s =>
                rw [addXmlSpaceToT_text_head]
                by_cases hcond :
                    (!(s == "") && (s.front.isWhitespace || s.back.isWhitespace)) = true
                · rw [if_pos hcond]
                  simp only [catFilled, htg, Bool.not_true, Bool.false_or, hcond,
                    Bool.or_eq_true]
                  exact hasAttrL_fillAttr_self a _ _
                · rw [if_neg hcond]
                  simp only [catFilled, htg, Bool.not_true, Bool.false_or,
                    Bool.or_eq_true]
                  left
                  have hf : (!(s == "") &&
                      (s.front.isWhitespace || s.back.isWhitespace)) = false := by
                    simpa using hcond
                  simp [hf]
            | elem tg2 a2 ln2 cs2 =>
                rw [addXmlSpaceToT_elem_head]
                simp [catFilled, htg]
      · rw [if_neg htg]
        have hf : (tg == "w:t") = false := by simpa using htg
        simp [catFilled, hf]
  | cIns =>
      rw [applyCat]
      by_cases htg : (tg == "w:ins") = true
      · rw [if_pos htg]
        simp only [catFilled, htg, Bool.not_true, Bool.false_or, Bool.and_eq_true]
        simp only [addTrackedChangeAttrs]
        split
        next hid =>
          dsimp only
          split
          next hcond =>
            exact ⟨⟨⟨hasAttrL_attrSet_mono _ _ (hasAttrL_fillAttr_mono _ _
                (hasAttrL_fillAttr_mono _ _ hid)),
              hasAttrL_attrSet_mono _ _ (hasAttrL_fillAttr_mono _ _
                (hasAttrL_fillAttr_self _ _ _))⟩,
              hasAttrL_attrSet_mono _ _ (hasAttrL_fillAttr_self _ _ _)⟩,
              hasAttrL_attrSet_self _ _ _⟩
          next hcond =>
            have hutc : hasAttrL (fillAttr (fillAttr a "w:author" cfg.author)
                "w:date" cfg.timestamp) "w16du:dateUtc" = true := by
              by_contra hno
              rw [Bool.not_eq_true] at hno
              exact hcond (by rw [Bool.and_eq_true]; exact ⟨by simp [htg], by simp [hno]⟩)
            exact ⟨⟨⟨hasAttrL_fillAttr_mono _ _ (hasAttrL_fillAttr_mono _ _ hid),
              hasAttrL_fillAttr_mono _ _ (hasAttrL_fillAttr_self _ _ _)⟩,
              hasAttrL_fillAttr_self _ _ _⟩, hutc⟩
        next hid =>
          dsimp only
          split
          next hcond =>
            exact ⟨⟨⟨hasAttrL_attrSet_mono _ _ (hasAttrL_fillAttr_mono _ _
                (hasAttrL_fillAttr_mono _ _ (hasAttrL_attrSet_self a _ _))),
              hasAttrL_attrSet_mono _ _ (hasAttrL_fillAttr_mono _ _
                (hasAttrL_fillAttr_self _ _ _))⟩,
              hasAttrL_attrSet_mono _ _ (hasAttrL_fillAttr_self _ _ _)⟩,
              hasAttrL_attrSet_self _ _ _⟩
          next hcond =>
            have hutc : hasAttrL (fillAttr (fillAttr
                (Editor.attrSet a "w:id" (toString st.nextChangeId))
                "w:author" cfg.author) "w:date" cfg.timestamp) "w16du:dateUtc" = true := by
              by_contra hno
              rw [Bool.not_eq_true] at hno
              exact hcond (by rw [Bool.and_eq_true]; exact ⟨by simp [htg], by simp [hno]⟩)
            exact ⟨⟨⟨hasAttrL_fillAttr_mono _ _ (hasAttrL_fillAttr_mono _ _
                (hasAttrL_attrSet_self a _ _)),
              hasAttrL_fillAttr_mono _ _ (hasAttrL_fillAttr_self _ _ _)⟩,
              hasAttrL_fillAttr_self _ _ _⟩, hutc⟩
      · rw [if_neg htg]
        have hf : (tg == "w:ins") = false := by simpa using htg
        simp [catFilled, hf]
  | cDel =>
      rw [applyCat]
      by_cases htg : (tg == "w:del") = true
      · rw [if_pos htg]
        simp only [catFilled, htg, Bool.not_true, Bool.false_or, Bool.and_eq_true]
        simp only [addTrackedChangeAttrs]
        split
        next hid =>
          dsimp only
          split
          next hcond =>
            exact ⟨⟨⟨hasAttrL_attrSet_mono _ _ (hasAttrL_fillAttr_mono _ _
                (hasAttrL_fillAttr_mono _ _ hid)),
              hasAttrL_attrSet_mono _ _ (hasAttrL_fillAttr_mono _ _
                (hasAttrL_fillAttr_self _ _ _))⟩,
              hasAttrL_attrSet_mono _ _ (hasAttrL_fillAttr_self _ _ _)⟩,
              hasAttrL_attrSet_self _ _ _⟩
          next hcond =>
            have hutc : hasAttrL (fillAttr (fillAttr a "w:author" cfg.author)
                "w:date" cfg.timestamp) "w16du:dateUtc" = true := by
              by_contra hno
              rw [Bool.not_eq_true] at hno
              exact hcond (by rw [Bool.and_eq_true]; exact ⟨by simp [htg], by simp [hno]⟩)
            exact ⟨⟨⟨hasAttrL_fillAttr_mono _ _ (hasAttrL_fillAttr_mono _ _ hid),
              hasAttrL_fillAttr_mono _ _ (hasAttrL_fillAttr_self _ _ _)⟩,
              hasAttrL_fillAttr_self _ _ _⟩, hutc⟩
        next hid =>
          dsimp only
          split
          next hcond =>
            exact ⟨⟨⟨hasAttrL_attrSet_mono _ _ (hasAttrL_fillAttr_mono _ _
                (hasAttrL_fillAttr_mono _ _ (hasAttrL_attrSet_self a _ _))),
              hasAttrL_attrSet_mono _ _ (hasAttrL_fillAttr_mono _ _
                (hasAttrL_fillAttr_self _ _ _))⟩,
              hasAttrL_attrSet_mono _ _ (hasAttrL_fillAttr_self _ _ _)⟩,
              hasAttrL_attrSet_self _ _ _⟩
          next hcond =>
            have hutc : hasAttrL (fillAttr (fillAttr
                (Editor.attrSet a "w:id" (toString st.nextChangeId))
                "w:author" cfg.author) "w:date" cfg.timestamp) "w16du:dateUtc" = true := by
              by_contra hno
              rw [Bool.not_eq_true] at hno
              exact hcond (by rw [Bool.and_eq_true]; exact ⟨by simp [htg], by simp [hno]⟩)
            exact ⟨⟨⟨hasAttrL_fillAttr_mono _ _ (hasAttrL_fillAttr_mono _ _
                (hasAttrL_attrSet_self a _ _)),
              hasAttrL_fillAttr_mono _ _ (hasAttrL_fillAttr_self _ _ _)⟩,
              hasAttrL_fillAttr_self _ _ _⟩, hutc⟩
      · rw [if_neg htg]
        have hf : (tg == "w:del") = false := by simpa using htg
        simp [catFilled, hf]
  | cComment =>
      rw [applyCat]
      by_cases htg : (tg == "w:comment") = true
      · rw [if_pos htg]
        simp only [catFilled, htg, Bool.not_true, Bool.false_or, Bool.and_eq_true]
        simp only [addCommentAttrs]
        exact ⟨⟨hasAttrL_fillAttr_mono _ _ (hasAttrL_fillAttr_mono _ _
            (hasAttrL_fillAttr_self a _ _)),
          hasAttrL_fillAttr_mono _ _ (hasAttrL_fillAttr_self _ _ _)⟩,
          hasAttrL_fillAttr_self _ _ _⟩
      · rw [if_neg htg]
        have hf : (tg == "w:comment") = false := by simpa using htg
        simp [catFilled, hf]
  | cCex =>
      rw [applyCat]
      by_cases htg : (tg == "w16cex:commentExtensible") = true
      · rw [if_pos htg]
        simp only [catFilled, htg, Bool.not_true, Bool.false_or]
        rw [addCommentExtensibleDate]
        split
        next hdate => exact hdate
        next hdate => exact hasAttrL_attrSet_self a _ _
      · rw [if_neg htg]
        have hf : (tg == "w16cex:commentExtensible") = false := by simpa using htg
        simp [catFilled, hf]

end Docx

namespace Docx

theorem applySelf_fills (cfg : Cfg) (anc : Bool) (tg : String)
    (a : List (String × String)) (cs : List XNode) (st : InjSt) (cat : InjCat) :
    catFilled cat anc tg (applySelf cfg anc tg a cs st).1 cs = true := by
  simp only [applySelf]
  set s1 := applyCat cfg .cP anc tg a cs st with hs1
  set s2 := applyCat cfg .cR anc tg s1.1 cs s1.2 with hs2
  set s3 := applyCat cfg .cT anc tg s2.1 cs s2.2 with hs3
  set s4 := applyCat cfg .cIns anc tg s3.1 cs s3.2 with hs4
  set s5 := applyCat cfg .cDel anc tg s4.1 cs s4.2 with hs5
  set s6 := applyCat cfg .cComment anc tg s5.1 cs s5.2 with hs6
  set s7 := applyCat cfg .cCex anc tg s6.1 cs s6.2 with hs7
  have p2 : s1.1 <+: s2.1 := by
    rw [hs2]; exact applyCat_preext cfg .cR anc tg _ cs _
  have p3 : s2.1 <+: s3.1 := by
    rw [hs3]; exact applyCat_preext cfg .cT anc tg _ cs _
  have p4 : s3.1 <+: s4.1 := by
    rw [hs4]; exact applyCat_preext cfg .cIns anc tg _ cs _
  have p5 : s4.1 <+: s5.1 := by
    rw [hs5]; exact applyCat_preext cfg .cDel anc tg _ cs _
  have p6 : s5.1 <+: s6.1 := by
    rw [hs6]; exact applyCat_preext cfg .cComment anc tg _ cs _
  have p7 : s6.1 <+: s7.1 := by
    rw [hs7]; exact applyCat_preext cfg .cCex anc tg _ cs _
  have c1 : s1.1 <+: s7.1 :=
    p2.trans (p3.trans (p4.trans (p5.trans (p6.trans p7))))
  have c2 : s2.1 <+: s7.1 := p3.trans (p4.trans (p5.trans (p6.trans p7)))
  have c3 : s3.1 <+: s7.1 := p4.trans (p5.trans (p6.trans p7))
  have c4 : s4.1 <+: s7.1 := p5.trans (p6.trans p7)
  have c5 : s5.1 <+: s7.1 := p6.trans p7
  have c6 : s6.1 <+: s7.1 := p7
  have f1 : catFilled .cP anc tg s1.1 cs = true := by
    rw [hs1]; exact applyCat_fills cfg .cP anc tg a cs st
  have f2 : catFilled .cR anc tg s2.1 cs = true := by
    rw [hs2]; exact applyCat_fills cfg .cR anc tg _ cs _
  have f3 : catFilled .cT anc tg s3.1 cs = true := by
    rw [hs3]; exact applyCat_fills cfg .cT anc tg _ cs _
  have f4 : catFilled .cIns anc tg s4.1 cs = true := by
    rw [hs4]; exact applyCat_fills cfg .cIns anc tg _ cs _
  have f5 : catFilled .cDel anc tg s5.1 cs = true := by
    rw [hs5]; exact applyCat_fills cfg .cDel anc tg _ cs _
  have f6 : catFilled .cComment anc tg s6.1 cs = true := by
    rw [hs6]; exact applyCat_fills cfg .cComment anc tg _ cs _
  have f7 : catFilled .cCex anc tg s7.1 cs = true := by
    rw [hs7]; exact applyCat_fills cfg .cCex anc tg _ cs _
  cases cat with
  | cP => exact catFilled_mono f1 c1 (XNode.attrExtL_refl cs)
  | cR => exact catFilled_mono f2 c2 (XNode.attrExtL_refl cs)
  | cT => exact catFilled_mono f3 c3 (XNode.attrExtL_refl cs)
  | cIns => exact catFilled_mono f4 c4 (XNode.attrExtL_refl cs)
  | cDel => exact catFilled_mono f5 c5 (XNode.attrExtL_refl cs)
  | cComment => exact catFilled_mono f6 c6 (XNode.attrExtL_refl cs)
  | cCex => exact catFilled_mono f7 (List.prefix_refl _) (XNode.attrExtL_refl cs)

mutual

theorem passNode_fills (cfg : Cfg) (cat : InjCat) : ∀ (anc : Bool) (n : XNode) (st : InjSt),
    catFilledNode cat anc (passNode cfg cat anc n st).1 = true
  | anc, .text s, st => by
      rw [passNode]
      exact catFilledNode_text cat anc s
  | anc, .elem tg a ln cs, st => by
      rw [passNode]
      dsimp only
      rw [catFilledNode_elem, Bool.and_eq_true]
      constructor
      · exact catFilled_mono (applyCat_fills cfg cat anc tg a cs st)
          (List.prefix_refl _) (passList_ext cfg cat _ cs _)
      · exact passList_fills cfg cat _ cs _

theorem passList_fills (cfg : Cfg) (cat : InjCat) : ∀ (anc : Bool) (cs : List XNode) (st : InjSt),
    catFilledL cat anc (passList cfg cat anc cs st).1 = true
  | anc, [], st => by rw [passList]; rfl
  | anc, c :: cs, st => by
      rw [passList]
      dsimp only
      rw [catFilledL_cons, Bool.and_eq_true]
      exact ⟨passNode_fills cfg cat anc c st, passList_fills cfg cat anc cs _⟩

end

mutual

theorem catFilledNode_ext (cat : InjCat) : ∀ {anc : Bool} {n n2 : XNode},
    catFilledNode cat anc n = true → XNode.attrExt n n2 = true →
    catFilledNode cat anc n2 = true
  | anc, .text s, .text t, _, _ => catFilledNode_text cat anc t
  | anc, .text _, .elem _ _ _ _, _, he => by
      rw [XNode.attrExt_text_elem] at he
      exact absurd he (by simp)
  | anc, .elem _ _ _ _, .text _, _, he => by
      rw [XNode.attrExt_elem_text] at he
      exact absurd he (by simp)
  | anc, .elem tg a ln cs, .elem tg2 a2 ln2 cs2, h, he => by
      rw [XNode.attrExt_elem_iff] at he
      obtain ⟨htg, hpre, hln, hext⟩ := he
      subst htg
      rw [catFilledNode_elem] at h ⊢
      obtain ⟨hh, ht⟩ := band_true_elim h
      rw [Bool.and_eq_true]
      exact ⟨catFilled_mono hh hpre hext, catFilledL_ext cat ht hext⟩

theorem catFilledL_ext (cat : InjCat) : ∀ {anc : Bool} {cs cs2 : List XNode},
    catFilledL cat anc cs = true → XNode.attrExtL cs cs2 = true →
    catFilledL cat anc cs2 = true
  | anc, [], [], _, _ => rfl
  | anc, [], _ :: _, _, he => by
      rw [XNode.attrExtL_nil_cons] at he
      exact absurd he (by simp)
  | anc, _ :: _, [], _, he => by
      rw [XNode.attrExtL_cons_nil] at he
      exact absurd he (by simp)
  | anc, c :: cs, d :: ds, h, he => by
      rw [XNode.attrExtL_cons_iff] at he
      rw [catFilledL_cons] at h ⊢
      obtain ⟨hh, ht⟩ := band_true_elim h
      rw [Bool.and_eq_true]
      exact ⟨catFilledNode_ext cat hh he.1, catFilledL_ext cat ht he.2⟩

end

theorem injectedNode_text (anc : Bool) (s : String) :
    injectedNode anc (.text s) = true := rfl

theorem injectNode_fills (cfg : Cfg) (anc : Bool) (n : XNode) (st : InjSt) :
    injectedNode anc (injectNode cfg anc n st).1 = true := by
  cases n with
  | text s =>
      rw [injectNode]
      exact injectedNode_text anc s
  | elem tg a ln cs =>
      rw [injectNode]
      dsimp only
      set s0 := applySelf cfg anc tg a cs st with hs0
      set q1 := passList cfg .cP (anc || tg == "w:del") cs s0.2 with hq1
      set q2 := passList cfg .cR (anc || tg == "w:del") q1.1 q1.2 with hq2
      set q3 := passList cfg .cT (anc || tg == "w:del") q2.1 q2.2 with hq3
      set q4 := passList cfg .cIns (anc || tg == "w:del") q3.1 q3.2 with hq4
      set q5 := passList cfg .cDel (anc || tg == "w:del") q4.1 q4.2 with hq5
      set q6 := passList cfg .cComment (anc || tg == "w:del") q5.1 q5.2 with hq6
      set q7 := passList cfg .cCex (anc || tg == "w:del") q6.1 q6.2 with hq7
      have e1 : XNode.attrExtL cs q1.1 = true := by
        rw [hq1]; exact passList_ext cfg .cP _ cs _
      have e2 : XNode.attrExtL q1.1 q2.1 = true := by
        rw [hq2]; exact passList_ext cfg .cR _ _ _
      have e3 : XNode.attrExtL q2.1 q3.1 = true := by
        rw [hq3]; exact passList_ext cfg .cT _ _ _
      have e4 : XNode.attrExtL q3.1 q4.1 = true := by
        rw [hq4]; exact passList_ext cfg .cIns _ _ _
      have e5 : XNode.attrExtL q4.1 q5.1 = true := by
        rw [hq5]; exact passList_ext cfg .cDel _ _ _
      have e6 : XNode.attrExtL q5.1 q6.1 = true := by
        rw [hq6]; exact passList_ext cfg .cComment _ _ _
      have e7 : XNode.attrExtL q6.1 q7.1 = true := by
        rw [hq7]; exact passList_ext cfg .cCex _ _ _
      have c27 : XNode.attrExtL q1.1 q7.1 = true :=
        XNode.attrExtL_trans e2 (XNode.attrExtL_trans e3 (XNode.attrExtL_trans e4
          (XNode.attrExtL_trans e5 (XNode.attrExtL_trans e6 e7))))
      have c17 : XNode.attrExtL cs q7.1 = true := XNode.attrExtL_trans e1 c27
      have c37 : XNode.attrExtL q2.1 q7.1 = true :=
        XNode.attrExtL_trans e3 (XNode.attrExtL_trans e4 (XNode.attrExtL_trans e5
          (XNode.attrExtL_trans e6 e7)))
      have c47 : XNode.attrExtL q3.1 q7.1 = true :=
        XNode.attrExtL_trans e4 (XNode.attrExtL_trans e5 (XNode.attrExtL_trans e6 e7))
      have c57 : XNode.attrExtL q4.1 q7.1 = true :=
        XNode.attrExtL_trans e5 (XNode.attrExtL_trans e6 e7)
      have c67 : XNode.attrExtL q5.1 q7.1 = true := XNode.attrExtL_trans e6 e7
      have fillSelf : ∀ cat : InjCat,
          catFilled cat anc tg s0.1 q7.1 = true := by
        intro cat
        refine catFilled_mono ?_ (List.prefix_refl _) c17
        rw [hs0]
        exact applySelf_fills cfg anc tg a cs st cat
      have f1 : catFilledL .cP (anc || tg == "w:del") q7.1 = true := by
        refine catFilledL_ext .cP ?_ c27
        rw [hq1]
        exact passList_fills cfg .cP _ cs _
      have f2 : catFilledL .cR (anc || tg == "w:del") q7.1 = true := by
        refine catFilledL_ext .cR ?_ c37
        rw [hq2]
        exact passList_fills cfg .cR _ _ _
      have f3 : catFilledL .cT (anc || tg == "w:del") q7.1 = true := by
        refine catFilledL_ext .cT ?_ c47
        rw [hq3]
        exact passList_fills cfg .cT _ _ _
      have f4 : catFilledL .cIns (anc || tg == "w:del") q7.1 = true := by
        refine catFilledL_ext .cIns ?_ c57
        rw [hq4]
        exact passList_fills cfg .cIns _ _ _
      have f5 : catFilledL .cDel (anc || tg == "w:del") q7.1 = true := by
        refine catFilledL_ext .cDel ?_ c67
        rw [hq5]
        exact passList_fills cfg .cDel _ _ _
      have f6 : catFilledL .cComment (anc || tg == "w:del") q7.1 = true := by
        refine catFilledL_ext .cComment ?_ e7
        rw [hq6]
        exact passList_fills cfg .cComment _ _ _
      have f7 : catFilledL .cCex (anc || tg == "w:del") q7.1 = true := by
        rw [hq7]
        exact passList_fills cfg .cCex _ _ _
      rw [injectedNode]
      simp only [catFilledNode_elem]
      rw [Bool.and_eq_true, Bool.and_eq_true, Bool.and_eq_true, Bool.and_eq_true,
        Bool.and_eq_true, Bool.and_eq_true]
      exact ⟨⟨⟨⟨⟨⟨by rw [Bool.and_eq_true]; exact ⟨fillSelf .cP, f1⟩,
        by rw [Bool.and_eq_true]; exact ⟨fillSelf .cR, f2⟩⟩,
        by rw [Bool.and_eq_true]; exact ⟨fillSelf .cT, f3⟩⟩,
        by rw [Bool.and_eq_true]; exact ⟨fillSelf .cIns, f4⟩⟩,
        by rw [Bool.and_eq_true]; exact ⟨fillSelf .cDel, f5⟩⟩,
        by rw [Bool.and_eq_true]; exact ⟨fillSelf .cComment, f6⟩⟩,
        by rw [Bool.and_eq_true]; exact ⟨fillSelf .cCex, f7⟩⟩

theorem injectNodes_fills (cfg : Cfg) (anc : Bool) : ∀ (ns : List XNode) (st : InjSt),
    ∀ n ∈ (injectNodes cfg anc ns st).1, injectedNode anc n = true
  | [], st => by rw [injectNodes]; intro n hn; simp at hn
  | n :: ns, st => by
      rw [injectNodes]
      dsimp only
      intro m hm
      rcases List.mem_cons.mp hm with rfl | hm'
      · exact injectNode_fills cfg anc n st
      · exact injectNodes_fills cfg anc ns _ m hm'

end Docx

namespace Docx

/-- C7: for every node list processed by the attribute-injection pass, the
result only extends each node's (and each descendant's) attribute list —
so any attribute already present keeps its prior value, as the second
conjunct interprets on the extension relation — and a second run of the
injection pass over the result, under any configuration and state, returns
the result and state unchanged (idempotence). -/
theorem C7_injection_no_overwrite_idempotent
    (cfg cfg2 : Cfg) (anc : Bool) (nodes : List XNode) (st st2 : InjSt) :
    XNode.attrExtL nodes (injectNodes cfg anc nodes st).1 = true ∧
    (∀ m m' : XNode, XNode.attrExt m m' = true →
      ∀ k : String, Editor.hasAttribute m k = true →
        Editor.getAttribute m' k = Editor.getAttribute m k) ∧
    injectNodes cfg2 anc (injectNodes cfg anc nodes st).1 st2 =
      ((injectNodes cfg anc nodes st).1, st2) :=
  ⟨injectNodes_ext cfg anc nodes st,
   fun _ _ h k hk => attrExt_preserves_attr h k hk,
   injectNodes_skip cfg2 anc _ st2 (injectNodes_fills cfg anc nodes st)⟩

/-- Witness for C7: on a concrete `w:ins` node carrying a pre-set `w:id`,
one injection pass extends attributes, the pre-set `w:id` keeps its value
`"7"`, and a second pass under a different configuration and state is the
identity. -/
theorem C7_injection_no_overwrite_idempotent_witness :
    XNode.attrExtL nodesW resW = true ∧
    Editor.getAttribute resW1 "w:id" = Editor.getAttribute nodeW "w:id" ∧
    Editor.getAttribute nodeW "w:id" = "7" ∧
    injectNodes cfgW2 false resW stW2 = (resW, stW2) := by
  have hthm := C7_injection_no_overwrite_idempotent cfgW cfgW2 false nodesW stW stW2
  refine ⟨hthm.1, ?_, by decide, hthm.2.2⟩
  exact hthm.2.1 nodeW resW1 (by decide) "w:id" (by decide)

end Docx

namespace Docx

/-- C4 (amended): `suggest_deletion` fails — returning the recognizable
error message and leaving the element and injection state untouched, since
the source raises before any mutation — exactly when the element is a run
already containing a `w:delText` leaf, a paragraph already containing a
`w:ins` or `w:del` region, or neither a run nor a paragraph. (A run that
contains an insertion or deletion region but no `w:delText` is not
rejected: only the `w:delText` check guards the run branch.) -/
theorem C4_suggest_deletion_amended (cfg : Cfg) (anc : Bool) (elem : XNode) (st : InjSt) :
    (Editor.nodeName elem = "w:r" →
      (Editor.getElementsByTagName elem "w:delText").isEmpty = false →
      suggestDeletion cfg anc elem st =
        (some "w:r 要素に既に w:delText が含まれています", elem, st)) ∧
    (Editor.nodeName elem = "w:p" →
      ((Editor.getElementsByTagName elem "w:ins").isEmpty = false ∨
        (Editor.getElementsByTagName elem "w:del").isEmpty = false) →
      suggestDeletion cfg anc elem st =
        (some "w:p 要素に既に追跡変更（tracked changes）が含まれています", elem, st)) ∧
    (Editor.nodeName elem ≠ "w:r" → Editor.nodeName elem ≠ "w:p" →
      suggestDeletion cfg anc elem st =
        (some ("要素は w:r または w:p である必要があります: " ++ Editor.nodeName elem),
          elem, st)) := by
  cases elem with
  | text s =>
      refine ⟨?_, ?_, ?_⟩
      · intro h; simp [Editor.nodeName] at h
      · intro h; simp [Editor.nodeName] at h
      · intro h1 h2; rfl
  | elem tg a ln cs =>
      have hname : Editor.nodeName (.elem tg a ln cs) = tg := rfl
      have hdesc : ∀ t, Editor.getElementsByTagName (.elem tg a ln cs) t =
          Editor.elementsByTagL t cs := fun t => rfl
      refine ⟨?_, ?_, ?_⟩
      · intro htg hdel
        rw [hname] at htg
        subst htg
        rw [hdesc] at hdel
        rw [suggestDeletion, if_pos (by simp), if_pos (by rw [hdel]; rfl)]
      · intro htg hreg
        rw [hname] at htg
        subst htg
        rw [suggestDeletion, if_neg (by decide), if_pos (by simp)]
        rw [if_pos ?hc]
        case hc =>
          rw [Bool.or_eq_true]
          rcases hreg with h | h
          · left; rw [hdesc] at h; rw [h]; rfl
          · right; rw [hdesc] at h; rw [h]; rfl
      · intro h1 h2
        rw [hname] at h1 h2
        rw [suggestDeletion, if_neg (by simpa using h1), if_neg (by simpa using h2), hname]

/-- C4 counterexample: a run containing a deletion region (`w:del`) but no
`w:delText` is accepted — no error is raised — and the tree is mutated
(the run is wrapped, so a `w:del` element now stands in its place),
refuting the claim that any element already containing an insertion or
deletion region is rejected without mutation. -/
theorem C4_suggest_deletion_counterexample :
    (Editor.getElementsByTagName runCX "w:del").isEmpty = false ∧
    (suggestDeletion cfgW false runCX stW).1 = none ∧
    Editor.nodeName (suggestDeletion cfgW false runCX stW).2.1 = "w:del" := by
  refine ⟨by decide, by decide, by decide⟩

/-- Witness for the amended C4: each of the three rejection branches fires
on a concrete input, with the element and state returned unchanged. -/
theorem C4_suggest_deletion_amended_witness :
    suggestDeletion cfgW false runDX stW =
      (some "w:r 要素に既に w:delText が含まれています", runDX, stW) ∧
    suggestDeletion cfgW false paraDX stW =
      (some "w:p 要素に既に追跡変更（tracked changes）が含まれています", paraDX, stW) ∧
    suggestDeletion cfgW false otherX stW =
      (some ("要素は w:r または w:p である必要があります: " ++ "w:sectPr"), otherX, stW) :=
  ⟨(C4_suggest_deletion_amended cfgW false runDX stW).1 (by decide) (by decide),
   (C4_suggest_deletion_amended cfgW false paraDX stW).2.1 (by decide)
     (Or.inl (by decide)),
   (C4_suggest_deletion_amended cfgW false otherX stW).2.2 (by decide) (by decide)⟩

end Docx

namespace Docx

theorem elementsByTagL_cons (tgt : String) (c : XNode) (cs : List XNode) :
    Editor.elementsByTagL tgt (c :: cs) =
      Editor.elementsByTagOne tgt c ++ Editor.elementsByTagL tgt cs := rfl

theorem noRFDl_cons {c : XNode} {cs : List XNode} (h : noRFDl (c :: cs) = true) :
    (Editor.elementsByTagOne "w:del" c).all runless = true ∧ noRFDl cs = true := by
  rw [noRFDl, elementsByTagL_cons, List.all_append, Bool.and_eq_true] at h
  exact h

theorem noRFDn_of_one {c : XNode}
    (h : (Editor.elementsByTagOne "w:del" c).all runless = true) : noRFDn c = true := by
  cases c with
  | text s => rfl
  | elem tg a ln cs =>
      rw [Editor.elementsByTagOne] at h
      rw [List.all_append] at h
      rw [Bool.and_eq_true] at h
      exact h.2

mutual

theorem revCN_id (cfg : Cfg) : ∀ (anc : Bool) (n : XNode) (st : InjSt),
    noRFDn n = true → revCN cfg anc n st = (n, st)
  | anc, .text s, st, _ => by rw [revCN]
  | anc, .elem tg a ln cs, st, h => by
      rw [revCN]
      rw [revCL_id cfg (anc || tg == "w:del") cs st h]

theorem revCL_id (cfg : Cfg) : ∀ (anc : Bool) (cs : List XNode) (st : InjSt),
    noRFDl cs = true → revCL cfg anc cs st = (cs, st)
  | anc, [], st, _ => by rw [revCL]
  | anc, c :: cs, st, h => by
      obtain ⟨hc, hcs⟩ := noRFDl_cons h
      rw [revCL]
      rw [if_neg ?hcond]
      case hcond =>
        intro hcd
        rw [Bool.and_eq_true] at hcd
        obtain ⟨h1, h2⟩ := hcd
        cases c with
        | text s => simp [Editor.nodeName] at h1
        | elem tg a2 ln2 cs2 =>
            have htg : tg = "w:del" := by simpa [Editor.nodeName] using h1
            subst htg
            rw [Editor.elementsByTagOne, if_pos (by simp), List.all_append,
              Bool.and_eq_true] at hc
            have hr : (Editor.getElementsByTagName
                (XNode.elem "w:del" a2 ln2 cs2) "w:r").isEmpty = true := by
              simpa [runless] using hc.1
            rw [hr] at h2
            simp at h2
      rw [revCN_id cfg anc c st (noRFDn_of_one hc)]
      try dsimp only
      rw [revCL_id cfg anc cs st hcs]

end

end Docx

namespace Docx

theorem skel_text_text (s t : String) : skel (.text s) (.text t) = (s == t) := rfl

theorem skel_text_elem (s : String) (tg : String) (a : List (String × String))
    (ln : Option Nat) (cs : List XNode) : skel (.text s) (.elem tg a ln cs) = false := rfl

theorem skel_elem_text (s : String) (tg : String) (a : List (String × String))
    (ln : Option Nat) (cs : List XNode) : skel (.elem tg a ln cs) (.text s) = false := rfl

theorem skel_elem_elem (tg tg2 : String) (a a2 : List (String × String))
    (ln ln2 : Option Nat) (cs cs2 : List XNode) :
    skel (.elem tg a ln cs) (.elem tg2 a2 ln2 cs2) = (tg == tg2 && skelL cs cs2) := rfl

theorem skelL_nil_cons (d : XNode) (ds : List XNode) : skelL [] (d :: ds) = false := rfl

theorem skelL_cons_nil (c : XNode) (cs : List XNode) : skelL (c :: cs) [] = false := rfl

theorem skelL_cons_cons (c d : XNode) (cs ds : List XNode) :
    skelL (c :: cs) (d :: ds) = (skel c d && skelL cs ds) := rfl

mutual

theorem skel_refl : ∀ (n : XNode), skel n n = true
  | .text s => by simp [skel]
  | .elem tg a ln cs => by
      rw [skel_elem_elem, Bool.and_eq_true]
      exact ⟨by simp, skelL_refl cs⟩

theorem skelL_refl : ∀ (cs : List XNode), skelL cs cs = true
  | [] => rfl
  | c :: cs => by
      rw [skelL_cons_cons, Bool.and_eq_true]
      exact ⟨skel_refl c, skelL_refl cs⟩

end

mutual

theorem skel_trans : ∀ {n m k : XNode},
    skel n m = true → skel m k = true → skel n k = true
  | .text s, .text t, .text u, h1, h2 => by
      rw [skel_text_text] at h1 h2 ⊢
      rw [show s = t from by simpa using h1]
      exact h2
  | .text _, .text _, .elem _ _ _ _, _, h2 => by rw [skel_text_elem] at h2; exact absurd h2 (by simp)
  | .text _, .elem _ _ _ _, _, h1, _ => by rw [skel_text_elem] at h1; exact absurd h1 (by simp)
  | .elem _ _ _ _, .text _, _, h1, _ => by rw [skel_elem_text] at h1; exact absurd h1 (by simp)
  | .elem _ _ _ _, .elem _ _ _ _, .text _, _, h2 => by
      rw [skel_elem_text] at h2; exact absurd h2 (by simp)
  | .elem tg a ln cs, .elem tg2 a2 ln2 cs2, .elem tg3 a3 ln3 cs3, h1, h2 => by
      rw [skel_elem_elem, Bool.and_eq_true] at h1 h2 ⊢
      refine ⟨?_, skelL_trans h1.2 h2.2⟩
      have e1 : tg = tg2 := by simpa using h1.1
      have e2 : tg2 = tg3 := by simpa using h2.1
      simp [e1, e2]

theorem skelL_trans : ∀ {cs ds es : List XNode},
    skelL cs ds = true → skelL ds es = true → skelL cs es = true
  | [], [], [], _, _ => rfl
  | [], [], _ :: _, _, h2 => by rw [skelL_nil_cons] at h2; exact absurd h2 (by simp)
  | [], _ :: _, _, h1, _ => by rw [skelL_nil_cons] at h1; exact absurd h1 (by simp)
  | _ :: _, [], _, h1, _ => by rw [skelL_cons_nil] at h1; exact absurd h1 (by simp)
  | _ :: _, _ :: _, [], _, h2 => by rw [skelL_cons_nil] at h2; exact absurd h2 (by simp)
  | c :: cs, d :: ds, e :: es, h1, h2 => by
      rw [skelL_cons_cons, Bool.and_eq_true] at h1 h2 ⊢
      exact ⟨skel_trans h1.1 h2.1, skelL_trans h1.2 h2.2⟩

end

mutual

theorem attrExt_skel : ∀ {n m : XNode}, XNode.attrExt n m = true → skel n m = true
  | .text s, .text t, h => h
  | .text _, .elem _ _ _ _, h => by rw [XNode.attrExt_text_elem] at h; exact absurd h (by simp)
  | .elem _ _ _ _, .text _, h => by rw [XNode.attrExt_elem_text] at h; exact absurd h (by simp)
  | .elem tg a ln cs, .elem tg2 a2 ln2 cs2, h => by
      rw [XNode.attrExt_elem_iff] at h
      rw [skel_elem_elem, Bool.and_eq_true]
      exact ⟨by simp [h.1], attrExtL_skel h.2.2.2⟩

theorem attrExtL_skel : ∀ {cs ds : List XNode}, XNode.attrExtL cs ds = true → skelL cs ds = true
  | [], [], _ => rfl
  | [], _ :: _, h => by rw [XNode.attrExtL_nil_cons] at h; exact absurd h (by simp)
  | _ :: _, [], h => by rw [XNode.attrExtL_cons_nil] at h; exact absurd h (by simp)
  | c :: cs, d :: ds, h => by
      rw [XNode.attrExtL_cons_iff] at h
      rw [skelL_cons_cons, Bool.and_eq_true]
      exact ⟨attrExt_skel h.1, attrExtL_skel h.2⟩

end

mutual

theorem skel_textAll : ∀ {n m : XNode}, skel n m = true → textAllN m = textAllN n
  | .text s, .text t, h => by
      rw [skel_text_text] at h
      have hst : s = t := by simpa using h
      subst hst
      rfl
  | .text _, .elem _ _ _ _, h => by rw [skel_text_elem] at h; exact absurd h (by simp)
  | .elem _ _ _ _, .text _, h => by rw [skel_elem_text] at h; exact absurd h (by simp)
  | .elem tg a ln cs, .elem tg2 a2 ln2 cs2, h => by
      rw [skel_elem_elem, Bool.and_eq_true] at h
      show textAllL cs2 = textAllL cs
      exact skelL_textAll h.2

theorem skelL_textAll : ∀ {cs ds : List XNode}, skelL cs ds = true → textAllL ds = textAllL cs
  | [], [], _ => rfl
  | [], _ :: _, h => by rw [skelL_nil_cons] at h; exact absurd h (by simp)
  | _ :: _, [], h => by rw [skelL_cons_nil] at h; exact absurd h (by simp)
  | c :: cs, d :: ds, h => by
      rw [skelL_cons_cons, Bool.and_eq_true] at h
      show textAllN d ++ textAllL ds = textAllN c ++ textAllL cs
      rw [skel_textAll h.1, skelL_textAll h.2]

end

theorem skelL_append : ∀ {cs ds es fs : List XNode},
    skelL cs es = true → skelL ds fs = true → skelL (cs ++ ds) (es ++ fs) = true
  | [], ds, [], fs, _, h2 => h2
  | [], _, _ :: _, _, h1, _ => by rw [skelL_nil_cons] at h1; exact absurd h1 (by simp)
  | _ :: _, _, [], _, h1, _ => by rw [skelL_cons_nil] at h1; exact absurd h1 (by simp)
  | c :: cs, ds, e :: es, fs, h1, h2 => by
      rw [skelL_cons_cons, Bool.and_eq_true] at h1
      rw [List.cons_append, List.cons_append, skelL_cons_cons, Bool.and_eq_true]
      exact ⟨h1.1, skelL_append h1.2 h2⟩

mutual

theorem skel_census (tgt : String) : ∀ {n m : XNode}, skel n m = true →
    skelL (Editor.elementsByTagOne tgt n) (Editor.elementsByTagOne tgt m) = true
  | .text _, .text _, _ => rfl
  | .text _, .elem _ _ _ _, h => by rw [skel_text_elem] at h; exact absurd h (by simp)
  | .elem _ _ _ _, .text _, h => by rw [skel_elem_text] at h; exact absurd h (by simp)
  | .elem tg a ln cs, .elem tg2 a2 ln2 cs2, h => by
      rw [skel_elem_elem, Bool.and_eq_true] at h
      have htg : tg = tg2 := by simpa using h.1
      subst htg
      rw [Editor.elementsByTagOne, Editor.elementsByTagOne]
      by_cases hq : (tg == tgt) = true
      · rw [if_pos hq, if_pos hq]
        rw [List.cons_append, List.cons_append, List.nil_append, List.nil_append,
          skelL_cons_cons, Bool.and_eq_true]
        exact ⟨by rw [skel_elem_elem, Bool.and_eq_true]; exact ⟨by simp, h.2⟩,
          skelL_census tgt h.2⟩
      · rw [if_neg hq, if_neg hq]
        rw [List.nil_append, List.nil_append]
        exact skelL_census tgt h.2

theorem skelL_census (tgt : String) : ∀ {cs ds : List XNode}, skelL cs ds = true →
    skelL (Editor.elementsByTagL tgt cs) (Editor.elementsByTagL tgt ds) = true
  | [], [], _ => rfl
  | [], _ :: _, h => by rw [skelL_nil_cons] at h; exact absurd h (by simp)
  | _ :: _, [], h => by rw [skelL_cons_nil] at h; exact absurd h (by simp)
  | c :: cs, d :: ds, h => by
      rw [skelL_cons_cons, Bool.and_eq_true] at h
      rw [elementsByTagL_cons, elementsByTagL_cons]
      exact skelL_append (skel_census tgt h.1) (skelL_census tgt h.2)

end

theorem skelL_concatTexts : ∀ {cs ds : List XNode},
    skelL cs ds = true → concatTexts ds = concatTexts cs
  | [], [], _ => rfl
  | [], _ :: _, h => by rw [skelL_nil_cons] at h; exact absurd h (by simp)
  | _ :: _, [], h => by rw [skelL_cons_nil] at h; exact absurd h (by simp)
  | c :: cs, d :: ds, h => by
      rw [skelL_cons_cons, Bool.and_eq_true] at h
      show textAllN d ++ concatTexts ds = textAllN c ++ concatTexts cs
      rw [skel_textAll h.1, skelL_concatTexts h.2]

theorem skelL_nil_left : ∀ {ds : List XNode}, skelL [] ds = true → ds = []
  | [], _ => rfl
  | _ :: _, h => by rw [skelL_nil_cons] at h; exact absurd h (by simp)

mutual

theorem skel_juggleRuns (rsid : String) : ∀ (n : XNode), skel n (juggleRunsN rsid n) = true
  | .text s => by rw [juggleRunsN]; simp [skel]
  | .elem tg a ln cs => by
      rw [juggleRunsN]
      by_cases hq : (tg == "w:r") = true
      · rw [if_pos hq, skel_elem_elem, Bool.and_eq_true]
        exact ⟨by simp, skelL_juggleRuns rsid cs⟩
      · rw [if_neg hq, skel_elem_elem, Bool.and_eq_true]
        exact ⟨by simp, skelL_juggleRuns rsid cs⟩

theorem skelL_juggleRuns (rsid : String) : ∀ (cs : List XNode),
    skelL cs (juggleRunsL rsid cs) = true
  | [] => rfl
  | c :: cs => by
      rw [juggleRunsL, skelL_cons_cons, Bool.and_eq_true]
      exact ⟨skel_juggleRuns rsid c, skelL_juggleRuns rsid cs⟩

end

theorem concatTexts_append : ∀ (xs ys : List XNode),
    concatTexts (xs ++ ys) = concatTexts xs ++ concatTexts ys
  | [], ys => by rw [List.nil_append, concatTexts, String.empty_append]
  | x :: xs, ys => by
      rw [List.cons_append, concatTexts, concatTexts, concatTexts_append xs ys,
        String.append_assoc]

end Docx

namespace Docx

theorem convTL_eq_map : ∀ (cs : List XNode), convTL cs = cs.map convTNode
  | [] => rfl
  | c :: cs => by rw [convTL, List.map_cons, convTL_eq_map cs]

theorem convDL_eq_map : ∀ (cs : List XNode), convDL cs = cs.map convDNode
  | [] => rfl
  | c :: cs => by rw [convDL, List.map_cons, convDL_eq_map cs]

mutual

theorem textAll_convT : ∀ (n : XNode), textAllN (convTNode n) = textAllN n
  | .text s => rfl
  | .elem tg a ln cs => by
      rw [convTNode]
      by_cases hq : (tg == "w:t") = true
      · rw [if_pos hq]
        show textAllL (convTL cs) = textAllL cs
        exact textAll_convTL cs
      · rw [if_neg hq]
        show textAllL (convTL cs) = textAllL cs
        exact textAll_convTL cs

theorem textAll_convTL : ∀ (cs : List XNode), textAllL (convTL cs) = textAllL cs
  | [] => rfl
  | c :: cs => by
      rw [convTL]
      show textAllN (convTNode c) ++ textAllL (convTL cs) = textAllN c ++ textAllL cs
      rw [textAll_convT c, textAll_convTL cs]

end

mutual

theorem textAll_convD : ∀ (n : XNode), textAllN (convDNode n) = textAllN n
  | .text s => rfl
  | .elem tg a ln cs => by
      rw [convDNode]
      by_cases hq : (tg == "w:delText") = true
      · rw [if_pos hq]
        show textAllL (convDL cs) = textAllL cs
        exact textAll_convDL cs
      · rw [if_neg hq]
        show textAllL (convDL cs) = textAllL cs
        exact textAll_convDL cs

theorem textAll_convDL : ∀ (cs : List XNode), textAllL (convDL cs) = textAllL cs
  | [] => rfl
  | c :: cs => by
      rw [convDL]
      show textAllN (convDNode c) ++ textAllL (convDL cs) = textAllN c ++ textAllL cs
      rw [textAll_convD c, textAll_convDL cs]

end

theorem elementsByTagL_append (tgt : String) : ∀ (xs ys : List XNode),
    Editor.elementsByTagL tgt (xs ++ ys) =
      Editor.elementsByTagL tgt xs ++ Editor.elementsByTagL tgt ys
  | [], ys => rfl
  | x :: xs, ys => by
      rw [List.cons_append, elementsByTagL_cons, elementsByTagL_cons,
        elementsByTagL_append tgt xs ys, List.append_assoc]

mutual

theorem convT_no_t : ∀ (n : XNode), Editor.elementsByTagOne "w:t" (convTNode n) = []
  | .text s => rfl
  | .elem tg a ln cs => by
      rw [convTNode]
      by_cases hq : (tg == "w:t") = true
      · rw [if_pos hq, Editor.elementsByTagOne, if_neg (by decide), List.nil_append]
        exact convT_no_tL cs
      · rw [if_neg hq, Editor.elementsByTagOne, if_neg hq, List.nil_append]
        exact convT_no_tL cs

theorem convT_no_tL : ∀ (cs : List XNode), Editor.elementsByTagL "w:t" (convTL cs) = []
  | [] => rfl
  | c :: cs => by
      rw [convTL, elementsByTagL_cons, convT_no_t c, convT_no_tL cs]
      rfl

end

mutual

theorem convT_census (tgt : String) (h1 : (tgt == "w:t") = false)
    (h2 : (tgt == "w:delText") = false) : ∀ (n : XNode),
    Editor.elementsByTagOne tgt (convTNode n) = (Editor.elementsByTagOne tgt n).map convTNode
  | .text s => rfl
  | .elem tg a ln cs => by
      have h1s : ("w:t" == tgt) = false := by
        cases hq2 : ("w:t" == tgt)
        · rfl
        · have he : "w:t" = tgt := by simpa using hq2
          rw [← he] at h1
          simp at h1
      have h2s : ("w:delText" == tgt) = false := by
        cases hq2 : ("w:delText" == tgt)
        · rfl
        · have he : "w:delText" = tgt := by simpa using hq2
          rw [← he] at h2
          simp at h2
      rw [convTNode]
      by_cases hq : (tg == "w:t") = true
      · have htg : tg = "w:t" := by simpa using hq
        subst htg
        rw [if_pos (by decide), Editor.elementsByTagOne, if_neg (by simp [h2s]),
          List.nil_append, Editor.elementsByTagOne, if_neg (by simp [h1s]),
          List.nil_append]
        exact convT_censusL tgt h1 h2 cs
      · rw [if_neg hq, Editor.elementsByTagOne, Editor.elementsByTagOne]
        by_cases hqt : (tg == tgt) = true
        · rw [if_pos hqt, if_pos hqt, List.cons_append, List.nil_append, List.cons_append,
            List.nil_append, List.map_cons, convT_censusL tgt h1 h2 cs, convTNode, if_neg hq]
        · rw [if_neg hqt, if_neg hqt, List.nil_append, List.nil_append]
          exact convT_censusL tgt h1 h2 cs

theorem convT_censusL (tgt : String) (h1 : (tgt == "w:t") = false)
    (h2 : (tgt == "w:delText") = false) : ∀ (cs : List XNode),
    Editor.elementsByTagL tgt (convTL cs) = (Editor.elementsByTagL tgt cs).map convTNode
  | [] => rfl
  | c :: cs => by
      rw [convTL, elementsByTagL_cons, elementsByTagL_cons, List.map_append,
        convT_census tgt h1 h2 c, convT_censusL tgt h1 h2 cs]

end

mutual

theorem census_allTag (tgt : String) : ∀ (n : XNode),
    (Editor.elementsByTagOne tgt n).all (fun c => Editor.nodeName c == tgt) = true
  | .text s => rfl
  | .elem tg a ln cs => by
      rw [Editor.elementsByTagOne]
      by_cases hq : (tg == tgt) = true
      · rw [if_pos hq, List.cons_append, List.nil_append, List.all_cons, Bool.and_eq_true]
        exact ⟨hq, census_allTagL tgt cs⟩
      · rw [if_neg hq, List.nil_append]
        exact census_allTagL tgt cs

theorem census_allTagL (tgt : String) : ∀ (cs : List XNode),
    (Editor.elementsByTagL tgt cs).all (fun c => Editor.nodeName c == tgt) = true
  | [] => rfl
  | c :: cs => by
      rw [elementsByTagL_cons, List.all_append, Bool.and_eq_true]
      exact ⟨census_allTag tgt c, census_allTagL tgt cs⟩

end

mutual

theorem censusCensusNil (t2 tgt : String) : ∀ (n : XNode),
    Editor.elementsByTagOne t2 n = [] →
    Editor.elementsByTagL t2 (Editor.elementsByTagOne tgt n) = []
  | .text s, _ => rfl
  | .elem tg a ln cs, h => by
      rw [Editor.elementsByTagOne] at h
      obtain ⟨hself, hcs⟩ := List.append_eq_nil.mp h
      rw [Editor.elementsByTagOne]
      by_cases hq : (tg == tgt) = true
      · rw [if_pos hq, List.cons_append, List.nil_append, elementsByTagL_cons,
          censusCensusNilL t2 tgt cs hcs, Editor.elementsByTagOne] at *
        rw [List.append_nil]
        by_cases hq2 : (tg == t2) = true
        · rw [if_pos hq2] at hself
          simp at hself
        · rw [if_neg hq2, List.nil_append]
          exact hcs
      · rw [if_neg hq, List.nil_append]
        exact censusCensusNilL t2 tgt cs hcs

theorem censusCensusNilL (t2 tgt : String) : ∀ (cs : List XNode),
    Editor.elementsByTagL t2 cs = [] →
    Editor.elementsByTagL t2 (Editor.elementsByTagL tgt cs) = []
  | [], _ => rfl
  | c :: cs, h => by
      rw [elementsByTagL_cons] at h
      obtain ⟨hc, hcs⟩ := List.append_eq_nil.mp h
      rw [elementsByTagL_cons, elementsByTagL_append, censusCensusNil t2 tgt c hc,
        censusCensusNilL t2 tgt cs hcs]
      rfl

end

mutual

theorem convT_delText_census : ∀ (n : XNode),
    Editor.elementsByTagOne "w:delText" n = [] →
    concatTexts (Editor.elementsByTagOne "w:delText" (convTNode n)) =
      concatTexts (Editor.elementsByTagOne "w:t" n)
  | .text s, _ => rfl
  | .elem tg a ln cs, h => by
      rw [Editor.elementsByTagOne] at h
      obtain ⟨hself, hcs⟩ := List.append_eq_nil.mp h
      rw [convTNode]
      by_cases hq : (tg == "w:t") = true
      · have htg : tg = "w:t" := by simpa using hq
        subst htg
        rw [if_pos (by decide), Editor.elementsByTagOne, if_pos (by decide),
          Editor.elementsByTagOne, if_pos (by decide), List.cons_append, List.nil_append,
          List.cons_append, List.nil_append, concatTexts, concatTexts]
        rw [convT_delText_censusL cs hcs]
        show textAllL (convTL cs) ++ _ = textAllL cs ++ _
        rw [textAll_convTL cs]
      · rw [if_neg hq, Editor.elementsByTagOne, Editor.elementsByTagOne, if_neg hq]
        have hq2 : (tg == "w:delText") = false := by
          cases hq2 : (tg == "w:delText")
          · rfl
          · rw [if_pos hq2] at hself
            simp at hself
        rw [if_neg (by rw [hq2]; simp), List.nil_append, List.nil_append]
        exact convT_delText_censusL cs hcs

theorem convT_delText_censusL : ∀ (cs : List XNode),
    Editor.elementsByTagL "w:delText" cs = [] →
    concatTexts (Editor.elementsByTagL "w:delText" (convTL cs)) =
      concatTexts (Editor.elementsByTagL "w:t" cs)
  | [], _ => rfl
  | c :: cs, h => by
      rw [elementsByTagL_cons] at h
      obtain ⟨hc, hcs⟩ := List.append_eq_nil.mp h
      rw [convTL, elementsByTagL_cons, elementsByTagL_cons, concatTexts_append,
        concatTexts_append, convT_delText_census c hc, convT_delText_censusL cs hcs]

end

mutual

theorem convD_t_census : ∀ (n : XNode),
    Editor.elementsByTagOne "w:t" n = [] →
    concatTexts (Editor.elementsByTagOne "w:t" (convDNode n)) =
      concatTexts (Editor.elementsByTagOne "w:delText" n)
  | .text s, _ => rfl
  | .elem tg a ln cs, h => by
      rw [Editor.elementsByTagOne] at h
      obtain ⟨hself, hcs⟩ := List.append_eq_nil.mp h
      rw [convDNode]
      by_cases hq : (tg == "w:delText") = true
      · have htg : tg = "w:delText" := by simpa using hq
        subst htg
        rw [if_pos (by decide), Editor.elementsByTagOne, if_pos (by decide),
          Editor.elementsByTagOne, if_pos (by decide), List.cons_append, List.nil_append,
          List.cons_append, List.nil_append, concatTexts, concatTexts]
        rw [convD_t_censusL cs hcs]
        show textAllL (convDL cs) ++ _ = textAllL cs ++ _
        rw [textAll_convDL cs]
      · rw [if_neg hq, Editor.elementsByTagOne, Editor.elementsByTagOne, if_neg hq]
        have hq2 : (tg == "w:t") = false := by
          cases hq2 : (tg == "w:t")
          · rfl
          · rw [if_pos hq2] at hself
            simp at hself
        rw [if_neg (by rw [hq2]; simp), List.nil_append, List.nil_append]
        exact convD_t_censusL cs hcs

theorem convD_t_censusL : ∀ (cs : List XNode),
    Editor.elementsByTagL "w:t" cs = [] →
    concatTexts (Editor.elementsByTagL "w:t" (convDL cs)) =
      concatTexts (Editor.elementsByTagL "w:delText" cs)
  | [], _ => rfl
  | c :: cs, h => by
      rw [elementsByTagL_cons] at h
      obtain ⟨hc, hcs⟩ := List.append_eq_nil.mp h
      rw [convDL, elementsByTagL_cons, elementsByTagL_cons, concatTexts_append,
        concatTexts_append, convD_t_census c hc, convD_t_censusL cs hcs]

end

theorem skelL_revertRun_convD (rsid : String) : ∀ (rs : List XNode),
    rs.all (fun r => Editor.nodeName r == "w:r") = true →
    skelL (convDL rs) (rs.map (revertRun rsid)) = true
  | [], _ => rfl
  | r :: rs, h => by
      rw [List.all_cons, Bool.and_eq_true] at h
      cases r with
      | text s => simp [Editor.nodeName] at h
      | elem tg a ln cs =>
          have htg : tg = "w:r" := by simpa [Editor.nodeName] using h.1
          subst htg
          rw [convDL, List.map_cons, skelL_cons_cons, Bool.and_eq_true]
          constructor
          · rw [convDNode, if_neg (by decide), revertRun, skel_elem_elem, Bool.and_eq_true]
            exact ⟨by simp, skelL_refl (convDL cs)⟩
          · exact skelL_revertRun_convD rsid rs h.2

end Docx

namespace Docx

mutual

theorem okMain : ∀ (n : XNode), okN n = true →
    concatTexts (Editor.elementsByTagL "w:t" (Editor.elementsByTagOne "w:r" n)) =
      concatTexts (Editor.elementsByTagOne "w:t" n)
  | .text s, _ => rfl
  | .elem tg a ln cs, h => by
      rw [okN] at h
      rw [Editor.elementsByTagOne]
      by_cases hq : (tg == "w:r") = true
      · rw [if_pos hq] at h ⊢
        have hcs : Editor.elementsByTagL "w:r" cs = [] := List.isEmpty_iff.mp h
        rw [List.cons_append, List.nil_append, hcs, elementsByTagL_cons,
          show Editor.elementsByTagL "w:t" ([] : List XNode) = [] from rfl,
          List.append_nil]
      · rw [if_neg hq] at h ⊢
        by_cases hq2 : (tg == "w:t") = true
        · rw [if_pos hq2] at h
          simp at h
        · rw [if_neg hq2] at h
          rw [List.nil_append, Editor.elementsByTagOne, if_neg hq2, List.nil_append]
          exact okMainL cs h

theorem okMainL : ∀ (cs : List XNode), okL cs = true →
    concatTexts (Editor.elementsByTagL "w:t" (Editor.elementsByTagL "w:r" cs)) =
      concatTexts (Editor.elementsByTagL "w:t" cs)
  | [], _ => rfl
  | c :: cs, h => by
      rw [okL, Bool.and_eq_true] at h
      rw [elementsByTagL_cons, elementsByTagL_cons, elementsByTagL_append,
        concatTexts_append, concatTexts_append, okMain c h.1, okMainL cs h.2]

end

theorem censusFilterPPr : ∀ (cs : List XNode),
    cs.all (fun c => !(Editor.nodeName c == "w:pPr") ||
      (Editor.elementsByTagOne "w:t" c).isEmpty) = true →
    Editor.elementsByTagL "w:t"
        (cs.filter (fun c => !(Editor.nodeName c == "w:pPr"))) =
      Editor.elementsByTagL "w:t" cs
  | [], _ => rfl
  | c :: cs, h => by
      rw [List.all_cons, Bool.and_eq_true] at h
      rw [List.filter_cons]
      by_cases hq : (Editor.nodeName c == "w:pPr") = true
      · rw [if_neg (by rw [hq]; simp)]
        have hct : Editor.elementsByTagOne "w:t" c = [] := by
          have h1 := h.1
          rw [hq] at h1
          simp only [Bool.not_true, Bool.false_or] at h1
          exact List.isEmpty_iff.mp h1
        rw [elementsByTagL_cons, hct, List.nil_append]
        exact censusFilterPPr cs h.2
      · rw [if_pos (by simpa using hq)]
        rw [elementsByTagL_cons, elementsByTagL_cons, censusFilterPPr cs h.2]

theorem censusFilterNil (tgt : String) (p : XNode → Bool) : ∀ (cs : List XNode),
    Editor.elementsByTagL tgt cs = [] →
    Editor.elementsByTagL tgt (cs.filter p) = []
  | [], _ => rfl
  | c :: cs, h => by
      rw [elementsByTagL_cons] at h
      obtain ⟨hc, hcs⟩ := List.append_eq_nil.mp h
      rw [List.filter_cons]
      by_cases hq : p c = true
      · rw [if_pos hq, elementsByTagL_cons, hc, List.nil_append]
        exact censusFilterNil tgt p cs hcs
      · rw [if_neg hq]
        exact censusFilterNil tgt p cs hcs

mutual

theorem mapFirstTagN_id (tgt : String) (f : XNode → XNode) : ∀ (n : XNode),
    Editor.elementsByTagOne tgt n = [] → mapFirstTagN tgt f n = (n, false)
  | .text s, _ => rfl
  | .elem tg a ln cs, h => by
      rw [Editor.elementsByTagOne] at h
      obtain ⟨hself, hcs⟩ := List.append_eq_nil.mp h
      have hq : (tg == tgt) = false := by
        cases hq2 : (tg == tgt)
        · rfl
        · rw [if_pos hq2] at hself
          simp at hself
      rw [mapFirstTagN, if_neg (by rw [hq]; simp)]
      rw [mapFirstTagL_id tgt f cs hcs]

theorem mapFirstTagL_id (tgt : String) (f : XNode → XNode) : ∀ (cs : List XNode),
    Editor.elementsByTagL tgt cs = [] → mapFirstTagL tgt f cs = (cs, false)
  | [], _ => rfl
  | c :: cs, h => by
      rw [elementsByTagL_cons] at h
      obtain ⟨hc, hcs⟩ := List.append_eq_nil.mp h
      rw [mapFirstTagL]
      rw [mapFirstTagN_id tgt f c hc]
      rw [if_neg (by simp)]
      rw [mapFirstTagL_id tgt f cs hcs]

end

theorem addDelMarker_nodeName : ∀ (c : XNode),
    Editor.nodeName (addDelMarkerToPPr c) = Editor.nodeName c
  | .text s => rfl
  | .elem tg a ln cs => by
      rw [addDelMarkerToPPr]
      by_cases hq : (Editor.elementsByTagL "w:rPr" cs).isEmpty = true
      · rw [if_pos hq]
        rfl
      · rw [if_neg hq]
        rfl

theorem markerFilter : ∀ (cs : List XNode),
    cs.all (fun c => (Editor.getElementsByTagName c "w:pPr").isEmpty) = true →
    ((mapFirstTagL "w:pPr" addDelMarkerToPPr cs).1).filter
        (fun c => !(Editor.nodeName c == "w:pPr")) =
      cs.filter (fun c => !(Editor.nodeName c == "w:pPr"))
  | [], _ => rfl
  | c :: cs, h => by
      rw [List.all_cons, Bool.and_eq_true] at h
      by_cases hq : (Editor.nodeName c == "w:pPr") = true
      · cases c with
        | text s => simp [Editor.nodeName] at hq
        | elem tg a ln cs2 =>
            have htg : tg = "w:pPr" := by simpa [Editor.nodeName] using hq
            subst htg
            have hfull : mapFirstTagL "w:pPr" addDelMarkerToPPr
                (XNode.elem "w:pPr" a ln cs2 :: cs) =
                (addDelMarkerToPPr (XNode.elem "w:pPr" a ln cs2) :: cs, true) := rfl
            rw [hfull]
            try dsimp only
            rw [List.filter_cons, List.filter_cons,
              if_neg (by rw [addDelMarker_nodeName]; simp [Editor.nodeName]),
              if_neg (by simp [Editor.nodeName])]
      · have hcen : Editor.elementsByTagOne "w:pPr" c = [] := by
          cases c with
          | text s => rfl
          | elem tg a ln cs2 =>
              rw [Editor.elementsByTagOne, if_neg (by simpa [Editor.nodeName] using hq)]
              rw [List.nil_append]
              have h1 := h.1
              rw [Editor.getElementsByTagName] at h1
              exact List.isEmpty_iff.mp h1
        rw [mapFirstTagL, mapFirstTagN_id "w:pPr" addDelMarkerToPPr c hcen,
          if_neg (by simp)]
        try dsimp only
        rw [List.filter_cons, List.filter_cons]
        by_cases hk : (!(Editor.nodeName c == "w:pPr")) = true
        · rw [if_pos hk, if_pos hk, markerFilter cs h.2]
        · rw [if_neg hk, if_neg hk, markerFilter cs h.2]

theorem convT_nodeName_pPr (c : XNode) :
    (Editor.nodeName (convTNode c) == "w:pPr") = (Editor.nodeName c == "w:pPr") := by
  cases c with
  | text s => rfl
  | elem tg a ln cs =>
      rw [convTNode]
      by_cases hq : (tg == "w:t") = true
      · have htg : tg = "w:t" := by simpa using hq
        subst htg
        rw [if_pos (by decide)]
        rfl
      · rw [if_neg hq]
        rfl

theorem juggle_nodeName (rsid : String) (c : XNode) :
    Editor.nodeName (juggleRunsN rsid c) = Editor.nodeName c := by
  cases c with
  | text s => rfl
  | elem tg a ln cs =>
      rw [juggleRunsN]
      by_cases hq : (tg == "w:r") = true
      · rw [if_pos hq]
        rfl
      · rw [if_neg hq]
        rfl

theorem convT_filter : ∀ (cs : List XNode),
    (convTL cs).filter (fun c => !(Editor.nodeName c == "w:pPr")) =
      convTL (cs.filter (fun c => !(Editor.nodeName c == "w:pPr")))
  | [] => rfl
  | c :: cs => by
      rw [convTL, List.filter_cons, List.filter_cons, convT_nodeName_pPr c]
      by_cases hq : (!(Editor.nodeName c == "w:pPr")) = true
      · rw [if_pos hq, if_pos hq, convTL, convT_filter cs]
      · rw [if_neg hq, if_neg hq, convT_filter cs]

theorem juggle_filter (rsid : String) : ∀ (cs : List XNode),
    (juggleRunsL rsid cs).filter (fun c => !(Editor.nodeName c == "w:pPr")) =
      juggleRunsL rsid (cs.filter (fun c => !(Editor.nodeName c == "w:pPr")))
  | [] => rfl
  | c :: cs => by
      rw [juggleRunsL, List.filter_cons, List.filter_cons, juggle_nodeName rsid c]
      by_cases hq : (!(Editor.nodeName c == "w:pPr")) = true
      · rw [if_pos hq, if_pos hq, juggleRunsL, juggle_filter rsid cs]
      · rw [if_neg hq, if_neg hq, juggle_filter rsid cs]

theorem skelL_isEmpty : ∀ {cs ds : List XNode},
    skelL cs ds = true → ds.isEmpty = cs.isEmpty
  | [], [], _ => rfl
  | [], _ :: _, h => by rw [skelL_nil_cons] at h; exact absurd h (by simp)
  | _ :: _, [], h => by rw [skelL_cons_nil] at h; exact absurd h (by simp)
  | _ :: _, _ :: _, _ => rfl

theorem skelL_census_nil (tgt : String) {cs ds : List XNode}
    (h : skelL cs ds = true) (hn : Editor.elementsByTagL tgt cs = []) :
    Editor.elementsByTagL tgt ds = [] := by
  have hc := skelL_census tgt h
  rw [hn] at hc
  exact skelL_nil_left hc

theorem visText_skel {n m : XNode} (h : skel n m = true) : visText m = visText n := by
  rw [visText, visText]
  exact skelL_concatTexts (skel_census "w:t" h)

end Docx

namespace Docx

theorem getLastD_append_single : ∀ (l : List XNode) (a d : XNode),
    (l ++ [a]).getLastD d = a
  | [], a, d => rfl
  | c :: l, a, d => by
      rw [List.cons_append, List.getLastD_cons]
      exact getLastD_append_single l a c

theorem roundTripRun (rsid rsid2 : String) (a : List (String × String)) (ln : Option Nat)
    (cs : List XNode) (w : XNode)
    (hdt : Editor.elementsByTagL "w:delText" cs = [])
    (hrr : Editor.elementsByTagL "w:r" cs = [])
    (hext : XNode.attrExt
      (.elem "w:del" [] none [XNode.elem "w:r" (juggleDelAttrs rsid a) ln (convTL cs)])
      w = true) :
    (Editor.getElementsByTagName w "w:r").isEmpty = false ∧
    concatTexts (Editor.elementsByTagOne "w:t" (insOfDel rsid2 w)) =
      concatTexts (Editor.elementsByTagL "w:t" cs) := by
  cases w with
  | text s => rw [XNode.attrExt_elem_text] at hext; exact absurd hext (by simp)
  | elem tgw aw lnw csw =>
      rw [XNode.attrExt_elem_iff] at hext
      obtain ⟨htgw, _, _, hcsw⟩ := hext
      subst htgw
      cases csw with
      | nil => rw [XNode.attrExtL_cons_nil] at hcsw; exact absurd hcsw (by simp)
      | cons e2x rest =>
          rw [XNode.attrExtL_cons_iff] at hcsw
          obtain ⟨he2, hrest⟩ := hcsw
          have hrestnil : rest = [] := by
            cases rest with
            | nil => rfl
            | cons r rs => rw [XNode.attrExtL_nil_cons] at hrest; exact absurd hrest (by simp)
          subst hrestnil
          cases e2x with
          | text s2 => rw [XNode.attrExt_elem_text] at he2; exact absurd he2 (by simp)
          | elem tg2 a2 ln2 cs2 =>
              rw [XNode.attrExt_elem_iff] at he2
              obtain ⟨htg2, _, _, hcs2⟩ := he2
              subst htg2
              have hskel2 : skelL (convTL cs) cs2 = true := attrExtL_skel hcs2
              have hnor : Editor.elementsByTagL "w:r" cs2 = [] := by
                refine skelL_census_nil "w:r" hskel2 ?_
                rw [convT_censusL "w:r" (by decide) (by decide) cs, hrr]
                rfl
              have hruns : Editor.getElementsByTagName
                  (XNode.elem "w:del" aw lnw [XNode.elem "w:r" a2 ln2 cs2]) "w:r" =
                  [XNode.elem "w:r" a2 ln2 cs2] := by
                show Editor.elementsByTagL "w:r" [XNode.elem "w:r" a2 ln2 cs2] = _
                rw [elementsByTagL_cons, Editor.elementsByTagOne, if_pos (by decide), hnor]
                rfl
              refine ⟨by rw [hruns]; rfl, ?_⟩
              have hins : insOfDel rsid2
                  (XNode.elem "w:del" aw lnw [XNode.elem "w:r" a2 ln2 cs2]) =
                  .elem "w:ins" [] none [revertRun rsid2 (XNode.elem "w:r" a2 ln2 cs2)] := by
                rw [insOfDel, hruns]
                rfl
              rw [hins]
              rw [Editor.elementsByTagOne, if_neg (by decide), List.nil_append,
                elementsByTagL_cons]
              rw [show revertRun rsid2 (XNode.elem "w:r" a2 ln2 cs2) =
                XNode.elem "w:r" (juggleInsAttrs rsid2 a2) ln2 (convDL cs2) from rfl]
              rw [Editor.elementsByTagOne, if_neg (by decide), List.nil_append,
                show Editor.elementsByTagL "w:t" ([] : List XNode) = [] from rfl,
                List.append_nil]
              have hnt2 : Editor.elementsByTagL "w:t" cs2 = [] :=
                skelL_census_nil "w:t" hskel2 (convT_no_tL cs)
              rw [convD_t_censusL cs2 hnt2]
              rw [skelL_concatTexts (skelL_census "w:delText" hskel2)]
              exact convT_delText_censusL cs hdt

theorem roundTripPara (rsid rsid2 : String) (ds : List XNode) (w : XNode)
    (hdt : Editor.elementsByTagL "w:delText" ds = [])
    (hok : okL ds = true)
    (hne : (Editor.elementsByTagL "w:r" ds).isEmpty = false)
    (hext : XNode.attrExt
      (.elem "w:del" [] none (juggleRunsL rsid (convTL ds))) w = true) :
    (Editor.getElementsByTagName w "w:r").isEmpty = false ∧
    concatTexts (Editor.elementsByTagOne "w:t" (insOfDel rsid2 w)) =
      concatTexts (Editor.elementsByTagL "w:t" ds) := by
  cases w with
  | text s => rw [XNode.attrExt_elem_text] at hext; exact absurd hext (by simp)
  | elem tgw aw lnw csw =>
      rw [XNode.attrExt_elem_iff] at hext
      obtain ⟨htgw, _, _, hcsw⟩ := hext
      subst htgw
      have hskel : skelL (convTL ds) csw = true :=
        skelL_trans (skelL_juggleRuns rsid (convTL ds)) (attrExtL_skel hcsw)
      have hrskel : skelL (Editor.elementsByTagL "w:r" (convTL ds))
          (Editor.elementsByTagL "w:r" csw) = true := skelL_census "w:r" hskel
      constructor
      · show (Editor.elementsByTagL "w:r" csw).isEmpty = false
        rw [skelL_isEmpty hrskel]
        rw [convT_censusL "w:r" (by decide) (by decide) ds]
        have hmape : ∀ (l : List XNode), (l.map convTNode).isEmpty = l.isEmpty := by
          intro l
          cases l <;> rfl
        rw [hmape]
        exact hne
      · have hallr : (Editor.elementsByTagL "w:r" csw).all
            (fun r => Editor.nodeName r == "w:r") = true := census_allTagL "w:r" csw
        have hnt : Editor.elementsByTagL "w:t" csw = [] :=
          skelL_census_nil "w:t" hskel (convT_no_tL ds)
        have hntr : Editor.elementsByTagL "w:t" (Editor.elementsByTagL "w:r" csw) = [] :=
          censusCensusNilL "w:t" "w:r" csw hnt
        show concatTexts (Editor.elementsByTagOne "w:t" (XNode.elem "w:ins" [] none
          ((Editor.elementsByTagL "w:r" csw).map (revertRun rsid2)))) = _
        rw [Editor.elementsByTagOne, if_neg (by decide), List.nil_append]
        rw [skelL_concatTexts (skelL_census "w:t"
          (skelL_revertRun_convD rsid2 _ hallr))]
        rw [convD_t_censusL _ hntr]
        rw [skelL_concatTexts (skelL_census "w:delText" hrskel)]
        rw [convT_censusL "w:r" (by decide) (by decide) ds, ← convTL_eq_map]
        have hdtr : Editor.elementsByTagL "w:delText" (Editor.elementsByTagL "w:r" ds) =
            [] := censusCensusNilL "w:delText" "w:r" ds hdt
        rw [convT_delText_censusL _ hdtr]
        exact okMainL ds hok

end Docx

namespace Docx

theorem suggestRevertRun (cfg cfg2 : Cfg) (anc anc2 : Bool) (st st2 : InjSt)
    (a : List (String × String)) (ln : Option Nat) (cs cs2 : List XNode) (idx : Nat)
    (hdt : (Editor.elementsByTagL "w:delText" cs).isEmpty = true)
    (hrr : (Editor.elementsByTagL "w:r" cs).isEmpty = true) :
    (suggestDeletion cfg anc (XNode.elem "w:r" a ln cs) st).1 = none ∧
    (cs2.getD idx (.text "") = (suggestDeletion cfg anc (XNode.elem "w:r" a ln cs) st).2.1 →
      visText ((revertDeletionSingle cfg2 anc2 cs2 idx st2).2.1.getD 1 (.text "")) =
        visText (XNode.elem "w:r" a ln cs)) := by
  have hdt2 : Editor.elementsByTagL "w:delText" cs = [] := List.isEmpty_iff.mp hdt
  have hrr2 : Editor.elementsByTagL "w:r" cs = [] := List.isEmpty_iff.mp hrr
  have hw : suggestDeletion cfg anc (XNode.elem "w:r" a ln cs) st =
      (none,
        (injectNode cfg anc (.elem "w:del" [] none
          [XNode.elem "w:r" (juggleDelAttrs cfg.rsid a) ln (convTL cs)]) st).1,
        (injectNode cfg anc (.elem "w:del" [] none
          [XNode.elem "w:r" (juggleDelAttrs cfg.rsid a) ln (convTL cs)]) st).2) := by
    rw [suggestDeletion, if_pos (by decide), if_neg (by rw [hdt2]; decide)]
  refine ⟨by rw [hw], ?_⟩
  intro hget
  rw [hw] at hget
  have hextw := injectNode_ext cfg anc (.elem "w:del" [] none
    [XNode.elem "w:r" (juggleDelAttrs cfg.rsid a) ln (convTL cs)]) st
  obtain ⟨hne, heq⟩ := roundTripRun cfg.rsid cfg2.rsid a ln cs _ hdt2 hrr2 hextw
  have hrev : revertDeletionSingle cfg2 anc2 cs2 idx st2 =
      (insertAt (injectNode cfg2 anc2 (insOfDel cfg2.rsid
          (cs2.getD idx (.text ""))) st2).1 (idx + 1) cs2,
        [cs2.getD idx (.text ""),
          (injectNode cfg2 anc2 (insOfDel cfg2.rsid (cs2.getD idx (.text ""))) st2).1],
        (injectNode cfg2 anc2 (insOfDel cfg2.rsid (cs2.getD idx (.text ""))) st2).2) := by
    rw [revertDeletionSingle]
    try dsimp only
    rw [if_neg ?hc]
    case hc =>
      rw [hget]
      try dsimp only
      rw [hne]
      decide
  rw [hrev]
  try dsimp only
  rw [show ∀ (x y : XNode), ([x, y].getD 1 (.text "")) = y from fun x y => rfl]
  have hinsext := injectNode_ext cfg2 anc2 (insOfDel cfg2.rsid
    (cs2.getD idx (.text ""))) st2
  rw [visText_skel (attrExt_skel hinsext)]
  rw [show visText (XNode.elem "w:r" a ln cs) =
    concatTexts (Editor.elementsByTagL "w:t" cs) from by
      rw [visText, Editor.elementsByTagOne, if_neg (by decide), List.nil_append]]
  rw [visText, hget]
  try dsimp only
  exact heq

theorem suggestRevertPara (cfg cfg2 : Cfg) (anc anc2 : Bool) (st st2 : InjSt)
    (a : List (String × String)) (ln : Option Nat) (cs cs2 : List XNode) (idx : Nat)
    (hIns : (Editor.elementsByTagL "w:ins" cs).isEmpty = true)
    (hDel : (Editor.elementsByTagL "w:del" cs).isEmpty = true)
    (hdt : (Editor.elementsByTagL "w:delText" cs).isEmpty = true)
    (hok : okL (cs.filter (fun c => !(Editor.nodeName c == "w:pPr"))) = true)
    (hTop : cs.all (fun c => (Editor.getElementsByTagName c "w:pPr").isEmpty) = true)
    (hNoT : cs.all (fun c => !(Editor.nodeName c == "w:pPr") ||
      (Editor.elementsByTagOne "w:t" c).isEmpty) = true)
    (hne0 : (Editor.elementsByTagL "w:r"
      (cs.filter (fun c => !(Editor.nodeName c == "w:pPr")))).isEmpty = false) :
    (suggestDeletion cfg anc (XNode.elem "w:p" a ln cs) st).1 = none ∧
    (cs2.getD idx (.text "") =
        (Editor.childrenOf
          (suggestDeletion cfg anc (XNode.elem "w:p" a ln cs) st).2.1).getLastD (.text "") →
      visText ((revertDeletionSingle cfg2 anc2 cs2 idx st2).2.1.getD 1 (.text "")) =
        visText (XNode.elem "w:p" a ln cs)) := by
  have hIns2 : Editor.elementsByTagL "w:ins" cs = [] := List.isEmpty_iff.mp hIns
  have hDel2 : Editor.elementsByTagL "w:del" cs = [] := List.isEmpty_iff.mp hDel
  have hdt2 : Editor.elementsByTagL "w:delText" cs = [] := List.isEmpty_iff.mp hdt
  have hcond1 : ¬((!(Editor.elementsByTagL "w:ins" cs).isEmpty ||
      !(Editor.elementsByTagL "w:del" cs).isEmpty) = true) := by
    rw [hIns2, hDel2]
    decide
  have hmv : ∀ (b : Bool),
      (juggleRunsL cfg.rsid (convTL (if b = true then
        (mapFirstTagL "w:pPr" addDelMarkerToPPr cs).1 else cs))).filter
          (fun c => !(Editor.nodeName c == "w:pPr")) =
      juggleRunsL cfg.rsid (convTL
        (cs.filter (fun c => !(Editor.nodeName c == "w:pPr")))) := by
    intro b
    cases b with
    | false => rw [if_neg (by simp), juggle_filter, convT_filter]
    | true => rw [if_pos rfl, juggle_filter, convT_filter, markerFilter cs hTop]
  constructor
  · rw [suggestDeletion, if_neg (by decide), if_pos (by decide), if_neg hcond1]
  · intro hget
    rw [suggestDeletion, if_neg (by decide), if_pos (by decide), if_neg hcond1] at hget
    try dsimp only at hget
    rw [hmv _] at hget
    try dsimp only [Editor.childrenOf] at hget
    rw [getLastD_append_single] at hget
    have hdtds : Editor.elementsByTagL "w:delText"
        (cs.filter (fun c => !(Editor.nodeName c == "w:pPr"))) = [] :=
      censusFilterNil "w:delText" _ cs hdt2
    have hextw := injectNode_ext cfg anc (.elem "w:del" [] none
      (juggleRunsL cfg.rsid (convTL
        (cs.filter (fun c => !(Editor.nodeName c == "w:pPr")))))) st
    obtain ⟨hne, heq⟩ := roundTripPara cfg.rsid cfg2.rsid
      (cs.filter (fun c => !(Editor.nodeName c == "w:pPr"))) _ hdtds hok hne0 hextw
    have hrev : revertDeletionSingle cfg2 anc2 cs2 idx st2 =
        (insertAt (injectNode cfg2 anc2 (insOfDel cfg2.rsid
            (cs2.getD idx (.text ""))) st2).1 (idx + 1) cs2,
          [cs2.getD idx (.text ""),
            (injectNode cfg2 anc2 (insOfDel cfg2.rsid (cs2.getD idx (.text ""))) st2).1],
          (injectNode cfg2 anc2 (insOfDel cfg2.rsid (cs2.getD idx (.text ""))) st2).2) := by
      rw [revertDeletionSingle]
      try dsimp only
      rw [if_neg ?hc]
      case hc =>
        rw [hget]
        try dsimp only
        rw [hne]
        decide
    rw [hrev]
    try dsimp only
    rw [show ∀ (x y : XNode), ([x, y].getD 1 (.text "")) = y from fun x y => rfl]
    have hinsext := injectNode_ext cfg2 anc2 (insOfDel cfg2.rsid
      (cs2.getD idx (.text ""))) st2
    rw [visText_skel (attrExt_skel hinsext)]
    rw [show visText (XNode.elem "w:p" a ln cs) =
      concatTexts (Editor.elementsByTagL "w:t"
        (cs.filter (fun c => !(Editor.nodeName c == "w:pPr")))) from by
        rw [visText, Editor.elementsByTagOne, if_neg (by decide), List.nil_append,
          censusFilterPPr cs hNoT]]
    rw [visText, hget]
    try dsimp only
    exact heq

/-- C5: on a run or a paragraph with no pre-existing tracked change (no
`w:ins`, `w:del` or `w:delText` content, and for a run no nested run;
for a paragraph, text lives in non-nested runs outside `w:pPr`, paragraph
properties appear only as direct children, and at least one run exists),
`suggest_deletion` succeeds, and applying `revert_deletion` to the
deletion region it produced creates an insertion region whose visible
text — the concatenated content of its `w:t` descendants — equals the
original element's visible text exactly. -/
theorem C5_suggest_revert_round_trip :
    (∀ (cfg cfg2 : Cfg) (anc anc2 : Bool) (st st2 : InjSt)
        (a : List (String × String)) (ln : Option Nat) (cs cs2 : List XNode) (idx : Nat),
      (Editor.elementsByTagL "w:delText" cs).isEmpty = true →
      (Editor.elementsByTagL "w:r" cs).isEmpty = true →
      (suggestDeletion cfg anc (XNode.elem "w:r" a ln cs) st).1 = none ∧
      (cs2.getD idx (.text "") =
          (suggestDeletion cfg anc (XNode.elem "w:r" a ln cs) st).2.1 →
        visText ((revertDeletionSingle cfg2 anc2 cs2 idx st2).2.1.getD 1 (.text "")) =
          visText (XNode.elem "w:r" a ln cs))) ∧
    (∀ (cfg cfg2 : Cfg) (anc anc2 : Bool) (st st2 : InjSt)
        (a : List (String × String)) (ln : Option Nat) (cs cs2 : List XNode) (idx : Nat),
      (Editor.elementsByTagL "w:ins" cs).isEmpty = true →
      (Editor.elementsByTagL "w:del" cs).isEmpty = true →
      (Editor.elementsByTagL "w:delText" cs).isEmpty = true →
      okL (cs.filter (fun c => !(Editor.nodeName c == "w:pPr"))) = true →
      cs.all (fun c => (Editor.getElementsByTagName c "w:pPr").isEmpty) = true →
      cs.all (fun c => !(Editor.nodeName c == "w:pPr") ||
        (Editor.elementsByTagOne "w:t" c).isEmpty) = true →
      (Editor.elementsByTagL "w:r"
        (cs.filter (fun c => !(Editor.nodeName c == "w:pPr")))).isEmpty = false →
      (suggestDeletion cfg anc (XNode.elem "w:p" a ln cs) st).1 = none ∧
      (cs2.getD idx (.text "") =
          (Editor.childrenOf
            (suggestDeletion cfg anc (XNode.elem "w:p" a ln cs) st).2.1).getLastD
              (.text "") →
        visText ((revertDeletionSingle cfg2 anc2 cs2 idx st2).2.1.getD 1 (.text "")) =
          visText (XNode.elem "w:p" a ln cs))) :=
  ⟨fun cfg cfg2 anc anc2 st st2 a ln cs cs2 idx hdt hrr =>
      suggestRevertRun cfg cfg2 anc anc2 st st2 a ln cs cs2 idx hdt hrr,
   fun cfg cfg2 anc anc2 st st2 a ln cs cs2 idx h1 h2 h3 h4 h5 h6 h7 =>
      suggestRevertPara cfg cfg2 anc anc2 st st2 a ln cs cs2 idx h1 h2 h3 h4 h5 h6 h7⟩

/-- Witness for C5: a concrete run (text "hi") and a concrete paragraph
(text "ab") are suggested-deleted and reverted; the new insertion's
visible text equals the original's, which evaluates to the literal
strings. -/
theorem C5_suggest_revert_round_trip_witness :
    visText ((revertDeletionSingle cfgW2 false [wW] 0 stW2).2.1.getD 1 (.text "")) =
      visText (XNode.elem "w:r" [("w:rsidR", "00AA1111")] none r0cs) ∧
    visText (XNode.elem "w:r" [("w:rsidR", "00AA1111")] none r0cs) = "hi" ∧
    visText ((revertDeletionSingle cfgW2 false [pLastW] 0 stW2).2.1.getD 1 (.text "")) =
      visText (XNode.elem "w:p" [] none p0cs) ∧
    visText (XNode.elem "w:p" [] none p0cs) = "ab" := by
  refine ⟨?_, by decide, ?_, by decide⟩
  · exact (C5_suggest_revert_round_trip.1 cfgW cfgW2 false false stW stW2
      [("w:rsidR", "00AA1111")] none r0cs [wW] 0 (by decide) (by decide)).2 rfl
  · exact (C5_suggest_revert_round_trip.2 cfgW cfgW2 false false stW stW2
      [] none p0cs [pLastW] 0 (by decide) (by decide) (by decide) (by decide)
      (by decide) (by decide) (by decide)).2 rfl

end Docx

namespace UniqueIds

theorem uidStep_errors_mono (f : String) (st : UidState) (e : ENode)
    (x : String × String × String) (hx : x ∈ st.errors) :
    x ∈ (uidStep f st e).errors := by
  rw [uidStep]
  cases hres : resolveElem e with
  | none => exact hx
  | some q =>
      obtain ⟨t, a, v, scope⟩ := q
      try dsimp only
      by_cases h1 : (scope == "global") = true
      · rw [if_pos h1]
        by_cases h2 : seenG st.gIds v = true
        · rw [if_pos h2]
          exact List.mem_append_left _ hx
        · rw [if_neg h2]
          exact hx
      · rw [if_neg h1]
        by_cases h2 : seenF st.fIds t a v = true
        · rw [if_pos h2]
          exact List.mem_append_left _ hx
        · rw [if_neg h2]
          exact hx

theorem uidStep_fIds_mono (f : String) (st : UidState) (e : ENode)
    (x : String × String × String) (hx : x ∈ st.fIds) :
    x ∈ (uidStep f st e).fIds := by
  rw [uidStep]
  cases hres : resolveElem e with
  | none => exact hx
  | some q =>
      obtain ⟨t, a, v, scope⟩ := q
      try dsimp only
      by_cases h1 : (scope == "global") = true
      · rw [if_pos h1]
        by_cases h2 : seenG st.gIds v = true
        · rw [if_pos h2]
          exact hx
        · rw [if_neg h2]
          exact hx
      · rw [if_neg h1]
        by_cases h2 : seenF st.fIds t a v = true
        · rw [if_pos h2]
          exact hx
        · rw [if_neg h2]
          exact List.mem_cons_of_mem _ hx

theorem uidFold_errors_mono (f : String) : ∀ (es : List ENode) (st : UidState)
    (x : String × String × String), x ∈ st.errors → x ∈ (uidFold f st es).errors
  | [], st, x, hx => hx
  | e :: es, st, x, hx =>
      uidFold_errors_mono f es _ x (uidStep_errors_mono f st e x hx)

theorem uidFold_fIds_mono (f : String) : ∀ (es : List ENode) (st : UidState)
    (x : String × String × String), x ∈ st.fIds → x ∈ (uidFold f st es).fIds
  | [], st, x, hx => hx
  | e :: es, st, x, hx =>
      uidFold_fIds_mono f es _ x (uidStep_fIds_mono f st e x hx)

theorem seenF_mem : ∀ (l : List (String × String × String)) (t a v : String),
    (t, a, v) ∈ l → seenF l t a v = true
  | [], t, a, v, h => absurd h (by simp)
  | (t2, a2, v2) :: rest, t, a, v, h => by
      rw [seenF, Bool.or_eq_true]
      rcases List.mem_cons.mp h with heq | hmem
      · left
        cases heq
        simp
      · right
        exact seenF_mem rest t a v hmem

theorem uidStep_establish (f : String) (st : UidState) (e : ENode) (t a v : String)
    (hres : resolveElem e = some (t, a, v, "file")) :
    (f, t, v) ∈ (uidStep f st e).errors ∨ (t, a, v) ∈ (uidStep f st e).fIds := by
  rw [uidStep, hres]
  try dsimp only
  rw [if_neg (by decide)]
  by_cases hs : seenF st.fIds t a v = true
  · rw [if_pos hs]
    exact Or.inl (List.mem_append_right _ (by simp))
  · rw [if_neg hs]
    exact Or.inr (List.mem_cons_self _ _)

theorem uidStep_trigger (f : String) (st : UidState) (e : ENode) (t a v : String)
    (hres : resolveElem e = some (t, a, v, "file"))
    (hmem : (t, a, v) ∈ st.fIds) :
    (f, t, v) ∈ (uidStep f st e).errors := by
  rw [uidStep, hres]
  try dsimp only
  rw [if_neg (by decide), if_pos (seenF_mem st.fIds t a v hmem)]
  exact List.mem_append_right _ (by simp)

theorem uidFold_append (f : String) : ∀ (xs ys : List ENode) (st : UidState),
    uidFold f st (xs ++ ys) = uidFold f (uidFold f st xs) ys
  | [], ys, st => rfl
  | x :: xs, ys, st => by
      show uidFold f (uidStep f st x) (xs ++ ys) =
        uidFold f (uidFold f (uidStep f st x) xs) ys
      exact uidFold_append f xs ys _

mutual

theorem uidWalkN_fold (f : String) : ∀ (e : ENode) (st : UidState),
    uidWalkN f e st = uidFold f st (preorderN e)
  | .mk tg a tx cs tl, st => by
      rw [preorderN]
      show uidWalkL f cs (uidStep f st (ENode.mk tg a tx cs tl)) =
        uidFold f st (ENode.mk tg a tx cs tl :: preorderL cs)
      rw [show ∀ (st2 : UidState) (L : List ENode),
        uidFold f st2 (ENode.mk tg a tx cs tl :: L) =
          uidFold f (uidStep f st2 (ENode.mk tg a tx cs tl)) L from fun st2 L => rfl]
      exact uidWalkL_fold f cs _

theorem uidWalkL_fold (f : String) : ∀ (cs : List ENode) (st : UidState),
    uidWalkL f cs st = uidFold f st (preorderL cs)
  | [], st => rfl
  | c :: cs, st => by
      rw [preorderL, uidFold_append]
      show uidWalkL f cs (uidWalkN f c st) =
        uidFold f (uidFold f st (preorderN c)) (preorderL cs)
      rw [← uidWalkN_fold f c st]
      exact uidWalkL_fold f cs _

end

theorem uidFold_dup (f : String) (st : UidState) (t a v : String)
    (L1 L2 L3 : List ENode) (x y : ENode)
    (hx : resolveElem x = some (t, a, v, "file"))
    (hy : resolveElem y = some (t, a, v, "file")) :
    (uidFold f st (L1 ++ x :: (L2 ++ y :: L3))).errors ≠ [] := by
  rw [uidFold_append]
  rw [show ∀ (st2 : UidState), uidFold f st2 (x :: (L2 ++ y :: L3)) =
    uidFold f (uidStep f st2 x) (L2 ++ y :: L3) from fun st2 => rfl]
  rw [uidFold_append]
  rw [show ∀ (st2 : UidState), uidFold f st2 (y :: L3) =
    uidFold f (uidStep f st2 y) L3 from fun st2 => rfl]
  rcases uidStep_establish f (uidFold f st L1) x t a v hx with herr | hmem
  · have h2 := uidFold_errors_mono f L2 _ _ herr
    have h3 := uidStep_errors_mono f _ y _ h2
    have h4 := uidFold_errors_mono f L3 _ _ h3
    exact List.ne_nil_of_mem h4
  · have h2 := uidFold_fIds_mono f L2 _ _ hmem
    have h3 := uidStep_trigger f _ y t a v hy h2
    have h4 := uidFold_errors_mono f L3 _ _ h3
    exact List.ne_nil_of_mem h4

theorem rawT_ne_mc (t a scope rawT : String)
    (hlook : uniqueIdRequirements.lookup t = some (a, scope))
    (hlocT : localName rawT = t) : (rawT == mcAlternateContent) = false := by
  cases hq : (rawT == mcAlternateContent)
  · rfl
  · have he : rawT = mcAlternateContent := by simpa using hq
    rw [he] at hlocT
    rw [show localName mcAlternateContent = "alternatecontent" from rfl] at hlocT
    rw [← hlocT] at hlook
    rw [show uniqueIdRequirements.lookup "alternatecontent" = none from rfl] at hlook
    exact Option.noConfusion hlook

theorem resolve_leaf (t a scope rawT rawA v : String)
    (hlook : uniqueIdRequirements.lookup t = some (a, scope))
    (hlocT : localName rawT = t) (hlocA : localName rawA = a) :
    resolveElem (leafE rawT rawA v) = some (t, a, v, scope) := by
  rw [resolveElem]
  rw [show (leafE rawT rawA v).tag = rawT from rfl]
  rw [hlocT, hlook]
  try dsimp only
  rw [show (leafE rawT rawA v).attrs = [(rawA, v)] from rfl]
  rw [findAttrVal, if_pos (by rw [hlocA]; simp)]

theorem uidWalk_single (rawT rawA v f : String) (st : UidState) :
    uidWalkN f (ENode.mk "root" [] "" [leafE rawT rawA v] "") st =
      uidStep f st (leafE rawT rawA v) := by
  rw [uidWalkN]
  rw [show uidStep f st (ENode.mk "root" [] "" [leafE rawT rawA v] "") = st from rfl]
  rw [uidWalkL]
  rw [show uidWalkN f (leafE rawT rawA v) st =
    uidWalkL f [] (uidStep f st (leafE rawT rawA v)) from rfl]
  rfl


theorem uidStep_leafF (t a rawT rawA v f : String) (st : UidState)
    (hlook : uniqueIdRequirements.lookup t = some (a, "file"))
    (hlocT : localName rawT = t) (hlocA : localName rawA = a)
    (hseen : seenF st.fIds t a v = false) :
    uidStep f st (leafE rawT rawA v) = { st with fIds := (t, a, v) :: st.fIds } := by
  rw [uidStep, resolve_leaf t a "file" rawT rawA v hlook hlocT hlocA]
  try dsimp only
  rw [if_neg (by decide), if_neg (by rw [hseen]; simp)]

theorem uidStep_leafG_new (t a rawT rawA v f : String) (st : UidState)
    (hlook : uniqueIdRequirements.lookup t = some (a, "global"))
    (hlocT : localName rawT = t) (hlocA : localName rawA = a)
    (hseen : seenG st.gIds v = false) :
    uidStep f st (leafE rawT rawA v) = { st with gIds := (v, f, t) :: st.gIds } := by
  rw [uidStep, resolve_leaf t a "global" rawT rawA v hlook hlocT hlocA]
  try dsimp only
  rw [if_pos (by decide), if_neg (by rw [hseen]; simp)]

theorem uidStep_leafG_dup (t a rawT rawA v f : String) (st : UidState)
    (hlook : uniqueIdRequirements.lookup t = some (a, "global"))
    (hlocT : localName rawT = t) (hlocA : localName rawA = a)
    (hseen : seenG st.gIds v = true) :
    uidStep f st (leafE rawT rawA v) =
      { st with errors := st.errors ++ [(f, t, v)] } := by
  rw [uidStep, resolve_leaf t a "global" rawT rawA v hlook hlocT hlocA]
  try dsimp only
  rw [if_pos (by decide), if_pos hseen]

theorem stripAC_single (t a scope rawT rawA v : String)
    (hlook : uniqueIdRequirements.lookup t = some (a, scope))
    (hlocT : localName rawT = t) :
    stripACN (wrapE [leafE rawT rawA v]) =
      ENode.mk "root" [] "" [leafE rawT rawA v] "" := by
  have hne : ¬(((leafE rawT rawA v).tag == mcAlternateContent) = true) := by
    rw [show (leafE rawT rawA v).tag = rawT from rfl,
      rawT_ne_mc t a scope rawT hlook hlocT]
    simp
  show ENode.mk "root" [] "" (stripACL [leafE rawT rawA v]) "" = _
  rw [stripACL, if_neg hne, stripACL]
  rw [show stripACN (leafE rawT rawA v) = leafE rawT rawA v from rfl]

theorem stripAC_withAC (t a scope rawT rawA v : String)
    (hlook : uniqueIdRequirements.lookup t = some (a, scope))
    (hlocT : localName rawT = t) :
    stripACN (wrapE [leafE rawT rawA v, acE [leafE rawT rawA v]]) =
      ENode.mk "root" [] "" [leafE rawT rawA v] "" := by
  have hne : ¬(((leafE rawT rawA v).tag == mcAlternateContent) = true) := by
    rw [show (leafE rawT rawA v).tag = rawT from rfl,
      rawT_ne_mc t a scope rawT hlook hlocT]
    simp
  have hac : ((acE [leafE rawT rawA v]).tag == mcAlternateContent) = true := by
    rw [show (acE [leafE rawT rawA v]).tag = mcAlternateContent from rfl]
    simp
  show ENode.mk "root" [] ""
    (stripACL [leafE rawT rawA v, acE [leafE rawT rawA v]]) "" = _
  rw [stripACL, if_neg hne, stripACL, if_pos hac, stripACL]
  rw [show stripACN (leafE rawT rawA v) = leafE rawT rawA v from rfl]

end UniqueIds

namespace UniqueIds

/-- C8: the ID-uniqueness check (after removing `mc:AlternateContent`
blocks) reports a violation whenever two elements of a file-scoped kind in
the same file carry the same id value (first conjunct, over arbitrary
trees via the document-order element sequence); a file-scoped id value
used once in each of two different files is not reported (second
conjunct); a global-scoped id value occurring in two files is reported
(third conjunct); and an id inside an `mc:AlternateContent` block is
ignored, so a duplicate hidden there is not reported (fourth conjunct). -/
theorem C8_unique_id_scopes :
    (∀ (f : String) (root : ENode) (t a v : String) (L1 L2 L3 : List ENode)
        (x y : ENode),
      preorderN (stripACN root) = L1 ++ x :: (L2 ++ y :: L3) →
      resolveElem x = some (t, a, v, "file") →
      resolveElem y = some (t, a, v, "file") →
      validateUniqueIds [(f, root)] ≠ []) ∧
    (∀ (t a rawT rawA v f1 f2 : String),
      uniqueIdRequirements.lookup t = some (a, "file") →
      localName rawT = t → localName rawA = a →
      validateUniqueIds [(f1, wrapE [leafE rawT rawA v]),
        (f2, wrapE [leafE rawT rawA v])] = []) ∧
    (∀ (t a rawT rawA v f1 f2 : String),
      uniqueIdRequirements.lookup t = some (a, "global") →
      localName rawT = t → localName rawA = a →
      validateUniqueIds [(f1, wrapE [leafE rawT rawA v]),
        (f2, wrapE [leafE rawT rawA v])] ≠ []) ∧
    (∀ (t a rawT rawA v f : String),
      uniqueIdRequirements.lookup t = some (a, "file") →
      localName rawT = t → localName rawA = a →
      validateUniqueIds [(f, wrapE [leafE rawT rawA v, acE [leafE rawT rawA v]])] =
        []) := by
  refine ⟨?_, ?_, ?_, ?_⟩
  · intro f root t a v L1 L2 L3 x y hsplit hx hy
    have hval : validateUniqueIds [(f, root)] =
        (uidWalkN f (stripACN root) { errors := [], gIds := [], fIds := [] }).errors :=
      rfl
    rw [hval, uidWalkN_fold, hsplit]
    exact uidFold_dup f _ t a v L1 L2 L3 x y hx hy
  · intro t a rawT rawA v f1 f2 hlook hlocT hlocA
    have hfile : ∀ (f : String) (st : UidState),
        uidFile st (f, wrapE [leafE rawT rawA v]) =
          { errors := st.errors, gIds := st.gIds, fIds := [(t, a, v)] } := by
      intro f st
      rw [uidFile]
      try dsimp only
      rw [stripAC_single t a "file" rawT rawA v hlook hlocT,
        uidWalk_single rawT rawA v f _,
        uidStep_leafF t a rawT rawA v f _ hlook hlocT hlocA (by rfl)]
    show (uidFile (uidFile { errors := [], gIds := [], fIds := [] }
      (f1, wrapE [leafE rawT rawA v])) (f2, wrapE [leafE rawT rawA v])).errors = []
    rw [hfile, hfile]
  · intro t a rawT rawA v f1 f2 hlook hlocT hlocA
    show (uidFile (uidFile { errors := [], gIds := [], fIds := [] }
      (f1, wrapE [leafE rawT rawA v])) (f2, wrapE [leafE rawT rawA v])).errors ≠ []
    have hfile1 : uidFile { errors := [], gIds := [], fIds := [] }
        (f1, wrapE [leafE rawT rawA v]) =
        { errors := [], gIds := [(v, f1, t)], fIds := [] } := by
      rw [uidFile]
      try dsimp only
      rw [stripAC_single t a "global" rawT rawA v hlook hlocT,
        uidWalk_single rawT rawA v f1 _,
        uidStep_leafG_new t a rawT rawA v f1 _ hlook hlocT hlocA (by rfl)]
    rw [hfile1]
    have hfile2 : uidFile { errors := [], gIds := [(v, f1, t)], fIds := [] }
        (f2, wrapE [leafE rawT rawA v]) =
        { errors := [] ++ [(f2, t, v)], gIds := [(v, f1, t)], fIds := [] } := by
      rw [uidFile]
      try dsimp only
      rw [stripAC_single t a "global" rawT rawA v hlook hlocT,
        uidWalk_single rawT rawA v f2 _,
        uidStep_leafG_dup t a rawT rawA v f2 _ hlook hlocT hlocA
          (by rw [show seenG ([(v, f1, t)] : List (String × String × String)) v =
            ((v == v) || seenG [] v) from rfl]; simp)]
    rw [hfile2]
    exact List.cons_ne_nil _ _
  · intro t a rawT rawA v f hlook hlocT hlocA
    show (uidFile { errors := [], gIds := [], fIds := [] }
      (f, wrapE [leafE rawT rawA v, acE [leafE rawT rawA v]])).errors = []
    rw [uidFile]
    try dsimp only
    rw [stripAC_withAC t a "file" rawT rawA v hlook hlocT,
      uidWalk_single rawT rawA v f _,
      uidStep_leafF t a rawT rawA v f _ hlook hlocT hlocA (by rfl)]

/-- Witness for C8: two comments with id "0" in one file are flagged; the
same comment id in two files is not; the same slide-master id in two
files is flagged; a duplicate comment id hidden in `mc:AlternateContent`
is not. -/
theorem C8_unique_id_scopes_witness :
    validateUniqueIds [("word/comments.xml", wrapE [commentLeaf, commentLeaf])] ≠ [] ∧
    validateUniqueIds [("word/comments.xml", wrapE [commentLeaf]),
      ("word/footnotes.xml", wrapE [commentLeaf])] = [] ∧
    validateUniqueIds [("p1.xml", wrapE [masterLeaf]),
      ("p2.xml", wrapE [masterLeaf])] ≠ [] ∧
    validateUniqueIds [("word/comments.xml",
      wrapE [commentLeaf, acE [commentLeaf]])] = [] := by
  refine ⟨?_, ?_, ?_, ?_⟩
  · exact C8_unique_id_scopes.1 "word/comments.xml" (wrapE [commentLeaf, commentLeaf])
      "comment" "id" "0"
      [ENode.mk "root" [] "" [commentLeaf, commentLeaf] ""] [] []
      commentLeaf commentLeaf rfl rfl rfl
  · exact C8_unique_id_scopes.2.1 "comment" "id" "comment" "id" "0"
      "word/comments.xml" "word/footnotes.xml" rfl rfl rfl
  · exact C8_unique_id_scopes.2.2.1 "sldmasterid" "id" "sldmasterid" "id" "9"
      "p1.xml" "p2.xml" rfl rfl rfl
  · exact C8_unique_id_scopes.2.2.2 "comment" "id" "comment" "id" "0"
      "word/comments.xml" rfl rfl rfl

end UniqueIds

namespace Comments

theorem textAll_commentNode (id : Nat) (paraId text : String) :
    Docx.textAllN (commentNodeXml id paraId text) = text := by
  simp [commentNodeXml, Docx.textAllN, Docx.textAllL]

theorem injected_comment_census (cfg : Docx.Cfg) (st : Docx.InjSt) (id : Nat)
    (paraId text : String) :
    Editor.elementsByTagOne "w:comment"
      (Docx.injectNode cfg false (commentNodeXml id paraId text) st).1 =
      [(Docx.injectNode cfg false (commentNodeXml id paraId text) st).1] ∧
    Editor.getAttribute (Docx.injectNode cfg false (commentNodeXml id paraId text) st).1
      "w:id" = toString id ∧
    Docx.textAllN (Docx.injectNode cfg false (commentNodeXml id paraId text) st).1 =
      text := by
  have hext := Docx.injectNode_ext cfg false (commentNodeXml id paraId text) st
  rw [commentNodeXml] at hext
  cases hc : (Docx.injectNode cfg false (commentNodeXml id paraId text) st).1 with
  | text s =>
      rw [commentNodeXml] at hc
      rw [hc] at hext
      rw [XNode.attrExt_elem_text] at hext
      exact absurd hext (by simp)
  | elem tgc ac lnc csc =>
      rw [commentNodeXml] at hc
      rw [hc] at hext
      rw [XNode.attrExt_elem_iff] at hext
      obtain ⟨htg, hpre, hln, hcs⟩ := hext
      subst htg
      refine ⟨?_, ?_, ?_⟩
      · rw [Editor.elementsByTagOne, if_pos (by decide)]
        have hnil : Editor.elementsByTagL "w:comment" csc = [] := by
          refine Docx.skelL_census_nil "w:comment" (Docx.attrExtL_skel hcs) ?_
          rfl
        rw [hnil]
        rfl
      · have hl : ac.lookup "w:id" = some (toString id) :=
          Docx.lookup_some_of_prefix hpre rfl
        show (ac.lookup "w:id").getD "" = toString id
        rw [hl]
        rfl
      · show Docx.textAllL csc = text
        rw [Docx.skelL_textAll (Docx.attrExtL_skel hcs)]
        exact textAll_commentNode id paraId text

theorem injectedEx_parent (cfg : Docx.Cfg) (st : Docx.InjSt) (paraId p : String)
    (hp : (p == "") = false) :
    Editor.getAttribute
      (Docx.injectNode cfg false (commentExXml paraId (some p)) st).1
      "w15:paraIdParent" = p := by
  have hpreq : commentExXml paraId (some p) =
      .elem "w15:commentEx"
        [("w15:paraId", paraId), ("w15:paraIdParent", p), ("w15:done", "0")] none [] := by
    rw [commentExXml, if_neg (by rw [hp]; simp)]
  rw [hpreq]
  have hext := Docx.injectNode_ext cfg false
    (XNode.elem "w15:commentEx"
      [("w15:paraId", paraId), ("w15:paraIdParent", p), ("w15:done", "0")] none []) st
  cases hc : (Docx.injectNode cfg false
      (XNode.elem "w15:commentEx"
        [("w15:paraId", paraId), ("w15:paraIdParent", p), ("w15:done", "0")] none [])
      st).1 with
  | text s =>
      rw [hc] at hext
      rw [XNode.attrExt_elem_text] at hext
      exact absurd hext (by simp)
  | elem tgc ac lnc csc =>
      rw [hc] at hext
      rw [XNode.attrExt_elem_iff] at hext
      obtain ⟨htg, hpre, hln, hcs⟩ := hext
      have hl : ac.lookup "w15:paraIdParent" = some p := by
        refine Docx.lookup_some_of_prefix hpre ?_
        rw [show List.lookup "w15:paraIdParent"
          [("w15:paraId", paraId), ("w15:paraIdParent", p), ("w15:done", "0")] =
          some p from rfl]
      show (ac.lookup "w15:paraIdParent").getD "" = p
      rw [hl]
      rfl

theorem getNode_byId (cs : List XNode) (s : String) (c : XNode)
    (h : byId cs s = [c]) :
    Editor.getNode (fun x => x) (.elem "w:comments" [] none cs) "w:comment"
      (some [("w:id", s)]) none none = Except.ok c := by
  rw [Editor.getNode]
  have hm : Editor.getNodeMatches (fun x => x) (.elem "w:comments" [] none cs)
      "w:comment" (some [("w:id", s)]) none none = [c] := by
    rw [Editor.getNodeMatches]
    rw [show Editor.docElementsByTag (XNode.elem "w:comments" [] none cs) "w:comment" =
      Editor.elementsByTagL "w:comment" cs from by
        rw [Editor.docElementsByTag, Editor.elementsByTagOne, if_neg (by decide),
          List.nil_append]]
    rw [byId] at h
    rw [← h]
    apply List.filter_congr
    intro e he
    simp
  rw [hm]

end Comments

namespace Comments

set_option maxHeartbeats 2000000

/-- C9: `reply_to_comment` checks the parent id first and raises the
parent-not-found error before creating anything (first conjunct: the
result is exactly that error, with no state produced); on success the
extended-comments entry appended for the reply carries the parent
comment's paragraph id as `w15:paraIdParent` (second conjunct); and after
`add_comment` followed by `reply_to_comment`, both comment bodies are
retrievable from the comments part by their ids via `get_node`, with
their text contents intact (third conjunct — assuming the part held no
comment with either rendered id before, and that the two decimal
renderings differ, which decimal rendering always satisfies). -/
theorem C9_reply_to_comment :
    (∀ (d : DocSt) (pid : Nat) (text : String),
      d.existingComments.lookup pid = none →
      replyToComment d pid text =
        .error ("親コメントが見つかりません: id=" ++ toString pid)) ∧
    (∀ (d : DocSt) (pid : Nat) (text ppara : String),
      d.existingComments.lookup pid = some ppara →
      (ppara == "") = false →
      ∃ (d2 : DocSt) (rid : Nat),
        replyToComment d pid text = .ok (d2, rid) ∧
        Editor.getAttribute (d2.commentsEx.getLastD (.text "")) "w15:paraIdParent" =
          ppara) ∧
    (∀ (d : DocSt) (text1 text2 : String),
      byId d.comments (toString d.nextCommentId) = [] →
      byId d.comments (toString (d.nextCommentId + 1)) = [] →
      toString d.nextCommentId ≠ toString (d.nextCommentId + 1) →
      ∃ (d2 : DocSt) (idR : Nat) (cA cR : XNode),
        replyToComment (addComment d text1).1 (addComment d text1).2 text2 =
          .ok (d2, idR) ∧
        Editor.getNode (fun x => x) (.elem "w:comments" [] none d2.comments)
          "w:comment" (some [("w:id", toString (addComment d text1).2)]) none none =
          .ok cA ∧
        Docx.textAllN cA = text1 ∧
        Editor.getNode (fun x => x) (.elem "w:comments" [] none d2.comments)
          "w:comment" (some [("w:id", toString idR)]) none none = .ok cR ∧
        Docx.textAllN cR = text2) := by
  refine ⟨?_, ?_, ?_⟩
  · intro d pid text hlk
    rw [replyToComment, hlk]
  · intro d pid text ppara hlk hp
    refine ⟨(addCommentParts d text (some ppara)).1, (addCommentParts d text (some ppara)).2,
      ?_, ?_⟩
    · rw [replyToComment, hlk]
    · rw [show ((addCommentParts d text (some ppara)).1).commentsEx =
        d.commentsEx ++
          [(Docx.injectNode d.cfg false
            (commentExXml (d.cfg.hexIds d.hexIdx) (some ppara)) d.stEx).1] from rfl]
      rw [Docx.getLastD_append_single]
      exact injectedEx_parent d.cfg d.stEx (d.cfg.hexIds d.hexIdx) ppara hp
  · intro d text1 text2 hA hR hne
    have hlk : (addComment d text1).1.existingComments.lookup (addComment d text1).2 =
        some (d.cfg.hexIds d.hexIdx) := by
      show List.lookup d.nextCommentId
        ((d.nextCommentId, d.cfg.hexIds d.hexIdx) :: d.existingComments) =
        some (d.cfg.hexIds d.hexIdx)
      simp [List.lookup]
    have hfA := injected_comment_census d.cfg d.stC d.nextCommentId
      (d.cfg.hexIds d.hexIdx) text1
    have hfR := injected_comment_census d.cfg
      (Docx.injectNode d.cfg false
        (commentNodeXml d.nextCommentId (d.cfg.hexIds d.hexIdx) text1) d.stC).2
      (d.nextCommentId + 1) (d.cfg.hexIds (d.hexIdx + 2)) text2
    refine ⟨(addCommentParts (addComment d text1).1 text2
        (some (d.cfg.hexIds d.hexIdx))).1,
      (addCommentParts (addComment d text1).1 text2 (some (d.cfg.hexIds d.hexIdx))).2,
      (Docx.injectNode d.cfg false
        (commentNodeXml d.nextCommentId (d.cfg.hexIds d.hexIdx) text1) d.stC).1,
      (Docx.injectNode d.cfg false
        (commentNodeXml (d.nextCommentId + 1) (d.cfg.hexIds (d.hexIdx + 2)) text2)
        (Docx.injectNode d.cfg false
          (commentNodeXml d.nextCommentId (d.cfg.hexIds d.hexIdx) text1) d.stC).2).1,
      ?_, ?_, hfA.2.2, ?_, hfR.2.2⟩
    · rw [replyToComment, hlk]
    · have hco : ((addCommentParts (addComment d text1).1 text2
          (some (d.cfg.hexIds d.hexIdx))).1).comments =
          (d.comments ++
            [(Docx.injectNode d.cfg false
              (commentNodeXml d.nextCommentId (d.cfg.hexIds d.hexIdx) text1) d.stC).1]) ++
            [(Docx.injectNode d.cfg false
              (commentNodeXml (d.nextCommentId + 1) (d.cfg.hexIds (d.hexIdx + 2)) text2)
              (Docx.injectNode d.cfg false
                (commentNodeXml d.nextCommentId (d.cfg.hexIds d.hexIdx) text1)
                d.stC).2).1] := by
        simp only [addCommentParts, addComment]
      have hby : byId ((addCommentParts (addComment d text1).1 text2
          (some (d.cfg.hexIds d.hexIdx))).1).comments (toString d.nextCommentId) =
          [(Docx.injectNode d.cfg false
            (commentNodeXml d.nextCommentId (d.cfg.hexIds d.hexIdx) text1) d.stC).1] := by
        rw [hco]
        rw [byId] at hA ⊢
        rw [Docx.elementsByTagL_append, Docx.elementsByTagL_append, List.filter_append,
          List.filter_append, hA, Docx.elementsByTagL_cons, hfA.1,
          show Editor.elementsByTagL "w:comment" ([] : List XNode) = [] from rfl,
          List.append_nil, Docx.elementsByTagL_cons, hfR.1,
          show Editor.elementsByTagL "w:comment" ([] : List XNode) = [] from rfl,
          List.append_nil, List.filter_cons, List.filter_cons,
          if_pos (by rw [hfA.2.1]; simp),
          if_neg (by rw [hfR.2.1]; simp; exact fun h => hne h.symm)]
        simp
      exact getNode_byId _ _ _ hby
    · have hco : ((addCommentParts (addComment d text1).1 text2
          (some (d.cfg.hexIds d.hexIdx))).1).comments =
          (d.comments ++
            [(Docx.injectNode d.cfg false
              (commentNodeXml d.nextCommentId (d.cfg.hexIds d.hexIdx) text1) d.stC).1]) ++
            [(Docx.injectNode d.cfg false
              (commentNodeXml (d.nextCommentId + 1) (d.cfg.hexIds (d.hexIdx + 2)) text2)
              (Docx.injectNode d.cfg false
                (commentNodeXml d.nextCommentId (d.cfg.hexIds d.hexIdx) text1)
                d.stC).2).1] := by
        simp only [addCommentParts, addComment]
      have hid : ((addCommentParts (addComment d text1).1 text2
          (some (d.cfg.hexIds d.hexIdx))).2) = d.nextCommentId + 1 := by
        simp only [addCommentParts, addComment]
      have hby : byId ((addCommentParts (addComment d text1).1 text2
          (some (d.cfg.hexIds d.hexIdx))).1).comments
          (toString ((addCommentParts (addComment d text1).1 text2
            (some (d.cfg.hexIds d.hexIdx))).2)) =
          [(Docx.injectNode d.cfg false
            (commentNodeXml (d.nextCommentId + 1) (d.cfg.hexIds (d.hexIdx + 2)) text2)
            (Docx.injectNode d.cfg false
              (commentNodeXml d.nextCommentId (d.cfg.hexIds d.hexIdx) text1)
              d.stC).2).1] := by
        rw [hco, hid]
        rw [byId] at hR ⊢
        rw [Docx.elementsByTagL_append, Docx.elementsByTagL_append, List.filter_append,
          List.filter_append, hR, Docx.elementsByTagL_cons, hfA.1,
          show Editor.elementsByTagL "w:comment" ([] : List XNode) = [] from rfl,
          List.append_nil, Docx.elementsByTagL_cons, hfR.1,
          show Editor.elementsByTagL "w:comment" ([] : List XNode) = [] from rfl,
          List.append_nil, List.filter_cons, List.filter_cons,
          if_neg (by rw [hfA.2.1]; simp; exact hne),
          if_pos (by rw [hfR.2.1]; simp)]
        simp
      exact getNode_byId _ _ _ hby

/-- Witness for C9: on a fresh session, replying to the unknown id 5
fails with the parent-not-found message; replying to comment 0 after
adding it threads its paragraph id; add then reply makes both bodies
retrievable by ids 0 and 1. -/
theorem C9_reply_to_comment_witness :
    replyToComment dW 5 "x" = .error "親コメントが見つかりません: id=5" ∧
    (∃ (d2 : DocSt) (rid : Nat),
      replyToComment (addComment dW "first").1 0 "r2" = .ok (d2, rid) ∧
      Editor.getAttribute (d2.commentsEx.getLastD (.text "")) "w15:paraIdParent" =
        dW.cfg.hexIds 0) ∧
    (∃ (d2 : DocSt) (idR : Nat) (cA cR : XNode),
      replyToComment (addComment dW "first").1 (addComment dW "first").2 "reply" =
        .ok (d2, idR) ∧
      Editor.getNode (fun x => x) (.elem "w:comments" [] none d2.comments)
        "w:comment" (some [("w:id", toString (addComment dW "first").2)]) none none =
        .ok cA ∧
      Docx.textAllN cA = "first" ∧
      Editor.getNode (fun x => x) (.elem "w:comments" [] none d2.comments)
        "w:comment" (some [("w:id", toString idR)]) none none = .ok cR ∧
      Docx.textAllN cR = "reply") := by
  refine ⟨?_, ?_, ?_⟩
  · exact C9_reply_to_comment.1 dW 5 "x" rfl
  · exact C9_reply_to_comment.2.1 (addComment dW "first").1 0 "r2" (dW.cfg.hexIds 0)
      rfl (by decide)
  · exact C9_reply_to_comment.2.2 dW "first" "reply" rfl rfl (by decide)

end Comments
